import Mathlib

/-!
PeersCode `hw0/Graph.hpp`: a shallow embedding of the graph container variants.

The repository holds several variants of the same class `Graph` (a 3-D
undirected graph with `Node` and `Edge` handle classes).  A variant is embedded
in a namespace of its own, named after the file it comes from:

* `G0e057`  : `src/hw0/Graph_0e057bb55f26.hpp`
* `G2eee`   : `src/hw0/Graph_2eee0fc59d4c.hpp`
* `G1538`   : `src/hw0/Graph_1538fb7d5508.hpp`
* `G8998`   : `src/hw0/Graph_8998baa3d11f.hpp`
* `Gd30b`   : `src/hw0/Graph_d30b0457858d.hpp`
* `Gfb5c`   : `src/hw0/Graph_fb5c2f2afa8a.hpp`

Conventions of the embedding.

* A `std::vector<T>` is a `List T`; `push_back` appends at the end; `v[i]` is
  `v[i]?`, and an access outside the vector (undefined behaviour in C++) makes
  the embedded operation return `none` (or `Except.error Fault.undefined`).
* A `Graph*` is an address `Addr`; the member functions that read `this`
  take it as their first argument.  Handle methods that dereference their
  `graph_` pointer take the heap of graph objects.
* `size_type` is `unsigned`.  Indices and counts are natural numbers: the
  development is about graphs whose node and edge counts stay in the range
  of `size_type`, where no conversion truncates.
* A `for` loop over `0 .. n-1` is a recursion whose first argument counts the
  iterations that remain, so it always terminates with the loop.
-/

/-- Address of a `Graph` object: the value of a `Graph*`. -/
abbrev Addr := Nat

/-- Modelled from the spec: the Point primitive of `CME212/Point.hpp`, which is
not part of the sources: an immutable 3-tuple of coordinates with equality.
The coordinates (doubles in the original) are taken to be integers. -/
structure Point where
  x : Int
  y : Int
  z : Int
deriving DecidableEq, Repr

/-- The ways an embedded operation can fail to return. -/
inductive Fault where
  | assertion
  | undefined
deriving DecidableEq, Repr

/-- One call of the mutating interface of `Graph`.  `add_edge i j` stands for
`add_edge(node(i), node(j))`. -/
inductive Op where
  | add_node (position : Point)
  | add_edge (i j : Nat)
  | clear
deriving DecidableEq, Repr

/-- Exactly one of three booleans is true. -/
def exactlyOne (p q r : Bool) : Bool :=
  (p && !q && !r) || (!p && q && !r) || (!p && !q && r)

/-- No call of the sequence is `clear()`. -/
def noClear : List Op → Bool
  | [] => true
  | Op.clear :: _ => false
  | _ :: ops => noClear ops

/-- The points passed to `add_node` by a sequence of calls, in their order. -/
def addedPoints : List Op → List Point
  | [] => []
  | Op.add_node position :: ops => position :: addedPoints ops
  | _ :: ops => addedPoints ops

/-! ## Variant `Graph_1538fb7d5508.hpp` (adjacency lists) -/

namespace G1538

/-- The data members of `Graph`. -/
structure Graph where
  nodes_ : List Point
  edges_ : List (Nat × Nat)
  adjacency_ : List (List Nat)
deriving DecidableEq, Repr

/-- The class `Graph::Node`. -/
structure Node where
  graph_ : Addr
  uid_ : Nat
deriving DecidableEq, Repr

/-- The class `Graph::Edge`. -/
structure Edge where
  graph_ : Addr
  node1_uid_ : Nat
  node2_uid_ : Nat
deriving DecidableEq, Repr

/-- The heap of graph objects. -/
abbrev Heap := Addr → Option Graph

/-- The constructor `Graph()`. -/
def empty : Graph := ⟨[], [], []⟩

/-- The method `Node::position`: `graph_->nodes_[uid_]`. -/
def Node.position (heap : Heap) (n : Node) : Option Point :=
  match heap n.graph_ with
  | none => none
  | some g => g.nodes_[n.uid_]?

/-- The method `Node::index`. -/
def Node.index (n : Node) : Nat := n.uid_

/-- The operator `Node::operator==`. -/
def Node.eq (x n : Node) : Bool :=
  decide (x.graph_ = n.graph_) && decide (x.uid_ = n.index)

/-- The operator `Node::operator<`. -/
def Node.lt (x n : Node) : Bool :=
  if x.graph_ = n.graph_ then decide (x.uid_ < n.index)
  else decide (x.graph_ < n.graph_)

/-- The method `Graph::size`. -/
def size (g : Graph) : Nat := g.nodes_.length

/-- The method `Graph::num_nodes`. -/
def num_nodes (g : Graph) : Nat := size g

/-- The method `Graph::add_node`. -/
def add_node (this : Addr) (g : Graph) (position : Point) : Graph × Node :=
  let nodes1 := g.nodes_ ++ [position]
  let connected_nodes : List Nat := []
  let adjacency1 := g.adjacency_ ++ [connected_nodes]
  (⟨nodes1, g.edges_, adjacency1⟩, ⟨this, nodes1.length - 1⟩)

/-- The method `Graph::has_node`. -/
def has_node (this : Addr) (g : Graph) (n : Node) : Bool :=
  decide (this = n.graph_) && decide (n.index < size g)

/-- The method `Graph::node`. -/
def node (this : Addr) (i : Nat) : Node := ⟨this, i⟩

/-- The method `Edge::node1`: `graph_->node(node1_uid_)`. -/
def Edge.node1 (e : Edge) : Node := node e.graph_ e.node1_uid_

/-- The method `Edge::node2`: `graph_->node(node2_uid_)`. -/
def Edge.node2 (e : Edge) : Node := node e.graph_ e.node2_uid_

/-- The operator `Edge::operator==`. -/
def Edge.eq (x e : Edge) : Bool :=
  let same_graph := decide (x.graph_ = e.graph_)
  let direction1 := decide (x.node1_uid_ = e.node1_uid_) && decide (x.node2_uid_ = e.node2_uid_)
  let direction2 := decide (x.node1_uid_ = e.node2_uid_) && decide (x.node2_uid_ = e.node1_uid_)
  same_graph && (direction1 || direction2)

/-- The operator `Edge::operator<`. -/
def Edge.lt (x e : Edge) : Bool :=
  if x.graph_ = e.graph_ then
    if x.node1_uid_ = e.node1_uid_ then decide (x.node2_uid_ < e.node2_uid_)
    else decide (x.node1_uid_ < e.node1_uid_)
  else decide (x.graph_ < e.graph_)

/-- The method `Graph::num_edges`. -/
def num_edges (g : Graph) : Nat := g.edges_.length

/-- The method `Graph::edge`. -/
def edge (this : Addr) (g : Graph) (i : Nat) : Option Edge :=
  match g.edges_[i]? with
  | none => none
  | some p => some ⟨this, p.1, p.2⟩

/-- The loop of `Graph::has_edge` over the copied adjacency list. -/
def has_edge_loop (node2_uid : Nat) : List Nat → Bool
  | [] => false
  | c :: rest => if c = node2_uid then true else has_edge_loop node2_uid rest

/-- The method `Graph::has_edge`. -/
def has_edge (g : Graph) (a b : Node) : Option Bool :=
  let node1_uid := a.index
  let node2_uid := b.index
  match g.adjacency_[node1_uid]? with
  | none => none
  | some connected_nodes => some (has_edge_loop node2_uid connected_nodes)

/-- The statement `adjacency_[u].push_back(v)`. -/
def adjacency_push (adjacency : List (List Nat)) (u v : Nat) : Option (List (List Nat)) :=
  match adjacency[u]? with
  | none => none
  | some l => some (adjacency.set u (l ++ [v]))

/-- The method `Graph::add_edge`. -/
def add_edge (this : Addr) (g : Graph) (a b : Node) : Option (Graph × Edge) :=
  let node1_uid := a.index
  let node2_uid := b.index
  match has_edge g a b with
  | none => none
  | some true => some (g, ⟨this, node1_uid, node2_uid⟩)
  | some false =>
    match adjacency_push g.adjacency_ node1_uid node2_uid with
    | none => none
    | some adjacency1 =>
      match adjacency_push adjacency1 node2_uid node1_uid with
      | none => none
      | some adjacency2 =>
        some (⟨g.nodes_, g.edges_ ++ [(node1_uid, node2_uid)], adjacency2⟩,
              ⟨this, node1_uid, node2_uid⟩)

/-- The method `Graph::clear`. -/
def clear (_g : Graph) : Graph := ⟨[], [], []⟩

/-- A handle is a valid node of the graph at `this`. -/
def validNode (this : Addr) (g : Graph) (n : Node) : Prop :=
  n.graph_ = this ∧ n.index < num_nodes g

/-- One call; a call of `add_edge` is admitted on distinct valid nodes only. -/
def step (this : Addr) (g : Graph) : Op → Option Graph
  | Op.add_node position => some (add_node this g position).1
  | Op.add_edge i j =>
    if i < num_nodes g ∧ j < num_nodes g ∧ i ≠ j then
      (add_edge this g (node this i) (node this j)).map Prod.fst
    else none
  | Op.clear => some (clear g)

/-- A sequence of calls, from the left. -/
def run (this : Addr) : List Op → Graph → Option Graph
  | [], g => some g
  | op :: ops, g =>
    match step this g op with
    | none => none
    | some g1 => run this ops g1

/-- The value `v` occurs in the adjacency list of `u`. -/
def adjMem (adjacency : List (List Nat)) (u v : Nat) : Prop :=
  ∃ l, adjacency[u]? = some l ∧ v ∈ l

/-- Two stored pairs connect the same two nodes, in either order. -/
def samePair (p q : Nat × Nat) : Prop :=
  (p.1 = q.1 ∧ p.2 = q.2) ∨ (p.1 = q.2 ∧ p.2 = q.1)

/-- The representation invariant of the variant: one adjacency list per node,
the adjacency lists hold exactly the stored edges (in both directions), the
stored edges join distinct nodes of the graph, and no two slots of `edges_`
hold the same unordered pair. -/
structure Inv (g : Graph) : Prop where
  adj_len : g.adjacency_.length = g.nodes_.length
  adj_iff : ∀ u v, adjMem g.adjacency_ u v ↔ ((u, v) ∈ g.edges_ ∨ (v, u) ∈ g.edges_)
  ends : ∀ p ∈ g.edges_, p.1 < g.nodes_.length ∧ p.2 < g.nodes_.length ∧ p.1 ≠ p.2
  uniq : g.edges_.Pairwise (fun p q => ¬ samePair p q)

/-- An edge handle issued by the graph at `this`: returned by `edge(i)` with
`i < num_edges()` in a reachable state, or returned by `add_edge` on distinct
valid nodes of a reachable state. -/
def issuedEdge (this : Addr) (e : Edge) : Prop :=
  ∃ ops g, run this ops empty = some g ∧
    ((∃ i, i < num_edges g ∧ edge this g i = some e) ∨
     (∃ a b, validNode this g a ∧ validNode this g b ∧ a.index ≠ b.index ∧
        (add_edge this g a b).map Prod.snd = some e))

/-- No index occurs twice in the same adjacency list. -/
def AdjNodup (g : Graph) : Prop :=
  ∀ (u : Nat) (l : List Nat), g.adjacency_[u]? = some l → l.Nodup

end G1538

/-! ## Variant `Graph_0e057bb55f26.hpp` (edge list with explicit counters) -/

namespace G0e057

/-- The data members of `Graph`. -/
structure Graph where
  nodes_ : List Point
  edgeList_ : List (Nat × Nat)
  graph_node_size_ : Nat
  graph_edge_size_ : Nat
deriving DecidableEq, Repr

/-- The class `Graph::Node`. -/
structure Node where
  graph_ : Addr
  idx_ : Nat
deriving DecidableEq, Repr

/-- The class `Graph::Edge`. -/
structure Edge where
  graph_ : Addr
  idx_ : Nat
deriving DecidableEq, Repr

/-- The heap of graph objects. -/
abbrev Heap := Addr → Option Graph

/-- The heap that holds the one graph `g`, at address `this`. -/
def heapOf (this : Addr) (g : Graph) : Heap :=
  fun a => if a = this then some g else none

/-- The constructor `Graph()`. -/
def empty : Graph := ⟨[], [], 0, 0⟩

/-- The method `Node::position`: `graph_->nodes_[idx_]`. -/
def Node.position (heap : Heap) (n : Node) : Option Point :=
  match heap n.graph_ with
  | none => none
  | some g => g.nodes_[n.idx_]?

/-- The method `Node::index`. -/
def Node.index (n : Node) : Nat := n.idx_

/-- The operator `Node::operator==`. -/
def Node.eq (x n : Node) : Bool :=
  if x.graph_ = n.graph_ ∧ x.idx_ = n.index then true else false

/-- The operator `Node::operator<`. -/
def Node.lt (x n : Node) : Bool :=
  if x.graph_ < n.graph_ then true
  else if x.graph_ = n.graph_ ∧ x.idx_ < n.idx_ then true
  else false

/-- The method `Graph::size`. -/
def size (g : Graph) : Nat := g.graph_node_size_

/-- The method `Graph::num_nodes`. -/
def num_nodes (g : Graph) : Nat := size g

/-- The method `Graph::add_node`. -/
def add_node (this : Addr) (g : Graph) (position : Point) : Graph × Node :=
  let nodes1 := g.nodes_ ++ [position]
  let n : Node := ⟨this, g.graph_node_size_⟩
  (⟨nodes1, g.edgeList_, g.graph_node_size_ + 1, g.graph_edge_size_⟩, n)

/-- The method `Graph::has_node`. -/
def has_node (g : Graph) (n : Node) : Bool :=
  if n.index < size g then true else false

/-- The method `Graph::node`. -/
def node (this : Addr) (i : Nat) : Node := ⟨this, i⟩

/-- The method `Edge::node1`: `Node(graph_, graph_->edgeList_[idx_].first)`. -/
def Edge.node1 (heap : Heap) (e : Edge) : Option Node :=
  match heap e.graph_ with
  | none => none
  | some g =>
    match g.edgeList_[e.idx_]? with
    | none => none
    | some p => some ⟨e.graph_, p.1⟩

/-- The method `Edge::node2`: `Node(graph_, graph_->edgeList_[idx_].second)`. -/
def Edge.node2 (heap : Heap) (e : Edge) : Option Node :=
  match heap e.graph_ with
  | none => none
  | some g =>
    match g.edgeList_[e.idx_]? with
    | none => none
    | some p => some ⟨e.graph_, p.2⟩

/-- The operator `Edge::operator==`, with the short-circuit evaluation of `&&`. -/
def Edge.eq (heap : Heap) (x e : Edge) : Option Bool :=
  if x.graph_ ≠ e.graph_ then some false
  else do
    let a1 ← x.node1 heap
    let b1 ← e.node1 heap
    let straight ←
      (if Node.eq a1 b1 then do
        let a2 ← x.node2 heap
        let b2 ← e.node2 heap
        pure (Node.eq a2 b2)
      else pure false)
    if straight then pure true
    else do
      let c1 ← x.node1 heap
      let d2 ← e.node2 heap
      if Node.eq c1 d2 then do
        let c2 ← x.node2 heap
        let d1 ← e.node1 heap
        pure (Node.eq c2 d1)
      else pure false

/-- The method `Graph::num_edges`. -/
def num_edges (g : Graph) : Nat := g.graph_edge_size_

/-- The method `Graph::edge`. -/
def edge (this : Addr) (i : Nat) : Edge := ⟨this, i⟩

/-- The loop of `Graph::has_edge`: `remaining` iterations are left, the loop
variable is `i`. -/
def has_edge_loop (edgeList : List (Nat × Nat)) (a b : Nat) : Nat → Nat → Option Bool
  | 0, _ => some false
  | remaining + 1, i =>
    match edgeList[i]? with
    | none => none
    | some p =>
      if p.1 = a ∧ p.2 = b then some true
      else if p.1 = b ∧ p.2 = a then some true
      else has_edge_loop edgeList a b remaining (i + 1)

/-- The method `Graph::has_edge`. -/
def has_edge (g : Graph) (a b : Node) : Option Bool :=
  has_edge_loop g.edgeList_ a.index b.index g.graph_edge_size_ 0

/-- The loop of `Graph::add_edge` that looks for the slot of the existing edge:
`some (some i)` when it returns slot `i`, `some none` when it runs to its end. -/
def add_edge_loop (edgeList : List (Nat × Nat)) (a b : Nat) : Nat → Nat → Option (Option Nat)
  | 0, _ => some none
  | remaining + 1, i =>
    match edgeList[i]? with
    | none => none
    | some p =>
      if p.1 = a ∧ p.2 = b then some (some i)
      else if p.1 = b ∧ p.2 = a then some (some i)
      else add_edge_loop edgeList a b remaining (i + 1)

/-- The tail of `Graph::add_edge`: create a new edge. -/
def add_edge_new (this : Addr) (g : Graph) (a b : Node) : Graph × Edge :=
  let thisPair : Nat × Nat := (a.index, b.index)
  let e : Edge := ⟨this, g.graph_edge_size_⟩
  (⟨g.nodes_, g.edgeList_ ++ [thisPair], g.graph_node_size_, g.graph_edge_size_ + 1⟩, e)

/-- The method `Graph::add_edge`. -/
def add_edge (this : Addr) (g : Graph) (a b : Node) : Option (Graph × Edge) :=
  match has_edge g a b with
  | none => none
  | some true =>
    match add_edge_loop g.edgeList_ a.index b.index g.graph_edge_size_ 0 with
    | none => none
    | some (some i) => some (g, ⟨this, i⟩)
    | some none => some (add_edge_new this g a b)
  | some false => some (add_edge_new this g a b)

/-- The method `Graph::clear`: the two counters are left as they are. -/
def clear (g : Graph) : Graph := ⟨[], [], g.graph_node_size_, g.graph_edge_size_⟩

/-- One call; a call of `add_edge` is admitted on distinct valid nodes only. -/
def step (this : Addr) (g : Graph) : Op → Option Graph
  | Op.add_node position => some (add_node this g position).1
  | Op.add_edge i j =>
    if i < num_nodes g ∧ j < num_nodes g ∧ i ≠ j then
      (add_edge this g (node this i) (node this j)).map Prod.fst
    else none
  | Op.clear => some (clear g)

/-- A sequence of calls, from the left. -/
def run (this : Addr) : List Op → Graph → Option Graph
  | [], g => some g
  | op :: ops, g =>
    match step this g op with
    | none => none
    | some g1 => run this ops g1

/-- A handle is a valid node of the graph at `this`. -/
def validNode (this : Addr) (g : Graph) (n : Node) : Prop :=
  n.graph_ = this ∧ n.index < num_nodes g

/-- The test of the loops of `has_edge` and `add_edge`: the stored pair `p`
connects the indices `a` and `b`. -/
def connects (a b : Nat) (p : Nat × Nat) : Prop :=
  (p.1 = a ∧ p.2 = b) ∨ (p.1 = b ∧ p.2 = a)

/-- The two counters agree with the sizes of the two vectors. -/
def Sized (g : Graph) : Prop :=
  g.graph_node_size_ = g.nodes_.length ∧ g.graph_edge_size_ = g.edgeList_.length

/-- The function `std::min` on nodes: `(b < a) ? b : a`. -/
def std_min (a b : Node) : Node := if Node.lt b a then b else a

/-- The function `std::max` on nodes: `(a < b) ? b : a`. -/
def std_max (a b : Node) : Node := if Node.lt a b then b else a

/-- The operator `Edge::operator<`. -/
def Edge.lt (heap : Heap) (x e : Edge) : Option Bool :=
  if x.graph_ < e.graph_ then some true
  else if x.graph_ = e.graph_ then do
    let a1 ← x.node1 heap
    let a2 ← x.node2 heap
    let b1 ← e.node1 heap
    let b2 ← e.node2 heap
    if Node.lt (std_min a1 a2) (std_min b1 b2) then pure true
    else if Node.eq (std_min a1 a2) (std_min b1 b2) &&
        Node.lt (std_max a1 a2) (std_max b1 b2) then pure true
    else pure false
  else some false

end G0e057

/-! ## Variant `Graph_2eee0fc59d4c.hpp` (adjacency lists, with assertions) -/

namespace G2eee

/-- The struct `Graph::internal_node`. -/
structure internal_node where
  point : Point
  h : List Nat
deriving DecidableEq, Repr

/-- The data members of `Graph`. -/
structure Graph where
  nodes_ : List internal_node
  edges_ : List (List Nat)
  edges_list : List (List Nat)
deriving DecidableEq, Repr

/-- The class `Graph::Node`. -/
structure Node where
  graph_ : Addr
  uid_ : Nat
deriving DecidableEq, Repr

/-- The class `Graph::Edge`. -/
structure Edge where
  graph_ : Addr
  uid1_ : Nat
  uid2_ : Nat
deriving DecidableEq, Repr

/-- The heap of graph objects. -/
abbrev Heap := Addr → Option Graph

/-- The constructor `Graph()`. -/
def empty : Graph := ⟨[], [], []⟩

/-- The method `Node::fetch`. -/
def Node.fetch (heap : Heap) (n : Node) : Except Fault internal_node :=
  match heap n.graph_ with
  | none => Except.error Fault.undefined
  | some g =>
    if n.uid_ < g.nodes_.length then
      match g.nodes_[n.uid_]? with
      | none => Except.error Fault.undefined
      | some r => Except.ok r
    else Except.error Fault.assertion

/-- The method `Node::position`. -/
def Node.position (heap : Heap) (n : Node) : Except Fault Point :=
  match Node.fetch heap n with
  | Except.error f => Except.error f
  | Except.ok r => Except.ok r.point

/-- The method `Node::index`. -/
def Node.index (n : Node) : Nat := n.uid_

/-- The operator `Node::operator==`. -/
def Node.eq (x n : Node) : Bool :=
  decide (x.graph_ = n.graph_) && decide (x.uid_ = n.uid_)

/-- The operator `Node::operator<`. -/
def Node.lt (x n : Node) : Bool :=
  if x.graph_ ≠ n.graph_ then decide (x.graph_ < n.graph_)
  else decide (x.uid_ < n.uid_)

/-- The method `Graph::size`. -/
def size (g : Graph) : Nat := g.nodes_.length

/-- The method `Graph::num_nodes`. -/
def num_nodes (g : Graph) : Nat := size g

/-- The method `Graph::add_node`. -/
def add_node (this : Addr) (g : Graph) (position : Point) : Graph × Node :=
  let nodes1 := g.nodes_ ++ [⟨position, []⟩]
  let adj_list : List Nat := []
  let edges1 := g.edges_ ++ [adj_list]
  (⟨nodes1, edges1, g.edges_list⟩, ⟨this, nodes1.length - 1⟩)

/-- The method `Graph::has_node`. -/
def has_node (this : Addr) (n : Node) : Bool :=
  decide (n.graph_ = this)

/-- The method `Graph::node`. -/
def node (this : Addr) (g : Graph) (i : Nat) : Except Fault Node :=
  if i < num_nodes g then Except.ok ⟨this, i⟩ else Except.error Fault.assertion

/-- The method `Edge::node1`. -/
def Edge.node1 (e : Edge) : Node := ⟨e.graph_, e.uid1_⟩

/-- The method `Edge::node2`. -/
def Edge.node2 (e : Edge) : Node := ⟨e.graph_, e.uid2_⟩

/-- The operator `Edge::operator==`. -/
def Edge.eq (x e : Edge) : Bool :=
  let comp := (decide (x.uid1_ = e.uid1_) && decide (x.uid2_ = e.uid2_)) ||
              (decide (x.uid1_ = e.uid2_) && decide (x.uid2_ = e.uid1_))
  decide (x.graph_ = e.graph_) && comp

/-- The operator `Edge::operator<`. -/
def Edge.lt (x e : Edge) : Bool :=
  if x.graph_ = e.graph_ then
    if x.uid1_ = e.uid1_ then decide (x.uid2_ < e.uid2_)
    else decide (x.uid1_ < e.uid1_)
  else decide (x.graph_ < e.graph_)

/-- The method `Graph::num_edges`. -/
def num_edges (g : Graph) : Nat := g.edges_list.length

/-- The method `Graph::edge`. -/
def edge (this : Addr) (g : Graph) (i : Nat) : Except Fault Edge :=
  match g.edges_list[i]? with
  | none => Except.error Fault.undefined
  | some row =>
    match row[0]?, row[1]? with
    | some uid1, some uid2 => Except.ok ⟨this, uid1, uid2⟩
    | _, _ => Except.error Fault.undefined

/-- The loop of `Graph::has_edge` over the adjacency list `edges_[a.uid_]`. -/
def has_edge_loop (b_uid : Nat) : List Nat → Bool
  | [] => false
  | c :: rest => if c = b_uid then true else has_edge_loop b_uid rest

/-- The method `Graph::has_edge`. -/
def has_edge (this : Addr) (g : Graph) (a b : Node) : Except Fault Bool :=
  if a.graph_ = this ∧ b.graph_ = this then
    match g.edges_[a.uid_]? with
    | none => Except.error Fault.undefined
    | some l => Except.ok (has_edge_loop b.uid_ l)
  else Except.error Fault.assertion

/-- The statement `edges_[u].push_back(v)`. -/
def edges_push (edges : List (List Nat)) (u v : Nat) : Except Fault (List (List Nat)) :=
  match edges[u]? with
  | none => Except.error Fault.undefined
  | some l => Except.ok (edges.set u (l ++ [v]))

/-- The method `Graph::add_edge`. -/
def add_edge (this : Addr) (g : Graph) (a b : Node) : Except Fault (Graph × Edge) :=
  if a.uid_ ≠ b.uid_ then
    let new_edge : List Nat := [a.uid_, b.uid_]
    match has_edge this g a b with
    | Except.error f => Except.error f
    | Except.ok true => Except.ok (g, ⟨this, a.uid_, b.uid_⟩)
    | Except.ok false =>
      match edges_push g.edges_ a.uid_ b.uid_ with
      | Except.error f => Except.error f
      | Except.ok edges1 =>
        match edges_push edges1 b.uid_ a.uid_ with
        | Except.error f => Except.error f
        | Except.ok edges2 =>
          Except.ok (⟨g.nodes_, edges2, g.edges_list ++ [new_edge]⟩, ⟨this, a.uid_, b.uid_⟩)
  else Except.error Fault.assertion

/-- The method `Graph::add_edge` with the graph carried through every
statement: the first component is the graph as the call leaves it, also when the
call stops at a fault (then it is the graph at the statement that faults); the
second component is what `add_edge` returns. -/
def add_edge_stmts (this : Addr) (g : Graph) (a b : Node) : Graph × Except Fault Edge :=
  if a.uid_ ≠ b.uid_ then
    let new_edge : List Nat := [a.uid_, b.uid_]
    match has_edge this g a b with
    | Except.error f => (g, Except.error f)
    | Except.ok true => (g, Except.ok ⟨this, a.uid_, b.uid_⟩)
    | Except.ok false =>
      match edges_push g.edges_ a.uid_ b.uid_ with
      | Except.error f => (g, Except.error f)
      | Except.ok edges1 =>
        match edges_push edges1 b.uid_ a.uid_ with
        | Except.error f => (⟨g.nodes_, edges1, g.edges_list⟩, Except.error f)
        | Except.ok edges2 =>
          (⟨g.nodes_, edges2, g.edges_list ++ [new_edge]⟩, Except.ok ⟨this, a.uid_, b.uid_⟩)
  else (g, Except.error Fault.assertion)

/-- The method `Graph::clear`: the adjacency vector `edges_` is left as it is. -/
def clear (g : Graph) : Graph := ⟨[], g.edges_, []⟩

/-- One call; a call of `add_edge` is admitted on distinct valid nodes only. -/
def step (this : Addr) (g : Graph) : Op → Option Graph
  | Op.add_node position => some (add_node this g position).1
  | Op.add_edge i j =>
    if i < num_nodes g ∧ j < num_nodes g ∧ i ≠ j then
      match add_edge this g ⟨this, i⟩ ⟨this, j⟩ with
      | Except.error _ => none
      | Except.ok r => some r.1
    else none
  | Op.clear => some (clear g)

/-- A sequence of calls, from the left. -/
def run (this : Addr) : List Op → Graph → Option Graph
  | [], g => some g
  | op :: ops, g =>
    match step this g op with
    | none => none
    | some g1 => run this ops g1

/-- A handle is a valid node of the graph at `this`. -/
def validNode (this : Addr) (g : Graph) (n : Node) : Prop :=
  n.graph_ = this ∧ n.index < num_nodes g

/-- The value `v` occurs in the adjacency list `edges_[u]`. -/
def adjMem (edges : List (List Nat)) (u v : Nat) : Prop :=
  ∃ l, edges[u]? = some l ∧ v ∈ l

/-- The invariant of the adjacency vector that holds in every reachable
state, also after `clear()`: it has an entry for every node, and it is
symmetric. -/
structure Inv (g : Graph) : Prop where
  len : g.nodes_.length ≤ g.edges_.length
  symm : ∀ u v, adjMem g.edges_ u v → adjMem g.edges_ v u

/-- Two rows of `edges_list` hold the same two indices, in either order. -/
def sameRow (r s : List Nat) : Prop :=
  (r[0]? = s[0]? ∧ r[1]? = s[1]?) ∨ (r[0]? = s[1]? ∧ r[1]? = s[0]?)

/-- The invariant of the enumeration list `edges_list`: every row is a pair
that the adjacency vector holds in both directions, and no two rows hold the
same unordered pair. -/
structure ListInv (g : Graph) : Prop where
  rows : ∀ row ∈ g.edges_list, ∃ u v, row = [u, v] ∧
    adjMem g.edges_ u v ∧ adjMem g.edges_ v u
  uniq : g.edges_list.Pairwise (fun r s => ¬ sameRow r s)

/-- The heap that holds the one graph `g`, at address `this`. -/
def heapOf (this : Addr) (g : Graph) : Heap :=
  fun a => if a = this then some g else none

end G2eee

/-! ## Variant `Graph_8998baa3d11f.hpp` (linear scan of the edge list) -/

namespace G8998

/-- The data members of `Graph`. -/
structure Graph where
  node_list : List Point
  edge_list : List (Nat × Nat)
deriving DecidableEq, Repr

/-- The class `Graph::Node`. -/
structure Node where
  graph_ : Addr
  uid_ : Nat
deriving DecidableEq, Repr

/-- The class `Graph::Edge`. -/
structure Edge where
  graph_ : Addr
  uid_ : Nat
deriving DecidableEq, Repr

/-- The heap of graph objects. -/
abbrev Heap := Addr → Option Graph

/-- The heap that holds the one graph `g`, at address `this`. -/
def heapOf (this : Addr) (g : Graph) : Heap :=
  fun a => if a = this then some g else none

/-- The constructor `Graph()`. -/
def empty : Graph := ⟨[], []⟩

/-- The function `std::min` on `size_type`. -/
def std_min (a b : Nat) : Nat := if b < a then b else a

/-- The function `std::max` on `size_type`. -/
def std_max (a b : Nat) : Nat := if a < b then b else a

/-- The method `Node::position`: `graph_->node_list[uid_]`. -/
def Node.position (heap : Heap) (n : Node) : Option Point :=
  match heap n.graph_ with
  | none => none
  | some g => g.node_list[n.uid_]?

/-- The method `Node::index`. -/
def Node.index (n : Node) : Nat := n.uid_

/-- The operator `Node::operator==`.  The function `norm_1` of
`CME212/Point.hpp` is not part of the sources and is a parameter. -/
def Node.eq (norm_1 : Point → Int) (heap : Heap) (x n : Node) : Option Bool :=
  match x.position heap, n.position heap with
  | some p, some q => some (decide (norm_1 p = norm_1 q))
  | _, _ => none

/-- The operator `Node::operator<`, with the same parameter `norm_1`. -/
def Node.lt (norm_1 : Point → Int) (heap : Heap) (x n : Node) : Option Bool :=
  match x.position heap, n.position heap with
  | some p, some q => some (decide (norm_1 p < norm_1 q))
  | _, _ => none

/-- The method `Graph::size`. -/
def size (g : Graph) : Nat := g.node_list.length

/-- The method `Graph::num_nodes`. -/
def num_nodes (g : Graph) : Nat := size g

/-- The method `Graph::add_node`. -/
def add_node (this : Addr) (g : Graph) (position : Point) : Graph × Node :=
  let node_list1 := g.node_list ++ [position]
  (⟨node_list1, g.edge_list⟩, ⟨this, node_list1.length - 1⟩)

/-- The method `Graph::has_node`. -/
def has_node (this : Addr) (n : Node) : Bool :=
  decide (n.graph_ = this)

/-- The method `Graph::node`. -/
def node (this : Addr) (i : Nat) : Node := ⟨this, i⟩

/-- The pair `graph_->edge_list[uid_]` that the methods of `Edge` read. -/
def Edge.stored (heap : Heap) (e : Edge) : Option (Nat × Nat) :=
  match heap e.graph_ with
  | none => none
  | some g => g.edge_list[e.uid_]?

/-- The method `Edge::node1`. -/
def Edge.node1 (heap : Heap) (e : Edge) : Option Node :=
  match e.stored heap with
  | none => none
  | some p => some ⟨e.graph_, p.1⟩

/-- The method `Edge::node2`. -/
def Edge.node2 (heap : Heap) (e : Edge) : Option Node :=
  match e.stored heap with
  | none => none
  | some p => some ⟨e.graph_, p.2⟩

/-- The operator `Edge::operator==`. -/
def Edge.eq (heap : Heap) (x e : Edge) : Option Bool :=
  if e.graph_ ≠ x.graph_ then some false
  else
    match x.stored heap, e.stored heap with
    | some p, some q => some (decide (p.1 = q.1) && decide (p.2 = q.2))
    | _, _ => none

/-- The operator `Edge::operator<`: `min_a` and `max_a` are both taken of
`first` and `first`, as in the source. -/
def Edge.lt (heap : Heap) (x e : Edge) : Option Bool :=
  match x.stored heap, e.stored heap with
  | some p, some q =>
    let min_a := std_min p.1 p.1
    let max_a := std_max p.1 p.1
    let min_b := std_min q.1 q.2
    let max_b := std_max q.1 q.2
    if min_a < min_b then some true
    else if min_a = min_b ∧ max_a < max_b then some true
    else some false
  | _, _ => none

/-- The method `Graph::num_edges`. -/
def num_edges (g : Graph) : Nat := g.edge_list.length

/-- The method `Graph::edge`. -/
def edge (this : Addr) (i : Nat) : Edge := ⟨this, i⟩

/-- The loop of `Graph::has_edge`. -/
def has_edge_loop (a_uid b_uid : Nat) : List (Nat × Nat) → Bool
  | [] => false
  | temp :: rest =>
    if (a_uid = temp.1 ∧ b_uid = temp.2) ∨ (a_uid = temp.2 ∧ b_uid = temp.1) then true
    else has_edge_loop a_uid b_uid rest

/-- The method `Graph::has_edge`. -/
def has_edge (g : Graph) (a b : Node) : Bool :=
  has_edge_loop a.uid_ b.uid_ g.edge_list

/-- The loop of `Graph::add_edge`, over the slots from `i` on: the slot of the
first stored pair that connects the two nodes. -/
def add_edge_loop (a_uid b_uid : Nat) : List (Nat × Nat) → Nat → Option Nat
  | [], _ => none
  | temp :: rest, i =>
    if (a_uid = temp.1 ∧ b_uid = temp.2) ∨ (a_uid = temp.2 ∧ b_uid = temp.1) then some i
    else add_edge_loop a_uid b_uid rest (i + 1)

/-- The method `Graph::add_edge`. -/
def add_edge (this : Addr) (g : Graph) (a b : Node) : Graph × Edge :=
  match add_edge_loop a.uid_ b.uid_ g.edge_list 0 with
  | some i => (g, edge this i)
  | none =>
    let edge_list1 := g.edge_list ++ [(a.uid_, b.uid_)]
    (⟨g.node_list, edge_list1⟩, edge this (edge_list1.length - 1))

/-- The method `Graph::clear`. -/
def clear (_g : Graph) : Graph := ⟨[], []⟩

/-- One call; a call of `add_edge` is admitted on distinct valid nodes only. -/
def step (this : Addr) (g : Graph) : Op → Option Graph
  | Op.add_node position => some (add_node this g position).1
  | Op.add_edge i j =>
    if i < num_nodes g ∧ j < num_nodes g ∧ i ≠ j then
      some (add_edge this g (node this i) (node this j)).1
    else none
  | Op.clear => some (clear g)

/-- A sequence of calls, from the left. -/
def run (this : Addr) : List Op → Graph → Option Graph
  | [], g => some g
  | op :: ops, g =>
    match step this g op with
    | none => none
    | some g1 => run this ops g1

/-- A handle is a valid node of the graph at `this`. -/
def validNode (this : Addr) (g : Graph) (n : Node) : Prop :=
  n.graph_ = this ∧ n.index < num_nodes g

/-- Two stored pairs connect the same two nodes, in either order. -/
def samePair (p q : Nat × Nat) : Prop :=
  (p.1 = q.1 ∧ p.2 = q.2) ∨ (p.1 = q.2 ∧ p.2 = q.1)

/-- The representation invariant of the variant: the stored pairs join
distinct nodes of the graph, and no two slots of `edge_list` hold the same
unordered pair. -/
structure Inv (g : Graph) : Prop where
  ends : ∀ p ∈ g.edge_list, p.1 < g.node_list.length ∧ p.2 < g.node_list.length ∧ p.1 ≠ p.2
  uniq : g.edge_list.Pairwise (fun p q => ¬ samePair p q)

end G8998

/-! ## Variant `Graph_d30b0457858d.hpp` (edge list, `std::find`) -/

namespace Gd30b

/-- The data members of `Graph`. -/
structure Graph where
  points : List Point
  edge_node : List (Nat × Nat)
deriving DecidableEq, Repr

/-- The class `Graph::Node`. -/
structure Node where
  graph_ : Addr
  uid_ : Nat
deriving DecidableEq, Repr

/-- The class `Graph::Edge`. -/
structure Edge where
  graph_ : Addr
  uid_ : Nat
deriving DecidableEq, Repr

/-- The heap of graph objects. -/
abbrev Heap := Addr → Option Graph

/-- The constructor `Graph()`. -/
def empty : Graph := ⟨[], []⟩

/-- The method `Node::position`: `graph_->points[uid_]`. -/
def Node.position (heap : Heap) (n : Node) : Option Point :=
  match heap n.graph_ with
  | none => none
  | some g => g.points[n.uid_]?

/-- The method `Node::index`. -/
def Node.index (n : Node) : Nat := n.uid_

/-- The method `Node::getGraph`. -/
def Node.getGraph (n : Node) : Addr := n.graph_

/-- The operator `Node::operator==`. -/
def Node.eq (x n : Node) : Bool :=
  decide (x.uid_ = n.index) && decide (x.graph_ = n.getGraph)

/-- The operator `Node::operator<`. -/
def Node.lt (x n : Node) : Bool :=
  if x.graph_ ≠ n.getGraph then decide (x.graph_ < n.getGraph)
  else decide (x.uid_ < n.index)

/-- The method `Graph::size`. -/
def size (g : Graph) : Nat := g.points.length

/-- The method `Graph::num_nodes`. -/
def num_nodes (g : Graph) : Nat := size g

/-- The method `Graph::add_node`. -/
def add_node (this : Addr) (g : Graph) (position : Point) : Graph × Node :=
  let points1 := g.points ++ [position]
  (⟨points1, g.edge_node⟩, ⟨this, points1.length - 1⟩)

/-- The method `Graph::has_node` of the graph `g`:
`points[n.index()] == n.position()`. -/
def has_node (heap : Heap) (g : Graph) (n : Node) : Option Bool :=
  match g.points[n.index]?, n.position heap with
  | some p, some q => some (decide (p = q))
  | _, _ => none

/-- The method `Graph::node`. -/
def node (this : Addr) (i : Nat) : Node := ⟨this, i⟩

/-- The method `Edge::node1`: `Node(graph_, graph_->edge_node[uid_].first)`. -/
def Edge.node1 (heap : Heap) (e : Edge) : Option Node :=
  match heap e.graph_ with
  | none => none
  | some g =>
    match g.edge_node[e.uid_]? with
    | none => none
    | some p => some ⟨e.graph_, p.1⟩

/-- The method `Edge::node2`: `Node(graph_, graph_->edge_node[uid_].second)`. -/
def Edge.node2 (heap : Heap) (e : Edge) : Option Node :=
  match heap e.graph_ with
  | none => none
  | some g =>
    match g.edge_node[e.uid_]? with
    | none => none
    | some p => some ⟨e.graph_, p.2⟩

/-- The method `Edge::index`. -/
def Edge.index (e : Edge) : Nat := e.uid_

/-- The method `Edge::getGraph`. -/
def Edge.getGraph (e : Edge) : Addr := e.graph_

/-- The operator `Edge::operator==`, with the short-circuit evaluation of
`&&` and `||`. -/
def Edge.eq (heap : Heap) (x e : Edge) : Option Bool :=
  if x.graph_ ≠ e.getGraph then some false
  else do
    let a1 ← e.node1 heap
    let b1 ← x.node1 heap
    let straight ←
      (if Node.eq a1 b1 then do
        let a2 ← e.node2 heap
        let b2 ← x.node2 heap
        pure (Node.eq a2 b2)
      else pure false)
    if straight then pure true
    else do
      let c1 ← e.node1 heap
      let d2 ← x.node2 heap
      if Node.eq c1 d2 then do
        let c2 ← e.node2 heap
        let d1 ← x.node1 heap
        pure (Node.eq c2 d1)
      else pure false

/-- The operator `Edge::operator<`. -/
def Edge.lt (x e : Edge) : Bool :=
  if x.graph_ ≠ e.getGraph then decide (x.graph_ < e.getGraph)
  else decide (x.uid_ < e.index)

/-- The method `Graph::num_edges`. -/
def num_edges (g : Graph) : Nat := g.edge_node.length

/-- The method `Graph::edge`. -/
def edge (this : Addr) (i : Nat) : Edge := ⟨this, i⟩

/-- The loop of `Graph::has_edge`; the second argument is the counter
`match`. -/
def has_edge_loop (a b : Nat) : List (Nat × Nat) → Nat → Nat
  | [], m => m
  | p :: rest, m =>
    if (a = p.1 ∧ b = p.2) ∨ (a = p.2 ∧ b = p.1) then has_edge_loop a b rest (m + 1)
    else has_edge_loop a b rest m

/-- The method `Graph::has_edge`. -/
def has_edge (g : Graph) (a b : Node) : Bool :=
  decide (has_edge_loop a.index b.index g.edge_node 0 = 1)

/-- The expression `find(v.begin(), v.end(), value) - v.begin()`: the slot of
the first element equal to `value`, or the size of the vector. -/
def find (value : Nat × Nat) : List (Nat × Nat) → Nat
  | [] => 0
  | q :: rest => if q = value then 0 else find value rest + 1

/-- The method `Graph::add_edge`. -/
def add_edge (this : Addr) (g : Graph) (a b : Node) : Graph × Edge :=
  let pair1 : Nat × Nat := (a.index, b.index)
  let pair2 : Nat × Nat := (b.index, a.index)
  let index1 := find pair1 g.edge_node
  let index2 := find pair2 g.edge_node
  if index1 ≥ g.edge_node.length ∧ index2 ≥ g.edge_node.length then
    let edge_node1 := g.edge_node ++ [(a.index, b.index)]
    (⟨g.points, edge_node1⟩, ⟨this, edge_node1.length - 1⟩)
  else if index1 < g.edge_node.length then (g, ⟨this, index1⟩)
  else (g, ⟨this, index2⟩)

/-- The method `Graph::clear`. -/
def clear (_g : Graph) : Graph := ⟨[], []⟩

/-- A handle is a valid node of the graph at `this`. -/
def validNode (this : Addr) (g : Graph) (n : Node) : Prop :=
  n.graph_ = this ∧ n.index < num_nodes g

/-- One call; a call of `add_edge` is admitted on distinct valid nodes only. -/
def step (this : Addr) (g : Graph) : Op → Option Graph
  | Op.add_node position => some (add_node this g position).1
  | Op.add_edge i j =>
    if i < num_nodes g ∧ j < num_nodes g ∧ i ≠ j then
      some (add_edge this g (node this i) (node this j)).1
    else none
  | Op.clear => some (clear g)

/-- A sequence of calls, from the left. -/
def run (this : Addr) : List Op → Graph → Option Graph
  | [], g => some g
  | op :: ops, g =>
    match step this g op with
    | none => none
    | some g1 => run this ops g1

/-- The test of `has_edge`: the stored pair `p` connects the indices `a` and
`b`. -/
def connects (a b : Nat) (p : Nat × Nat) : Prop :=
  (a = p.1 ∧ b = p.2) ∨ (a = p.2 ∧ b = p.1)

/-- The test `connects` is decidable. -/
instance connects_decidable (a b : Nat) (p : Nat × Nat) : Decidable (connects a b p) :=
  inferInstanceAs (Decidable ((a = p.1 ∧ b = p.2) ∨ (a = p.2 ∧ b = p.1)))

/-- Two stored pairs connect the same two nodes, in either order. -/
def samePair (p q : Nat × Nat) : Prop :=
  (p.1 = q.1 ∧ p.2 = q.2) ∨ (p.1 = q.2 ∧ p.2 = q.1)

/-- The uniqueness invariant: no two slots of `edge_node` hold the same
unordered pair. -/
def Inv (g : Graph) : Prop :=
  g.edge_node.Pairwise (fun p q => ¬ samePair p q)

/-- The heap that holds the one graph `g`, at address `this`. -/
def heapOf (this : Addr) (g : Graph) : Heap :=
  fun a => if a = this then some g else none

end Gd30b

/-! ## Variant `Graph_fb5c2f2afa8a.hpp` (internal node and edge records) -/

namespace Gfb5c

/-- The class `Graph::InternalNode`. -/
structure InternalNode where
  point : Point
  ind : Nat
deriving DecidableEq, Repr

/-- The class `Graph::InternalEdge`. -/
structure InternalEdge where
  node1 : Nat
  node2 : Nat
  ind : Nat
deriving DecidableEq, Repr

/-- The operator `InternalNode::operator==`. -/
def InternalNode.eq (x n : InternalNode) : Bool :=
  if x.ind = n.ind then true else false

/-- The operator `InternalEdge::operator==`. -/
def InternalEdge.eq (x e : InternalEdge) : Bool :=
  if (x.node1 = e.node1 ∧ x.node2 = e.node2) ∨ (x.node1 = e.node2 ∧ x.node2 = e.node1) then true
  else false

/-- The data members of `Graph`. -/
structure Graph where
  size_ : Nat
  nodes : List InternalNode
  edges : List InternalEdge
deriving DecidableEq, Repr

/-- The class `Graph::Node`. -/
structure Node where
  graph_ : Addr
  ind_ : Nat
deriving DecidableEq, Repr

/-- The class `Graph::Edge`. -/
structure Edge where
  graph_ : Addr
  ind_ : Nat
deriving DecidableEq, Repr

/-- The heap of graph objects. -/
abbrev Heap := Addr → Option Graph

/-- The heap that holds the one graph `g`, at address `this`. -/
def heapOf (this : Addr) (g : Graph) : Heap :=
  fun a => if a = this then some g else none

/-- The constructor `Graph()`. -/
def empty : Graph := ⟨0, [], []⟩

/-- The method `Graph::size`. -/
def size (g : Graph) : Nat := g.size_

/-- The method `Graph::num_nodes`. -/
def num_nodes (g : Graph) : Nat := size g

/-- The method `Node::fetch`. -/
def Node.fetch (heap : Heap) (n : Node) : Except Fault InternalNode :=
  match heap n.graph_ with
  | none => Except.error Fault.undefined
  | some g =>
    if n.ind_ ≥ size g then Except.error Fault.assertion
    else
      match g.nodes[n.ind_]? with
      | none => Except.error Fault.undefined
      | some r => Except.ok r

/-- The method `Node::position`. -/
def Node.position (heap : Heap) (n : Node) : Except Fault Point :=
  match Node.fetch heap n with
  | Except.error f => Except.error f
  | Except.ok r => Except.ok r.point

/-- The method `Node::index`. -/
def Node.index (n : Node) : Nat := n.ind_

/-- The operator `Node::operator==`. -/
def Node.eq (x n : Node) : Bool :=
  if n.graph_ = x.graph_ ∧ n.ind_ = x.ind_ then true else false

/-- The operator `Node::operator<`. -/
def Node.lt (x n : Node) : Bool :=
  decide (n.ind_ < x.ind_)

/-- The method `Graph::add_node`. -/
def add_node (this : Addr) (g : Graph) (position : Point) : Graph × Node :=
  let node : InternalNode := ⟨position, g.size_⟩
  let nodes1 := g.nodes ++ [node]
  let size1 := g.size_ + 1
  (⟨size1, nodes1, g.edges⟩, ⟨this, size1 - 1⟩)

/-- The call `std::find(nodes.begin(), nodes.end(), node) != nodes.end()`. -/
def find_node (node : InternalNode) : List InternalNode → Bool
  | [] => false
  | x :: rest => if InternalNode.eq x node then true else find_node node rest

/-- The method `Graph::has_node`.  The member `point` of the local record is
default-constructed and never read. -/
def has_node (g : Graph) (n : Node) : Bool :=
  let node : InternalNode := ⟨⟨0, 0, 0⟩, n.index⟩
  find_node node g.nodes

/-- The method `Graph::node`. -/
def node (this : Addr) (i : Nat) : Node := ⟨this, i⟩

/-- The method `Edge::node1`: `graph_->node(graph_->edges[ind_].node1)`. -/
def Edge.node1 (heap : Heap) (e : Edge) : Option Node :=
  match heap e.graph_ with
  | none => none
  | some g =>
    match g.edges[e.ind_]? with
    | none => none
    | some r => some (node e.graph_ r.node1)

/-- The method `Edge::node2`: `graph_->node(graph_->edges[ind_].node2)`. -/
def Edge.node2 (heap : Heap) (e : Edge) : Option Node :=
  match heap e.graph_ with
  | none => none
  | some g =>
    match g.edges[e.ind_]? with
    | none => none
    | some r => some (node e.graph_ r.node2)

/-- The operator `Edge::operator==`, with the short-circuit evaluation of
`&&` and `||`. -/
def Edge.eq (heap : Heap) (x e : Edge) : Option Bool := do
  let a1 ← x.node1 heap
  let b1 ← e.node1 heap
  let straight ←
    (if Node.eq a1 b1 then do
      let a2 ← x.node2 heap
      let b2 ← e.node2 heap
      pure (Node.eq a2 b2)
    else pure false)
  if straight then pure true
  else do
    let c2 ← x.node2 heap
    let d1 ← e.node1 heap
    if Node.eq c2 d1 then do
      let c1 ← x.node1 heap
      let d2 ← e.node2 heap
      pure (Node.eq c1 d2)
    else pure false

/-- The operator `Edge::operator<`. -/
def Edge.lt (x e : Edge) : Bool :=
  decide (x.ind_ < e.ind_)

/-- The method `Graph::num_edges`. -/
def num_edges (g : Graph) : Nat := g.edges.length

/-- The method `Graph::edge`. -/
def edge (this : Addr) (i : Nat) : Edge := ⟨this, i⟩

/-- The call `std::find(edges.begin(), edges.end(), edge)`: the first stored
record equal to `edge`, if any. -/
def find_edge (edge : InternalEdge) : List InternalEdge → Option InternalEdge
  | [] => none
  | x :: rest => if InternalEdge.eq x edge then some x else find_edge edge rest

/-- The method `Graph::has_edge`.  The member `ind` of the local record is
not initialised and never read. -/
def has_edge (g : Graph) (a b : Node) : Bool :=
  let edge : InternalEdge := ⟨a.index, b.index, 0⟩
  match find_edge edge g.edges with
  | none => false
  | some _ => true

/-- The method `Graph::add_edge`. -/
def add_edge (this : Addr) (g : Graph) (a b : Node) : Graph × Edge :=
  let edge : InternalEdge := ⟨a.index, b.index, 0⟩
  match find_edge edge g.edges with
  | none =>
    let edge1 : InternalEdge := ⟨a.index, b.index, g.edges.length⟩
    (⟨g.size_, g.nodes, g.edges ++ [edge1]⟩, ⟨this, edge1.ind⟩)
  | some p => (g, ⟨this, p.ind⟩)

/-- The method `Graph::clear`. -/
def clear (_g : Graph) : Graph := ⟨0, [], []⟩

/-- A handle is a valid node of the graph at `this`. -/
def validNode (this : Addr) (g : Graph) (n : Node) : Prop :=
  n.graph_ = this ∧ n.index < num_nodes g

/-- One call; a call of `add_edge` is admitted on distinct valid nodes only. -/
def step (this : Addr) (g : Graph) : Op → Option Graph
  | Op.add_node position => some (add_node this g position).1
  | Op.add_edge i j =>
    if i < num_nodes g ∧ j < num_nodes g ∧ i ≠ j then
      some (add_edge this g (node this i) (node this j)).1
    else none
  | Op.clear => some (clear g)

/-- A sequence of calls, from the left. -/
def run (this : Addr) : List Op → Graph → Option Graph
  | [], g => some g
  | op :: ops, g =>
    match step this g op with
    | none => none
    | some g1 => run this ops g1

/-- Two stored records connect the same two nodes, in either order. -/
def sameEnds (x e : InternalEdge) : Prop :=
  (x.node1 = e.node1 ∧ x.node2 = e.node2) ∨ (x.node1 = e.node2 ∧ x.node2 = e.node1)

/-- The representation invariant of the variant: `size_` is the size of
`nodes`, every record stores its own slot in `ind`, and no two slots of `edges`
hold the same unordered pair. -/
structure Inv (g : Graph) : Prop where
  size_eq : g.size_ = g.nodes.length
  node_ind : ∀ (i : Nat) (r : InternalNode), g.nodes[i]? = some r → r.ind = i
  edge_ind : ∀ (k : Nat) (r : InternalEdge), g.edges[k]? = some r → r.ind = k
  uniq : g.edges.Pairwise (fun x e => ¬ sameEnds x e)

end Gfb5c

/-! ## The adjacency-list variant against the linear-scan variant -/

/-- The simulation relation between `Graph_1538fb7d5508.hpp` and
`Graph_8998baa3d11f.hpp`: the same points and the same stored pairs, in the
same order. -/
def sim_1538_8998 (g1 : G1538.Graph) (g2 : G8998.Graph) : Prop :=
  g1.nodes_ = g2.node_list ∧ g1.edges_ = g2.edge_list

/-! ## Theorems -/

/-! ### Variant `Graph_1538fb7d5508.hpp`: the representation invariant -/

theorem g1538_has_edge_loop_iff (v : Nat) (l : List Nat) :
    G1538.has_edge_loop v l = true ↔ v ∈ l := by
  induction l with
  | nil => simp [G1538.has_edge_loop]
  | cons c rest ih =>
    unfold G1538.has_edge_loop
    by_cases hc : c = v
    · simp [hc]
    · simp only [hc, if_false, ih, List.mem_cons]
      constructor
      · intro h; exact Or.inr h
      · rintro (h | h)
        · exact absurd h.symm hc
        · exact h

theorem g1538_adjacency_push_some {adj : List (List Nat)} {u : Nat} (v : Nat)
    (hu : u < adj.length) : ∃ adj1, G1538.adjacency_push adj u v = some adj1 := by
  unfold G1538.adjacency_push
  rw [List.getElem?_eq_getElem hu]
  exact ⟨_, rfl⟩

theorem g1538_adjacency_push_length {adj adj1 : List (List Nat)} {u v : Nat}
    (h : G1538.adjacency_push adj u v = some adj1) : adj1.length = adj.length := by
  unfold G1538.adjacency_push at h
  cases hl : adj[u]? with
  | none => simp [hl] at h
  | some l =>
    simp only [hl, Option.some.injEq] at h
    subst h
    simp

theorem g1538_adjMem_push {adj adj1 : List (List Nat)} {u v : Nat}
    (h : G1538.adjacency_push adj u v = some adj1) (x y : Nat) :
    G1538.adjMem adj1 x y ↔ G1538.adjMem adj x y ∨ (x = u ∧ y = v) := by
  unfold G1538.adjacency_push at h
  cases hl : adj[u]? with
  | none => simp [hl] at h
  | some l =>
    simp only [hl, Option.some.injEq] at h
    subst h
    have hlt : u < adj.length := by
      by_contra hc
      rw [List.getElem?_eq_none (by omega)] at hl
      cases hl
    unfold G1538.adjMem
    by_cases hxu : x = u
    · subst hxu
      simp only [List.getElem?_set_self hlt, hl, Option.some.injEq, true_and]
      constructor
      · rintro ⟨l1, rfl, hy⟩
        rcases List.mem_append.mp hy with h1 | h1
        · exact Or.inl ⟨l, rfl, h1⟩
        · exact Or.inr (by simpa using h1)
      · rintro (⟨l1, rfl, hy⟩ | hy)
        · exact ⟨_, rfl, List.mem_append.mpr (Or.inl hy)⟩
        · exact ⟨_, rfl, List.mem_append.mpr (Or.inr (by simp [hy]))⟩
    · rw [List.getElem?_set_ne (fun hh => hxu hh.symm)]
      constructor
      · intro hm; exact Or.inl hm
      · rintro (hm | hm)
        · exact hm
        · exact absurd hm.1 hxu


theorem g1538_adjMem_append_nil (adj : List (List Nat)) (u v : Nat) :
    G1538.adjMem (adj ++ [[]]) u v ↔ G1538.adjMem adj u v := by
  unfold G1538.adjMem
  rcases Nat.lt_trichotomy u adj.length with hu | hu | hu
  · rw [List.getElem?_append_left hu]
  · subst hu
    constructor
    · rintro ⟨l, hl, hv⟩
      simp at hl
      subst hl
      cases hv
    · rintro ⟨l, hl, _⟩
      simp at hl
  · constructor
    · rintro ⟨l, hl, _⟩
      rw [List.getElem?_eq_none (by simp; omega)] at hl
      cases hl
    · rintro ⟨l, hl, _⟩
      rw [List.getElem?_eq_none (by omega)] at hl
      cases hl

theorem g1538_inv_empty : G1538.Inv G1538.empty where
  adj_len := rfl
  adj_iff := by
    intro u v
    constructor
    · rintro ⟨l, hl, _⟩
      simp [G1538.empty] at hl
    · rintro (h | h) <;> simp [G1538.empty] at h
  ends := by
    intro p hp
    simp [G1538.empty] at hp
  uniq := List.Pairwise.nil

theorem g1538_inv_clear (g : G1538.Graph) : G1538.Inv (G1538.clear g) :=
  g1538_inv_empty

theorem g1538_inv_add_node (this : Addr) (g : G1538.Graph) (position : Point)
    (hinv : G1538.Inv g) : G1538.Inv (G1538.add_node this g position).1 where
  adj_len := by simp [G1538.add_node, hinv.adj_len]
  adj_iff := by
    intro u v
    show G1538.adjMem (g.adjacency_ ++ [[]]) u v ↔ _
    rw [g1538_adjMem_append_nil]
    exact hinv.adj_iff u v
  ends := by
    intro p hp
    have h := hinv.ends p hp
    simp only [G1538.add_node, List.length_append, List.length_singleton]
    omega
  uniq := hinv.uniq

theorem g1538_has_edge_some (g : G1538.Graph) (a b : G1538.Node)
    (hinv : G1538.Inv g) (ha : a.index < G1538.num_nodes g) :
    ∃ l, g.adjacency_[a.index]? = some l ∧
      G1538.has_edge g a b = some (G1538.has_edge_loop b.index l) := by
  have hlt : a.index < g.adjacency_.length := by
    rw [hinv.adj_len]; exact ha
  refine ⟨g.adjacency_[a.index], List.getElem?_eq_getElem hlt, ?_⟩
  simp [G1538.has_edge, List.getElem?_eq_getElem hlt]

theorem g1538_has_edge_true_iff (g : G1538.Graph) (a b : G1538.Node)
    (hinv : G1538.Inv g) (ha : a.index < G1538.num_nodes g) :
    G1538.has_edge g a b = some true ↔
      ((a.index, b.index) ∈ g.edges_ ∨ (b.index, a.index) ∈ g.edges_) := by
  obtain ⟨l, hl, hh⟩ := g1538_has_edge_some g a b hinv ha
  rw [hh, ← hinv.adj_iff]
  simp only [Option.some.injEq, g1538_has_edge_loop_iff]
  constructor
  · intro hm; exact ⟨l, hl, hm⟩
  · rintro ⟨l1, hl1, hm⟩
    rw [hl] at hl1
    cases hl1
    exact hm

theorem g1538_add_edge_cases (this : Addr) (g : G1538.Graph) (a b : G1538.Node)
    (hinv : G1538.Inv g) (ha : a.index < G1538.num_nodes g)
    (hb : b.index < G1538.num_nodes g) :
    (G1538.has_edge g a b = some true ∧
      G1538.add_edge this g a b = some (g, ⟨this, a.index, b.index⟩)) ∨
    (G1538.has_edge g a b = some false ∧
      ∃ adj1 adj2, G1538.adjacency_push g.adjacency_ a.index b.index = some adj1 ∧
        G1538.adjacency_push adj1 b.index a.index = some adj2 ∧
        G1538.add_edge this g a b =
          some (⟨g.nodes_, g.edges_ ++ [(a.index, b.index)], adj2⟩,
                ⟨this, a.index, b.index⟩)) := by
  obtain ⟨l, _, hh⟩ := g1538_has_edge_some g a b hinv ha
  cases hr : G1538.has_edge_loop b.index l with
  | true =>
    left
    rw [hr] at hh
    exact ⟨hh, by simp [G1538.add_edge, hh]⟩
  | false =>
    right
    rw [hr] at hh
    have hla : a.index < g.adjacency_.length := by rw [hinv.adj_len]; exact ha
    obtain ⟨adj1, h1⟩ := g1538_adjacency_push_some b.index hla
    have hlb : b.index < adj1.length := by
      rw [g1538_adjacency_push_length h1, hinv.adj_len]; exact hb
    obtain ⟨adj2, h2⟩ := g1538_adjacency_push_some a.index hlb
    exact ⟨hh, adj1, adj2, h1, h2, by simp [G1538.add_edge, hh, h1, h2]⟩

theorem g1538_inv_add_edge (this : Addr) (g g1 : G1538.Graph) (a b : G1538.Node)
    (e : G1538.Edge) (hinv : G1538.Inv g) (ha : a.index < G1538.num_nodes g)
    (hb : b.index < G1538.num_nodes g) (hab : a.index ≠ b.index)
    (hadd : G1538.add_edge this g a b = some (g1, e)) : G1538.Inv g1 := by
  rcases g1538_add_edge_cases this g a b hinv ha hb with ⟨_, h⟩ | ⟨hf, adj1, adj2, h1, h2, h⟩
  · rw [h] at hadd
    cases hadd
    exact hinv
  · rw [h] at hadd
    cases hadd
    have hnot : ¬ ((a.index, b.index) ∈ g.edges_ ∨ (b.index, a.index) ∈ g.edges_) := by
      intro hc
      have := (g1538_has_edge_true_iff g a b hinv ha).mpr hc
      rw [hf] at this
      cases this
    refine ⟨?_, ?_, ?_, ?_⟩
    · show adj2.length = g.nodes_.length
      rw [g1538_adjacency_push_length h2, g1538_adjacency_push_length h1, hinv.adj_len]
    · intro u v
      show G1538.adjMem adj2 u v ↔
        ((u, v) ∈ g.edges_ ++ [(a.index, b.index)] ∨ (v, u) ∈ g.edges_ ++ [(a.index, b.index)])
      rw [g1538_adjMem_push h2, g1538_adjMem_push h1, hinv.adj_iff]
      simp only [List.mem_append, List.mem_singleton, Prod.mk.injEq]
      tauto
    · intro p hp
      show p.1 < g.nodes_.length ∧ p.2 < g.nodes_.length ∧ p.1 ≠ p.2
      have hp1 : p ∈ g.edges_ ++ [(a.index, b.index)] := hp
      rcases List.mem_append.mp hp1 with hp2 | hp2
      · exact hinv.ends p hp2
      · simp only [List.mem_singleton] at hp2
        subst hp2
        exact ⟨ha, hb, hab⟩
    · show (g.edges_ ++ [(a.index, b.index)]).Pairwise _
      rw [List.pairwise_append]
      refine ⟨hinv.uniq, List.pairwise_singleton _ _, ?_⟩
      intro p hp q hq
      simp only [List.mem_singleton] at hq
      subst hq
      rintro (⟨h3, h4⟩ | ⟨h3, h4⟩)
      · apply hnot
        left
        have : p = (a.index, b.index) := Prod.ext h3 h4
        rw [← this]; exact hp
      · apply hnot
        right
        have : p = (b.index, a.index) := Prod.ext h3 h4
        rw [← this]; exact hp

theorem g1538_inv_step (this : Addr) (g g1 : G1538.Graph) (op : Op)
    (hinv : G1538.Inv g) (hstep : G1538.step this g op = some g1) : G1538.Inv g1 := by
  cases op with
  | add_node position =>
    simp only [G1538.step, Option.some.injEq] at hstep
    subst hstep
    exact g1538_inv_add_node this g position hinv
  | add_edge i j =>
    simp only [G1538.step] at hstep
    split_ifs at hstep with hc
    obtain ⟨hi, hj, hij⟩ := hc
    cases hadd : G1538.add_edge this g (G1538.node this i) (G1538.node this j) with
    | none => rw [hadd] at hstep; cases hstep
    | some r =>
      rw [hadd] at hstep
      simp only [Option.map_some', Option.some.injEq] at hstep
      subst hstep
      exact g1538_inv_add_edge this g r.1 (G1538.node this i) (G1538.node this j) r.2
        hinv hi hj hij hadd
  | clear =>
    simp only [G1538.step, Option.some.injEq] at hstep
    subst hstep
    exact g1538_inv_clear g

theorem g1538_inv_run_from (this : Addr) (ops : List Op) (g g1 : G1538.Graph)
    (hinv : G1538.Inv g) (hrun : G1538.run this ops g = some g1) : G1538.Inv g1 := by
  induction ops generalizing g with
  | nil =>
    simp only [G1538.run, Option.some.injEq] at hrun
    subst hrun
    exact hinv
  | cons op ops ih =>
    unfold G1538.run at hrun
    cases hs : G1538.step this g op with
    | none => rw [hs] at hrun; cases hrun
    | some g2 =>
      rw [hs] at hrun
      exact ih g2 (g1538_inv_step this g g2 op hinv hs) hrun

theorem g1538_inv_reachable (this : Addr) (ops : List Op) (g : G1538.Graph)
    (hrun : G1538.run this ops G1538.empty = some g) : G1538.Inv g :=
  g1538_inv_run_from this ops G1538.empty g g1538_inv_empty hrun

theorem g1538_edge_some_iff (this : Addr) (g : G1538.Graph) (i : Nat) (e : G1538.Edge) :
    G1538.edge this g i = some e ↔ ∃ p, g.edges_[i]? = some p ∧ e = ⟨this, p.1, p.2⟩ := by
  unfold G1538.edge
  cases hp : g.edges_[i]? with
  | none => simp
  | some p =>
    simp only [Option.some.injEq]
    constructor
    · intro h; exact ⟨p, rfl, h.symm⟩
    · rintro ⟨q, rfl, h⟩; exact h.symm

theorem g1538_node_eq_iff (x n : G1538.Node) :
    G1538.Node.eq x n = true ↔ x.graph_ = n.graph_ ∧ x.uid_ = n.uid_ := by
  simp [G1538.Node.eq, G1538.Node.index]

theorem g1538_edge_lt_length (g : G1538.Graph) (i : Nat) (p : Nat × Nat)
    (h : g.edges_[i]? = some p) : i < G1538.num_edges g := by
  obtain ⟨hi, _⟩ := List.getElem?_eq_some.mp h
  exact hi

theorem g1538_issued_props (this : Addr) (e : G1538.Edge) (h : G1538.issuedEdge this e) :
    e.graph_ = this ∧ e.node1_uid_ ≠ e.node2_uid_ := by
  obtain ⟨ops, g, hrun, hcase⟩ := h
  have hinv := g1538_inv_reachable this ops g hrun
  rcases hcase with ⟨i, _, he⟩ | ⟨a, b, ha, hb, hab, he⟩
  · obtain ⟨p, hp, rfl⟩ := (g1538_edge_some_iff this g i e).mp he
    exact ⟨rfl, (hinv.ends p (List.getElem?_mem hp)).2.2⟩
  · rcases g1538_add_edge_cases this g a b hinv ha.2 hb.2 with ⟨_, h⟩ | ⟨_, _, _, _, _, h⟩
    · rw [h] at he
      simp only [Option.map_some', Option.some.injEq] at he
      subst he
      exact ⟨rfl, hab⟩
    · rw [h] at he
      simp only [Option.map_some', Option.some.injEq] at he
      subst he
      exact ⟨rfl, hab⟩

theorem g1538_trichotomy_iff (e1 e2 : G1538.Edge) (hg : e1.graph_ = e2.graph_)
    (h1 : e1.node1_uid_ ≠ e1.node2_uid_) :
    exactlyOne (G1538.Edge.eq e1 e2) (G1538.Edge.lt e1 e2) (G1538.Edge.lt e2 e1) = true ↔
      ¬ (e1.node1_uid_ = e2.node2_uid_ ∧ e1.node2_uid_ = e2.node1_uid_) := by
  obtain ⟨g1, u1, v1⟩ := e1
  obtain ⟨g2, u2, v2⟩ := e2
  simp only at hg h1
  subst hg
  simp only [exactlyOne, G1538.Edge.eq, G1538.Edge.lt, if_true, decide_True, Bool.true_and]
  by_cases hu : u1 = u2
  · subst hu
    rcases Nat.lt_trichotomy v1 v2 with hv | hv | hv
    · have e1 : ¬ v1 = v2 := by omega
      have e2 : ¬ v2 < v1 := by omega
      have e3 : ¬ (u1 = v2 ∧ v1 = u1) := by omega
      simp [hv, e1, e2, e3]
      omega
    · subst hv
      simp [h1]
    · have e1 : ¬ v1 = v2 := by omega
      have e2 : ¬ v1 < v2 := by omega
      have e3 : ¬ (u1 = v2 ∧ v1 = u1) := by omega
      simp [hv, e1, e2, e3]
      omega
  · have hu2 : ¬ u2 = u1 := fun h => hu h.symm
    rcases Nat.lt_trichotomy u1 u2 with hlt | hlt | hlt
    · have e2 : ¬ u2 < u1 := by omega
      simp [hu, hu2, hlt, e2]
      tauto
    · exact absurd hlt hu
    · have e2 : ¬ u1 < u2 := by omega
      simp [hu, hu2, hlt, e2]
      tauto

/-! ### The claims -/

/-- C1 (Graph_0e057bb55f26.hpp): `clear()` empties the two vectors but leaves
the counters that `num_nodes()` and `num_edges()` return: after two `add_node`,
one `add_edge` and `clear()`, `num_nodes()` is 2 and `num_edges()` is 1. -/
theorem c1_clear_keeps_counts_0e057 :
    ∃ g, G0e057.run 1 [Op.add_node ⟨0, 0, 0⟩, Op.add_node ⟨1, 0, 0⟩, Op.add_edge 0 1]
        G0e057.empty = some g ∧
      G0e057.num_nodes (G0e057.clear g) = 2 ∧ G0e057.num_edges (G0e057.clear g) = 1 :=
  ⟨⟨[⟨0, 0, 0⟩, ⟨1, 0, 0⟩], [(0, 1)], 2, 1⟩, by decide, by decide, by decide⟩

/-- C2 (Graph_2eee0fc59d4c.hpp): `clear()` leaves the adjacency vector `edges_`
as it is, so after `add_node`, `add_node`, `add_edge(node(0), node(1))`,
`clear()`, `add_node`, `add_node` the call `has_edge(node(0), node(1))` returns
true although `num_edges()` is 0 and so no `edge(i)` exists. -/
theorem c2_has_edge_after_clear_2eee :
    ∃ g, G2eee.run 1 [Op.add_node ⟨0, 0, 0⟩, Op.add_node ⟨1, 0, 0⟩, Op.add_edge 0 1, Op.clear,
        Op.add_node ⟨0, 0, 0⟩, Op.add_node ⟨1, 0, 0⟩] G2eee.empty = some g ∧
      G2eee.node 1 g 0 = Except.ok ⟨1, 0⟩ ∧ G2eee.node 1 g 1 = Except.ok ⟨1, 1⟩ ∧
      G2eee.has_edge 1 g ⟨1, 0⟩ ⟨1, 1⟩ = Except.ok true ∧
      G2eee.num_edges g = 0 :=
  ⟨⟨[⟨⟨0, 0, 0⟩, []⟩, ⟨⟨1, 0, 0⟩, []⟩], [[1], [0], [], []], []⟩,
    by decide, rfl, rfl, rfl, by decide⟩

/-- C3 (Graph_1538fb7d5508.hpp): in every state reachable from the empty graph
by `add_node`, `add_edge` (on distinct valid nodes) and `clear`, for all valid
nodes `a` and `b` of the graph, `has_edge(a, b)` returns, and it returns true
if and only if some `edge(i)` with `i < num_edges()` has the endpoints `a` and
`b`, in either order. -/
theorem c3_has_edge_iff_enumerated_1538 (this : Addr) (ops : List Op) (g : G1538.Graph)
    (hrun : G1538.run this ops G1538.empty = some g) (a b : G1538.Node)
    (ha : G1538.validNode this g a) (hb : G1538.validNode this g b) :
    ∃ r, G1538.has_edge g a b = some r ∧
      (r = true ↔ ∃ i, i < G1538.num_edges g ∧ ∃ e, G1538.edge this g i = some e ∧
        ((G1538.Node.eq e.node1 a = true ∧ G1538.Node.eq e.node2 b = true) ∨
         (G1538.Node.eq e.node1 b = true ∧ G1538.Node.eq e.node2 a = true))) := by
  have hinv := g1538_inv_reachable this ops g hrun
  obtain ⟨l, _, hh⟩ := g1538_has_edge_some g a b hinv ha.2
  refine ⟨_, hh, ?_⟩
  have hiff := g1538_has_edge_true_iff g a b hinv ha.2
  rw [hh, Option.some.injEq] at hiff
  rw [hiff]
  constructor
  · rintro (hm | hm)
    · obtain ⟨i, hi⟩ := List.mem_iff_getElem?.mp hm
      exact ⟨i, g1538_edge_lt_length g i _ hi, ⟨this, a.index, b.index⟩,
        (g1538_edge_some_iff this g i _).mpr ⟨_, hi, rfl⟩,
        Or.inl ⟨(g1538_node_eq_iff _ _).mpr ⟨ha.1.symm, rfl⟩,
          (g1538_node_eq_iff _ _).mpr ⟨hb.1.symm, rfl⟩⟩⟩
    · obtain ⟨i, hi⟩ := List.mem_iff_getElem?.mp hm
      exact ⟨i, g1538_edge_lt_length g i _ hi, ⟨this, b.index, a.index⟩,
        (g1538_edge_some_iff this g i _).mpr ⟨_, hi, rfl⟩,
        Or.inr ⟨(g1538_node_eq_iff _ _).mpr ⟨hb.1.symm, rfl⟩,
          (g1538_node_eq_iff _ _).mpr ⟨ha.1.symm, rfl⟩⟩⟩
  · rintro ⟨i, _, e, he, hends⟩
    obtain ⟨p, hp, rfl⟩ := (g1538_edge_some_iff this g i e).mp he
    have hmem : p ∈ g.edges_ := List.getElem?_mem hp
    simp only [g1538_node_eq_iff, G1538.Edge.node1, G1538.Edge.node2, G1538.node] at hends
    rcases hends with ⟨⟨_, h1⟩, ⟨_, h2⟩⟩ | ⟨⟨_, h1⟩, ⟨_, h2⟩⟩
    · left
      have : p = (a.index, b.index) := Prod.ext h1 h2
      rw [← this]; exact hmem
    · right
      have : p = (b.index, a.index) := Prod.ext h1 h2
      rw [← this]; exact hmem

/-- Witness of C3: three nodes, the edges {0,1} and {1,2}, queried on the nodes
1 and 0. -/
theorem c3_has_edge_iff_enumerated_1538_witness :
    G1538.run 1 [Op.add_node ⟨0, 0, 0⟩, Op.add_node ⟨1, 0, 0⟩, Op.add_node ⟨0, 1, 0⟩,
        Op.add_edge 0 1, Op.add_edge 1 2] G1538.empty =
      some ⟨[⟨0, 0, 0⟩, ⟨1, 0, 0⟩, ⟨0, 1, 0⟩], [(0, 1), (1, 2)], [[1], [0, 2], [1]]⟩ ∧
    ∃ r, G1538.has_edge
        ⟨[⟨0, 0, 0⟩, ⟨1, 0, 0⟩, ⟨0, 1, 0⟩], [(0, 1), (1, 2)], [[1], [0, 2], [1]]⟩
        ⟨1, 1⟩ ⟨1, 0⟩ = some r ∧
      (r = true ↔ ∃ i, i < G1538.num_edges
          ⟨[⟨0, 0, 0⟩, ⟨1, 0, 0⟩, ⟨0, 1, 0⟩], [(0, 1), (1, 2)], [[1], [0, 2], [1]]⟩ ∧
        ∃ e, G1538.edge 1
          ⟨[⟨0, 0, 0⟩, ⟨1, 0, 0⟩, ⟨0, 1, 0⟩], [(0, 1), (1, 2)], [[1], [0, 2], [1]]⟩ i = some e ∧
        ((G1538.Node.eq e.node1 ⟨1, 1⟩ = true ∧ G1538.Node.eq e.node2 ⟨1, 0⟩ = true) ∨
         (G1538.Node.eq e.node1 ⟨1, 0⟩ = true ∧ G1538.Node.eq e.node2 ⟨1, 1⟩ = true))) :=
  ⟨by decide,
   c3_has_edge_iff_enumerated_1538 1
    [Op.add_node ⟨0, 0, 0⟩, Op.add_node ⟨1, 0, 0⟩, Op.add_node ⟨0, 1, 0⟩,
      Op.add_edge 0 1, Op.add_edge 1 2]
    ⟨[⟨0, 0, 0⟩, ⟨1, 0, 0⟩, ⟨0, 1, 0⟩], [(0, 1), (1, 2)], [[1], [0, 2], [1]]⟩
    (by decide) ⟨1, 1⟩ ⟨1, 0⟩ ⟨rfl, by decide⟩ ⟨rfl, by decide⟩⟩

/-- C4 (Graph_1538fb7d5508.hpp): in every state reachable from the empty graph
by `add_node`, `add_edge` (on distinct valid nodes) and `clear`, for all valid
nodes `a` and `b` (distinct or not), `has_edge(a, b)` and `has_edge(b, a)` both
return, and return the same value. -/
theorem c4_has_edge_symmetric_1538 (this : Addr) (ops : List Op) (g : G1538.Graph)
    (hrun : G1538.run this ops G1538.empty = some g) (a b : G1538.Node)
    (ha : G1538.validNode this g a) (hb : G1538.validNode this g b) :
    ∃ r, G1538.has_edge g a b = some r ∧ G1538.has_edge g b a = some r := by
  have hinv := g1538_inv_reachable this ops g hrun
  obtain ⟨l1, _, h1⟩ := g1538_has_edge_some g a b hinv ha.2
  obtain ⟨l2, _, h2⟩ := g1538_has_edge_some g b a hinv hb.2
  have i1 := g1538_has_edge_true_iff g a b hinv ha.2
  have i2 := g1538_has_edge_true_iff g b a hinv hb.2
  rw [h1, Option.some.injEq] at i1
  rw [h2, Option.some.injEq] at i2
  refine ⟨_, h1, ?_⟩
  rw [h2, Option.some.injEq]
  have hiff : G1538.has_edge_loop a.index l2 = true ↔ G1538.has_edge_loop b.index l1 = true := by
    rw [i1, i2]
    exact Or.comm
  cases hx : G1538.has_edge_loop a.index l2 <;> cases hy : G1538.has_edge_loop b.index l1 <;>
    simp [hx, hy] at hiff ⊢

/-- Witness of C4: three nodes, the edges {0,1} and {1,2}, queried on the nodes
2 and 1. -/
theorem c4_has_edge_symmetric_1538_witness :
    G1538.validNode 1
      ⟨[⟨0, 0, 0⟩, ⟨1, 0, 0⟩, ⟨0, 1, 0⟩], [(0, 1), (1, 2)], [[1], [0, 2], [1]]⟩ ⟨1, 2⟩ ∧
    ∃ r, G1538.has_edge
        ⟨[⟨0, 0, 0⟩, ⟨1, 0, 0⟩, ⟨0, 1, 0⟩], [(0, 1), (1, 2)], [[1], [0, 2], [1]]⟩
        ⟨1, 2⟩ ⟨1, 1⟩ = some r ∧
      G1538.has_edge
        ⟨[⟨0, 0, 0⟩, ⟨1, 0, 0⟩, ⟨0, 1, 0⟩], [(0, 1), (1, 2)], [[1], [0, 2], [1]]⟩
        ⟨1, 1⟩ ⟨1, 2⟩ = some r :=
  ⟨⟨rfl, by decide⟩,
   c4_has_edge_symmetric_1538 1
    [Op.add_node ⟨0, 0, 0⟩, Op.add_node ⟨1, 0, 0⟩, Op.add_node ⟨0, 1, 0⟩,
      Op.add_edge 0 1, Op.add_edge 1 2]
    ⟨[⟨0, 0, 0⟩, ⟨1, 0, 0⟩, ⟨0, 1, 0⟩], [(0, 1), (1, 2)], [[1], [0, 2], [1]]⟩
    (by decide) ⟨1, 2⟩ ⟨1, 1⟩ ⟨rfl, by decide⟩ ⟨rfl, by decide⟩⟩

/-- C5 (Graph_1538fb7d5508.hpp): `Edge::operator==` treats an edge as an
unordered pair, while `Edge::operator<` compares the stored
`(node1_uid_, node2_uid_)` lexicographically.  On a graph with two nodes,
`add_edge(node(0), node(1))` returns the handle (0, 1) and then
`add_edge(node(1), node(0))` returns the handle (1, 0); for these two handles
both `e1 == e2` and `e1 < e2` are true, so not exactly one of `e1 == e2`,
`e1 < e2`, `e2 < e1` holds. -/
theorem c5_reversed_handles_eq_and_lt_1538 :
    G1538.issuedEdge 1 ⟨1, 0, 1⟩ ∧ G1538.issuedEdge 1 ⟨1, 1, 0⟩ ∧
    G1538.Edge.eq ⟨1, 0, 1⟩ ⟨1, 1, 0⟩ = true ∧ G1538.Edge.lt ⟨1, 0, 1⟩ ⟨1, 1, 0⟩ = true ∧
    exactlyOne (G1538.Edge.eq ⟨1, 0, 1⟩ ⟨1, 1, 0⟩) (G1538.Edge.lt ⟨1, 0, 1⟩ ⟨1, 1, 0⟩)
      (G1538.Edge.lt ⟨1, 1, 0⟩ ⟨1, 0, 1⟩) = false :=
  ⟨⟨[Op.add_node ⟨0, 0, 0⟩, Op.add_node ⟨1, 0, 0⟩], ⟨[⟨0, 0, 0⟩, ⟨1, 0, 0⟩], [], [[], []]⟩,
      by decide, Or.inr ⟨⟨1, 0⟩, ⟨1, 1⟩, ⟨rfl, by decide⟩, ⟨rfl, by decide⟩, by decide,
        by decide⟩⟩,
   ⟨[Op.add_node ⟨0, 0, 0⟩, Op.add_node ⟨1, 0, 0⟩, Op.add_edge 0 1],
      ⟨[⟨0, 0, 0⟩, ⟨1, 0, 0⟩], [(0, 1)], [[1], [0]]⟩,
      by decide, Or.inr ⟨⟨1, 1⟩, ⟨1, 0⟩, ⟨rfl, by decide⟩, ⟨rfl, by decide⟩, by decide,
        by decide⟩⟩,
   by decide, by decide, by decide⟩

/-- The extent of the mismatch between `Edge::operator==` and
`Edge::operator<` of `Graph_1538fb7d5508.hpp`: for two issued handles of the
same graph, exactly one of `e1 == e2`, `e1 < e2`, `e2 < e1` holds except when
`e2` holds the endpoints of `e1` in the opposite order; two handles `edge(i)`
and `edge(j)` taken in one state of the graph are never in that position. -/
theorem g1538_issued_trichotomy_extent (this : Addr) (e1 e2 : G1538.Edge)
    (h1 : G1538.issuedEdge this e1) (h2 : G1538.issuedEdge this e2) :
    (exactlyOne (G1538.Edge.eq e1 e2) (G1538.Edge.lt e1 e2) (G1538.Edge.lt e2 e1) = true ↔
      ¬ (G1538.Node.eq e1.node1 e2.node2 = true ∧ G1538.Node.eq e1.node2 e2.node1 = true)) ∧
    (∀ ops g i j, G1538.run this ops G1538.empty = some g →
      G1538.edge this g i = some e1 → G1538.edge this g j = some e2 →
      exactlyOne (G1538.Edge.eq e1 e2) (G1538.Edge.lt e1 e2) (G1538.Edge.lt e2 e1) = true) := by
  obtain ⟨hg1, hne1⟩ := g1538_issued_props this e1 h1
  obtain ⟨hg2, _⟩ := g1538_issued_props this e2 h2
  have hg : e1.graph_ = e2.graph_ := by rw [hg1, hg2]
  have hchar := g1538_trichotomy_iff e1 e2 hg hne1
  have hrev : (G1538.Node.eq e1.node1 e2.node2 = true ∧ G1538.Node.eq e1.node2 e2.node1 = true) ↔
      (e1.node1_uid_ = e2.node2_uid_ ∧ e1.node2_uid_ = e2.node1_uid_) := by
    simp [g1538_node_eq_iff, G1538.Edge.node1, G1538.Edge.node2, G1538.node, hg]
  refine ⟨by rw [hrev]; exact hchar, ?_⟩
  intro ops g i j hrun he1 he2
  rw [hchar]
  rintro ⟨hr1, hr2⟩
  have hinv := g1538_inv_reachable this ops g hrun
  obtain ⟨p, hp, rfl⟩ := (g1538_edge_some_iff this g i e1).mp he1
  obtain ⟨q, hq, rfl⟩ := (g1538_edge_some_iff this g j e2).mp he2
  simp only at hr1 hr2 hne1
  obtain ⟨hi, hpi⟩ := List.getElem?_eq_some.mp hp
  obtain ⟨hj, hqj⟩ := List.getElem?_eq_some.mp hq
  have hpw := List.pairwise_iff_getElem.mp hinv.uniq
  rcases Nat.lt_trichotomy i j with hij | hij | hij
  · apply hpw i j hi hj hij
    rw [hpi, hqj]
    exact Or.inr ⟨hr1, hr2⟩
  · subst hij
    rw [hp] at hq
    cases hq
    exact hne1 hr1
  · apply hpw j i hj hi hij
    rw [hpi, hqj]
    exact Or.inr ⟨hr2.symm, hr1.symm⟩

/-- An instance of `g1538_issued_trichotomy_extent`: the handles `edge(0)` and
`edge(1)` of the graph with the edges {0,1} and {1,2}. -/
theorem g1538_issued_trichotomy_extent_example :
    G1538.issuedEdge 1 ⟨1, 0, 1⟩ ∧ G1538.issuedEdge 1 ⟨1, 1, 2⟩ ∧
    exactlyOne (G1538.Edge.eq ⟨1, 0, 1⟩ ⟨1, 1, 2⟩) (G1538.Edge.lt ⟨1, 0, 1⟩ ⟨1, 1, 2⟩)
      (G1538.Edge.lt ⟨1, 1, 2⟩ ⟨1, 0, 1⟩) = true :=
  have hrun : G1538.run 1 [Op.add_node ⟨0, 0, 0⟩, Op.add_node ⟨1, 0, 0⟩, Op.add_node ⟨0, 1, 0⟩,
        Op.add_edge 0 1, Op.add_edge 1 2] G1538.empty =
      some ⟨[⟨0, 0, 0⟩, ⟨1, 0, 0⟩, ⟨0, 1, 0⟩], [(0, 1), (1, 2)], [[1], [0, 2], [1]]⟩ := by
    decide
  have i1 : G1538.issuedEdge 1 ⟨1, 0, 1⟩ :=
    ⟨_, _, hrun, Or.inl ⟨0, by decide, by decide⟩⟩
  have i2 : G1538.issuedEdge 1 ⟨1, 1, 2⟩ :=
    ⟨_, _, hrun, Or.inl ⟨1, by decide, by decide⟩⟩
  ⟨i1, i2, (g1538_issued_trichotomy_extent 1 ⟨1, 0, 1⟩ ⟨1, 1, 2⟩ i1 i2).2 _ _ 0 1 hrun
    (by decide) (by decide)⟩

/-- C6 (Graph_8998baa3d11f.hpp): `Edge::operator<` takes `min_a` and `max_a`
both of `first` and `first`; after `add_node`, `add_node`,
`add_edge(node(0), node(1))` the handle `e = edge(0)` satisfies both `e == e`
and `e < e`, so not exactly one of the three relations holds. -/
theorem c6_edge_lt_itself_8998 :
    ∃ g, G8998.run 1 [Op.add_node ⟨0, 0, 0⟩, Op.add_node ⟨1, 0, 0⟩, Op.add_edge 0 1]
        G8998.empty = some g ∧ 0 < G8998.num_edges g ∧
      G8998.Edge.eq (G8998.heapOf 1 g) (G8998.edge 1 0) (G8998.edge 1 0) = some true ∧
      G8998.Edge.lt (G8998.heapOf 1 g) (G8998.edge 1 0) (G8998.edge 1 0) = some true :=
  ⟨⟨[⟨0, 0, 0⟩, ⟨1, 0, 0⟩], [(0, 1)]⟩, by decide, by decide, by decide, by decide⟩

/-- C7 (Graph_0e057bb55f26.hpp): when the edge is already stored in the other
order, `add_edge(a, b)` returns the handle of the stored slot: after `add_node`,
`add_node`, `add_edge(node(1), node(0))`, the call `add_edge(node(0), node(1))`
returns `e` with `e.node1() == node(1)` and `e.node2() == node(0)`. -/
theorem c7_add_edge_existing_order_0e057 :
    ∃ g, G0e057.run 1 [Op.add_node ⟨0, 0, 0⟩, Op.add_node ⟨1, 0, 0⟩, Op.add_edge 1 0]
        G0e057.empty = some g ∧
      ∃ e, G0e057.add_edge 1 g (G0e057.node 1 0) (G0e057.node 1 1) = some (g, e) ∧
        G0e057.Edge.node1 (G0e057.heapOf 1 g) e = some (G0e057.node 1 1) ∧
        G0e057.Edge.node2 (G0e057.heapOf 1 g) e = some (G0e057.node 1 0) ∧
        G0e057.Node.eq (G0e057.node 1 1) (G0e057.node 1 0) = false :=
  ⟨⟨[⟨0, 0, 0⟩, ⟨1, 0, 0⟩], [(1, 0)], 2, 1⟩, by decide,
    ⟨1, 0⟩, by decide, by decide, by decide, by decide⟩

/-- C8 (Graph_0e057bb55f26.hpp): `clear()` does not reset `graph_node_size_`,
so after `add_node`, `clear()` the call `n = add_node(p)` returns a node with
index 1 while `nodes_` holds one point: `n.position()` reads `nodes_[1]`,
outside the vector, and does not return `p`. -/
theorem c8_add_node_after_clear_0e057 :
    ∃ g, G0e057.run 1 [Op.add_node ⟨0, 0, 0⟩, Op.clear] G0e057.empty = some g ∧
      G0e057.num_nodes g = 1 ∧
      G0e057.num_nodes (G0e057.add_node 1 g ⟨5, 6, 7⟩).1 = 2 ∧
      G0e057.Node.index (G0e057.add_node 1 g ⟨5, 6, 7⟩).2 = 1 ∧
      (G0e057.add_node 1 g ⟨5, 6, 7⟩).1.nodes_ = [⟨5, 6, 7⟩] ∧
      G0e057.Node.position (G0e057.heapOf 1 (G0e057.add_node 1 g ⟨5, 6, 7⟩).1)
        (G0e057.add_node 1 g ⟨5, 6, 7⟩).2 = none :=
  ⟨⟨[], [], 1, 0⟩, by decide, by decide, by decide, by decide, by decide, by decide⟩

/-- C9 (Graph_d30b0457858d.hpp): `has_node` compares the position stored at the
index of the handle with the position of the handle; for two graphs `G` (at
address 1) and `H` (at address 2) that each hold one node at the same point,
`G.has_node(n)` is true for the node `n` that `H.add_node` returned. -/
theorem c9_has_node_other_graph_d30b :
    Gd30b.has_node
      (fun a => if a = 1 then some (Gd30b.add_node 1 Gd30b.empty ⟨0, 0, 0⟩).1
                else if a = 2 then some (Gd30b.add_node 2 Gd30b.empty ⟨0, 0, 0⟩).1 else none)
      (Gd30b.add_node 1 Gd30b.empty ⟨0, 0, 0⟩).1
      (Gd30b.add_node 2 Gd30b.empty ⟨0, 0, 0⟩).2 = some true ∧
    (Gd30b.add_node 2 Gd30b.empty ⟨0, 0, 0⟩).2 = Gd30b.node 2 0 ∧
    (Gd30b.add_node 2 Gd30b.empty ⟨0, 0, 0⟩).2.graph_ ≠ 1 :=
  ⟨by decide, by decide, by decide⟩

/-- C10 (Graph_8998baa3d11f.hpp): `has_node` tests the owning graph only: for
the node `n` returned by `add_node` on the graph at address 1, after `clear()`
the call `has_node(n)` is still true although `n.index()` is 0 and
`num_nodes()` is 0. -/
theorem c10_has_node_ignores_range_8998 :
    ∃ g, G8998.run 1 [Op.add_node ⟨0, 0, 0⟩, Op.clear] G8998.empty = some g ∧
      G8998.has_node 1 (G8998.add_node 1 G8998.empty ⟨0, 0, 0⟩).2 = true ∧
      G8998.Node.index (G8998.add_node 1 G8998.empty ⟨0, 0, 0⟩).2 = 0 ∧
      G8998.num_nodes g = 0 :=
  ⟨⟨[], []⟩, by decide, by decide, by decide, by decide⟩

/-- C11 (Graph_1538fb7d5508.hpp): for every graph state `G` (reachable or
not) and every Node handle `n`, of any graph and any index, `G.has_node(n)` is
true if and only if `n` was issued by `G` (its `graph_` is the address of `G`)
and `n.index() < G.num_nodes()`. -/
theorem c11_has_node_iff_1538 (this : Addr) (g : G1538.Graph) (n : G1538.Node) :
    G1538.has_node this g n = true ↔ (n.graph_ = this ∧ n.index < G1538.num_nodes g) := by
  simp only [G1538.has_node, G1538.num_nodes, Bool.and_eq_true, decide_eq_true_eq]
  constructor
  · rintro ⟨h1, h2⟩; exact ⟨h1.symm, h2⟩
  · rintro ⟨h1, h2⟩; exact ⟨h1.symm, h2⟩

/-- C12 (Graph_8998baa3d11f.hpp): `Node::operator==` compares `norm_1` of the
two positions and neither the graph pointers nor the indices: whatever
`norm_1` is, after two `add_node` calls with the same point the valid nodes
`node(0)` and `node(1)` of one graph satisfy `node(0) == node(1)` although
their indices differ. -/
theorem c12_node_eq_by_norm_8998 (norm_1 : Point → Int) :
    ∃ g, G8998.run 1 [Op.add_node ⟨1, 0, 0⟩, Op.add_node ⟨1, 0, 0⟩] G8998.empty = some g ∧
      G8998.validNode 1 g (G8998.node 1 0) ∧ G8998.validNode 1 g (G8998.node 1 1) ∧
      G8998.Node.eq norm_1 (G8998.heapOf 1 g) (G8998.node 1 0) (G8998.node 1 1) = some true ∧
      (G8998.node 1 0).index ≠ (G8998.node 1 1).index :=
  ⟨⟨[⟨1, 0, 0⟩, ⟨1, 0, 0⟩], []⟩, by decide, ⟨rfl, by decide⟩, ⟨rfl, by decide⟩,
    by simp [G8998.Node.eq, G8998.Node.position, G8998.heapOf, G8998.node], by decide⟩

/-- C13 (Graph_fb5c2f2afa8a.hpp): `Node::operator<` compares the indices only
while `Node::operator==` also compares the graph pointers: for the node `x`
returned by `add_node` on a graph at address 1 and the node `y` returned by
`add_node` on another graph at address 2 (both of index 0), none of `x == y`,
`x < y`, `y < x` is true. -/
theorem c13_node_trichotomy_fails_fb5c :
    Gfb5c.validNode 1 (Gfb5c.add_node 1 Gfb5c.empty ⟨0, 0, 0⟩).1
      (Gfb5c.add_node 1 Gfb5c.empty ⟨0, 0, 0⟩).2 ∧
    Gfb5c.validNode 2 (Gfb5c.add_node 2 Gfb5c.empty ⟨1, 0, 0⟩).1
      (Gfb5c.add_node 2 Gfb5c.empty ⟨1, 0, 0⟩).2 ∧
    Gfb5c.Node.eq (Gfb5c.add_node 1 Gfb5c.empty ⟨0, 0, 0⟩).2
      (Gfb5c.add_node 2 Gfb5c.empty ⟨1, 0, 0⟩).2 = false ∧
    Gfb5c.Node.lt (Gfb5c.add_node 1 Gfb5c.empty ⟨0, 0, 0⟩).2
      (Gfb5c.add_node 2 Gfb5c.empty ⟨1, 0, 0⟩).2 = false ∧
    Gfb5c.Node.lt (Gfb5c.add_node 2 Gfb5c.empty ⟨1, 0, 0⟩).2
      (Gfb5c.add_node 1 Gfb5c.empty ⟨0, 0, 0⟩).2 = false :=
  ⟨⟨rfl, by decide⟩, ⟨rfl, by decide⟩, by decide, by decide, by decide⟩

/-! ### Variant `Graph_8998baa3d11f.hpp`: the scan of `has_edge` -/

theorem g8998_has_edge_loop_iff (a b : Nat) (l : List (Nat × Nat)) :
    G8998.has_edge_loop a b l = true ↔
      ∃ p, p ∈ l ∧ ((a = p.1 ∧ b = p.2) ∨ (a = p.2 ∧ b = p.1)) := by
  induction l with
  | nil => simp [G8998.has_edge_loop]
  | cons q rest ih =>
    unfold G8998.has_edge_loop
    by_cases hq : (a = q.1 ∧ b = q.2) ∨ (a = q.2 ∧ b = q.1)
    · simp only [hq, if_true, true_iff]
      exact ⟨q, List.mem_cons_self _ _, hq⟩
    · simp only [hq, if_false, ih]
      constructor
      · rintro ⟨p, hp, hc⟩
        exact ⟨p, List.mem_cons_of_mem _ hp, hc⟩
      · rintro ⟨p, hp, hc⟩
        rcases List.mem_cons.mp hp with rfl | hp1
        · exact absurd hc hq
        · exact ⟨p, hp1, hc⟩

theorem g8998_stored_edge (this : Addr) (g : G8998.Graph) (i : Nat) :
    G8998.Edge.stored (G8998.heapOf this g) (G8998.edge this i) = g.edge_list[i]? := by
  simp [G8998.Edge.stored, G8998.heapOf, G8998.edge]

/-- C14, as stated, fails (Graph_8998baa3d11f.hpp): let `G` (at address 1) hold
two nodes and the edge {0,1}, and `H` (at address 2) hold two nodes; for the
valid nodes `a = H.node(0)`, `b = H.node(1)` of `H` and `c = G.node(1)` of `G`,
`G.has_edge(a, b)`, `G.has_edge(b, a)` and `G.has_edge(a, c)` are all true. -/
theorem c14_counterexample_8998 :
    ∃ g h, G8998.run 1 [Op.add_node ⟨0, 0, 0⟩, Op.add_node ⟨1, 0, 0⟩, Op.add_edge 0 1]
        G8998.empty = some g ∧
      G8998.run 2 [Op.add_node ⟨0, 0, 0⟩, Op.add_node ⟨1, 0, 0⟩] G8998.empty = some h ∧
      G8998.validNode 2 h (G8998.node 2 0) ∧ G8998.validNode 2 h (G8998.node 2 1) ∧
      G8998.validNode 1 g (G8998.node 1 1) ∧
      G8998.has_edge g (G8998.node 2 0) (G8998.node 2 1) = true ∧
      G8998.has_edge g (G8998.node 2 1) (G8998.node 2 0) = true ∧
      G8998.has_edge g (G8998.node 2 0) (G8998.node 1 1) = true :=
  ⟨⟨[⟨0, 0, 0⟩, ⟨1, 0, 0⟩], [(0, 1)]⟩, ⟨[⟨0, 0, 0⟩, ⟨1, 0, 0⟩], []⟩, by decide, by decide,
    ⟨rfl, by decide⟩, ⟨rfl, by decide⟩, ⟨rfl, by decide⟩, by decide, by decide, by decide⟩

/-- C14, amended (Graph_8998baa3d11f.hpp): `G.has_edge(a, b)` never looks at
the graphs that issued `a` and `b`.  For every state of `G` (at address `this`)
and all Node handles `a` and `b`, of `G` or of any other graph, it returns, it
is true if and only if some `edge(i)` of `G` with `i < G.num_edges()` stores the
indices of `a` and `b`, in either order, and `G.has_edge(b, a)` returns the
same value. -/
theorem c14_has_edge_by_index_8998 (this : Addr) (g : G8998.Graph) (a b : G8998.Node) :
    (G8998.has_edge g a b = true ↔
      ∃ i, i < G8998.num_edges g ∧
        ∃ p, G8998.Edge.stored (G8998.heapOf this g) (G8998.edge this i) = some p ∧
          ((a.index = p.1 ∧ b.index = p.2) ∨ (a.index = p.2 ∧ b.index = p.1))) ∧
    G8998.has_edge g b a = G8998.has_edge g a b := by
  constructor
  · unfold G8998.has_edge
    rw [g8998_has_edge_loop_iff]
    simp only [g8998_stored_edge, G8998.Node.index, G8998.num_edges]
    constructor
    · rintro ⟨p, hp, hc⟩
      obtain ⟨i, hi⟩ := List.mem_iff_getElem?.mp hp
      exact ⟨i, (List.getElem?_eq_some.mp hi).1, p, hi, hc⟩
    · rintro ⟨i, _, p, hi, hc⟩
      exact ⟨p, List.getElem?_mem hi, hc⟩
  · have h1 := g8998_has_edge_loop_iff a.uid_ b.uid_ g.edge_list
    have h2 := g8998_has_edge_loop_iff b.uid_ a.uid_ g.edge_list
    have hiff : G8998.has_edge g b a = true ↔ G8998.has_edge g a b = true := by
      unfold G8998.has_edge
      rw [h1, h2]
      constructor
      · rintro ⟨p, hp, hc⟩; exact ⟨p, hp, by tauto⟩
      · rintro ⟨p, hp, hc⟩; exact ⟨p, hp, by tauto⟩
    cases hx : G8998.has_edge g b a <;> cases hy : G8998.has_edge g a b <;>
      simp [hx, hy] at hiff ⊢

/-! ### Variant `Graph_d30b0457858d.hpp`: the counter of `has_edge` and the
uniqueness of the stored pairs -/

theorem gd30b_connects_iff (a b : Nat) (p : Nat × Nat) :
    Gd30b.connects a b p ↔ (p = (a, b) ∨ p = (b, a)) := by
  obtain ⟨u, v⟩ := p
  simp only [Gd30b.connects, Prod.mk.injEq]
  constructor
  · rintro (⟨h1, h2⟩ | ⟨h1, h2⟩)
    · exact Or.inl ⟨h1.symm, h2.symm⟩
    · exact Or.inr ⟨h2.symm, h1.symm⟩
  · rintro (⟨h1, h2⟩ | ⟨h1, h2⟩)
    · exact Or.inl ⟨h1.symm, h2.symm⟩
    · exact Or.inr ⟨h2.symm, h1.symm⟩

theorem gd30b_loop_shift (a b : Nat) (l : List (Nat × Nat)) (m : Nat) :
    Gd30b.has_edge_loop a b l m = m + Gd30b.has_edge_loop a b l 0 := by
  induction l generalizing m with
  | nil => simp [Gd30b.has_edge_loop]
  | cons p rest ih =>
    unfold Gd30b.has_edge_loop
    by_cases hp : (a = p.1 ∧ b = p.2) ∨ (a = p.2 ∧ b = p.1)
    · simp only [hp, if_true]
      rw [ih (m + 1), ih (0 + 1)]
      omega
    · simp only [hp, if_false]
      exact ih m

theorem gd30b_loop_cons (a b : Nat) (p : Nat × Nat) (rest : List (Nat × Nat)) :
    Gd30b.has_edge_loop a b (p :: rest) 0 =
      (if Gd30b.connects a b p then 1 else 0) + Gd30b.has_edge_loop a b rest 0 := by
  show (if (a = p.1 ∧ b = p.2) ∨ (a = p.2 ∧ b = p.1) then
      Gd30b.has_edge_loop a b rest (0 + 1) else Gd30b.has_edge_loop a b rest 0) = _
  by_cases hp : (a = p.1 ∧ b = p.2) ∨ (a = p.2 ∧ b = p.1)
  · have hc : Gd30b.connects a b p := hp
    simp only [hp, hc, if_true]
    rw [gd30b_loop_shift]
  · have hc : ¬ Gd30b.connects a b p := hp
    simp only [hp, hc, if_false]
    omega

theorem gd30b_loop_zero (a b : Nat) (l : List (Nat × Nat))
    (h : ∀ p ∈ l, ¬ Gd30b.connects a b p) : Gd30b.has_edge_loop a b l 0 = 0 := by
  induction l with
  | nil => rfl
  | cons p rest ih =>
    rw [gd30b_loop_cons, if_neg (h p (List.mem_cons_self _ _)),
      ih (fun q hq => h q (List.mem_cons_of_mem _ hq))]

theorem gd30b_loop_append (a b : Nat) (l1 l2 : List (Nat × Nat)) :
    Gd30b.has_edge_loop a b (l1 ++ l2) 0 =
      Gd30b.has_edge_loop a b l1 0 + Gd30b.has_edge_loop a b l2 0 := by
  induction l1 with
  | nil => simp [Gd30b.has_edge_loop]
  | cons p rest ih =>
    rw [List.cons_append, gd30b_loop_cons, gd30b_loop_cons, ih]
    omega

theorem gd30b_loop_pos (a b : Nat) (l : List (Nat × Nat)) (p : Nat × Nat) (hp : p ∈ l)
    (hc : Gd30b.connects a b p) : 1 ≤ Gd30b.has_edge_loop a b l 0 := by
  induction l with
  | nil => cases hp
  | cons q rest ih =>
    rw [gd30b_loop_cons]
    rcases List.mem_cons.mp hp with rfl | hp1
    · rw [if_pos hc]
      omega
    · have := ih hp1
      omega

theorem gd30b_loop_le_one (a b : Nat) (l : List (Nat × Nat))
    (hu : l.Pairwise (fun p q => ¬ Gd30b.samePair p q)) :
    Gd30b.has_edge_loop a b l 0 ≤ 1 := by
  induction l with
  | nil => simp [Gd30b.has_edge_loop]
  | cons p rest ih =>
    rw [gd30b_loop_cons]
    obtain ⟨hhead, htail⟩ := List.pairwise_cons.mp hu
    by_cases hc : Gd30b.connects a b p
    · rw [if_pos hc]
      have hz : Gd30b.has_edge_loop a b rest 0 = 0 := by
        apply gd30b_loop_zero
        intro q hq hcq
        apply hhead q hq
        rcases (gd30b_connects_iff a b p).mp hc with rfl | rfl <;>
          rcases (gd30b_connects_iff a b q).mp hcq with rfl | rfl <;>
          simp [Gd30b.samePair]
      omega
    · rw [if_neg hc]
      have := ih htail
      omega

theorem gd30b_find_le (v : Nat × Nat) (l : List (Nat × Nat)) :
    Gd30b.find v l ≤ l.length := by
  induction l with
  | nil => simp [Gd30b.find]
  | cons q rest ih =>
    unfold Gd30b.find
    split_ifs
    · omega
    · simp only [List.length_cons]
      omega

theorem gd30b_find_lt_iff (v : Nat × Nat) (l : List (Nat × Nat)) :
    Gd30b.find v l < l.length ↔ v ∈ l := by
  induction l with
  | nil => simp [Gd30b.find]
  | cons q rest ih =>
    unfold Gd30b.find
    by_cases hq : q = v
    · subst hq
      simp
    · simp only [hq, if_false, List.length_cons, Nat.add_lt_add_iff_right, ih, List.mem_cons]
      constructor
      · intro h; exact Or.inr h
      · rintro (h | h)
        · exact absurd h.symm hq
        · exact h

theorem gd30b_add_edge_new (this : Addr) (g : Gd30b.Graph) (a b : Gd30b.Node)
    (h1 : (a.index, b.index) ∉ g.edge_node) (h2 : (b.index, a.index) ∉ g.edge_node) :
    Gd30b.add_edge this g a b =
      (⟨g.points, g.edge_node ++ [(a.index, b.index)]⟩, ⟨this, g.edge_node.length⟩) := by
  have e1 : ¬ Gd30b.find (a.index, b.index) g.edge_node < g.edge_node.length :=
    fun h => h1 ((gd30b_find_lt_iff _ _).mp h)
  have e2 : ¬ Gd30b.find (b.index, a.index) g.edge_node < g.edge_node.length :=
    fun h => h2 ((gd30b_find_lt_iff _ _).mp h)
  have hc : Gd30b.find (a.index, b.index) g.edge_node ≥ g.edge_node.length ∧
      Gd30b.find (b.index, a.index) g.edge_node ≥ g.edge_node.length := ⟨by omega, by omega⟩
  simp only [Gd30b.add_edge, hc, and_self, if_true, List.length_append, List.length_singleton,
    Nat.add_sub_cancel]

theorem gd30b_add_edge_old (this : Addr) (g : Gd30b.Graph) (a b : Gd30b.Node)
    (h : (a.index, b.index) ∈ g.edge_node ∨ (b.index, a.index) ∈ g.edge_node) :
    (Gd30b.add_edge this g a b).1 = g := by
  have hc : ¬ (Gd30b.find (a.index, b.index) g.edge_node ≥ g.edge_node.length ∧
      Gd30b.find (b.index, a.index) g.edge_node ≥ g.edge_node.length) := by
    rintro ⟨c1, c2⟩
    rcases h with h | h
    · have := (gd30b_find_lt_iff _ _).mpr h
      omega
    · have := (gd30b_find_lt_iff _ _).mpr h
      omega
  simp only [Gd30b.add_edge, hc, if_false]
  split_ifs <;> rfl

theorem gd30b_inv_add_edge (this : Addr) (g : Gd30b.Graph) (a b : Gd30b.Node)
    (hinv : Gd30b.Inv g) : Gd30b.Inv (Gd30b.add_edge this g a b).1 := by
  by_cases h : (a.index, b.index) ∈ g.edge_node ∨ (b.index, a.index) ∈ g.edge_node
  · rw [gd30b_add_edge_old this g a b h]
    exact hinv
  · have h1 : (a.index, b.index) ∉ g.edge_node := fun hh => h (Or.inl hh)
    have h2 : (b.index, a.index) ∉ g.edge_node := fun hh => h (Or.inr hh)
    rw [gd30b_add_edge_new this g a b h1 h2]
    show (g.edge_node ++ [(a.index, b.index)]).Pairwise _
    rw [List.pairwise_append]
    refine ⟨hinv, List.pairwise_singleton _ _, ?_⟩
    intro p hp q hq
    simp only [List.mem_singleton] at hq
    subst hq
    rintro (⟨h3, h4⟩ | ⟨h3, h4⟩)
    · apply h1
      have : p = (a.index, b.index) := Prod.ext h3 h4
      rw [← this]; exact hp
    · apply h2
      have : p = (b.index, a.index) := Prod.ext h3 h4
      rw [← this]; exact hp

theorem gd30b_inv_step (this : Addr) (g g1 : Gd30b.Graph) (op : Op)
    (hinv : Gd30b.Inv g) (hstep : Gd30b.step this g op = some g1) : Gd30b.Inv g1 := by
  cases op with
  | add_node position =>
    simp only [Gd30b.step, Option.some.injEq] at hstep
    subst hstep
    exact hinv
  | add_edge i j =>
    simp only [Gd30b.step] at hstep
    split_ifs at hstep with hc
    simp only [Option.some.injEq] at hstep
    subst hstep
    exact gd30b_inv_add_edge this g _ _ hinv
  | clear =>
    simp only [Gd30b.step, Option.some.injEq] at hstep
    subst hstep
    exact List.Pairwise.nil

theorem gd30b_inv_run_from (this : Addr) (ops : List Op) (g g1 : Gd30b.Graph)
    (hinv : Gd30b.Inv g) (hrun : Gd30b.run this ops g = some g1) : Gd30b.Inv g1 := by
  induction ops generalizing g with
  | nil =>
    simp only [Gd30b.run, Option.some.injEq] at hrun
    subst hrun
    exact hinv
  | cons op ops ih =>
    unfold Gd30b.run at hrun
    cases hs : Gd30b.step this g op with
    | none => rw [hs] at hrun; cases hrun
    | some g2 =>
      rw [hs] at hrun
      exact ih g2 (gd30b_inv_step this g g2 op hinv hs) hrun

theorem gd30b_inv_reachable (this : Addr) (ops : List Op) (g : Gd30b.Graph)
    (hrun : Gd30b.run this ops Gd30b.empty = some g) : Gd30b.Inv g :=
  gd30b_inv_run_from this ops Gd30b.empty g List.Pairwise.nil hrun

theorem gd30b_count_after_add_edge (this : Addr) (g : Gd30b.Graph) (a b : Gd30b.Node)
    (hinv : Gd30b.Inv g) :
    Gd30b.has_edge_loop a.index b.index (Gd30b.add_edge this g a b).1.edge_node 0 = 1 := by
  by_cases h : (a.index, b.index) ∈ g.edge_node ∨ (b.index, a.index) ∈ g.edge_node
  · rw [gd30b_add_edge_old this g a b h]
    have hle := gd30b_loop_le_one a.index b.index g.edge_node hinv
    have hge : 1 ≤ Gd30b.has_edge_loop a.index b.index g.edge_node 0 := by
      rcases h with h | h
      · exact gd30b_loop_pos _ _ _ _ h ((gd30b_connects_iff _ _ _).mpr (Or.inl rfl))
      · exact gd30b_loop_pos _ _ _ _ h ((gd30b_connects_iff _ _ _).mpr (Or.inr rfl))
    omega
  · have h1 : (a.index, b.index) ∉ g.edge_node := fun hh => h (Or.inl hh)
    have h2 : (b.index, a.index) ∉ g.edge_node := fun hh => h (Or.inr hh)
    rw [gd30b_add_edge_new this g a b h1 h2]
    show Gd30b.has_edge_loop a.index b.index (g.edge_node ++ [(a.index, b.index)]) 0 = 1
    rw [gd30b_loop_append, gd30b_loop_zero, gd30b_loop_cons,
      if_pos ((gd30b_connects_iff _ _ _).mpr (Or.inl rfl))]
    · rfl
    · intro p hp hc
      rcases (gd30b_connects_iff _ _ _).mp hc with rfl | rfl
      · exact h1 hp
      · exact h2 hp

/-- C15 (Graph_d30b0457858d.hpp): in every state reachable from the empty
graph by `add_node`, `add_edge` (on distinct valid nodes) and `clear`, for all
nodes `a` and `b` (in particular distinct valid ones): after `add_edge(a, b)`
the counter `match` that `has_edge(a, b)` compares with 1 is exactly 1, and
`has_edge(a, b)` is true, whether or not the edge existed before the call. -/
theorem c15_has_edge_after_add_edge_d30b (this : Addr) (ops : List Op) (g : Gd30b.Graph)
    (hrun : Gd30b.run this ops Gd30b.empty = some g) (a b : Gd30b.Node) :
    Gd30b.has_edge_loop a.index b.index (Gd30b.add_edge this g a b).1.edge_node 0 = 1 ∧
    Gd30b.has_edge (Gd30b.add_edge this g a b).1 a b = true := by
  have hcount := gd30b_count_after_add_edge this g a b (gd30b_inv_reachable this ops g hrun)
  exact ⟨hcount, by simp [Gd30b.has_edge, hcount]⟩

/-- Witness of C15: three nodes, the edges {0,1} and {1,2}; the call
`add_edge(node(1), node(0))` meets the edge stored as (0, 1). -/
theorem c15_has_edge_after_add_edge_d30b_witness :
    Gd30b.validNode 1 ⟨[⟨0, 0, 0⟩, ⟨1, 0, 0⟩, ⟨0, 1, 0⟩], [(0, 1), (1, 2)]⟩ (Gd30b.node 1 1) ∧
    Gd30b.validNode 1 ⟨[⟨0, 0, 0⟩, ⟨1, 0, 0⟩, ⟨0, 1, 0⟩], [(0, 1), (1, 2)]⟩ (Gd30b.node 1 0) ∧
    Gd30b.has_edge_loop (Gd30b.node 1 1).index (Gd30b.node 1 0).index
      (Gd30b.add_edge 1 ⟨[⟨0, 0, 0⟩, ⟨1, 0, 0⟩, ⟨0, 1, 0⟩], [(0, 1), (1, 2)]⟩
        (Gd30b.node 1 1) (Gd30b.node 1 0)).1.edge_node 0 = 1 ∧
    Gd30b.has_edge
      (Gd30b.add_edge 1 ⟨[⟨0, 0, 0⟩, ⟨1, 0, 0⟩, ⟨0, 1, 0⟩], [(0, 1), (1, 2)]⟩
        (Gd30b.node 1 1) (Gd30b.node 1 0)).1 (Gd30b.node 1 1) (Gd30b.node 1 0) = true :=
  ⟨⟨rfl, by decide⟩, ⟨rfl, by decide⟩,
   c15_has_edge_after_add_edge_d30b 1
    [Op.add_node ⟨0, 0, 0⟩, Op.add_node ⟨1, 0, 0⟩, Op.add_node ⟨0, 1, 0⟩,
      Op.add_edge 0 1, Op.add_edge 1 2]
    ⟨[⟨0, 0, 0⟩, ⟨1, 0, 0⟩, ⟨0, 1, 0⟩], [(0, 1), (1, 2)]⟩ (by decide)
    (Gd30b.node 1 1) (Gd30b.node 1 0)⟩

/-- C16 (Graph_d30b0457858d.hpp): in every state (reachable or not), for all
nodes `a` and `b` (in particular distinct valid ones) that no stored pair
connects, in either order: after one call `add_edge(a, b)`, `has_edge(a, b)`
is true and `num_edges()` is exactly 1 greater than before the call. -/
theorem c16_add_edge_new_d30b (this : Addr) (g : Gd30b.Graph) (a b : Gd30b.Node)
    (hno : ∀ p ∈ g.edge_node, ¬ Gd30b.connects a.index b.index p) :
    Gd30b.has_edge (Gd30b.add_edge this g a b).1 a b = true ∧
    Gd30b.num_edges (Gd30b.add_edge this g a b).1 = Gd30b.num_edges g + 1 := by
  have h1 : (a.index, b.index) ∉ g.edge_node :=
    fun hh => hno _ hh ((gd30b_connects_iff _ _ _).mpr (Or.inl rfl))
  have h2 : (b.index, a.index) ∉ g.edge_node :=
    fun hh => hno _ hh ((gd30b_connects_iff _ _ _).mpr (Or.inr rfl))
  rw [gd30b_add_edge_new this g a b h1 h2]
  constructor
  · have hcount : Gd30b.has_edge_loop a.index b.index
        (g.edge_node ++ [(a.index, b.index)]) 0 = 1 := by
      rw [gd30b_loop_append, gd30b_loop_zero _ _ _ hno, gd30b_loop_cons,
        if_pos ((gd30b_connects_iff _ _ _).mpr (Or.inl rfl))]
      rfl
    simp [Gd30b.has_edge, hcount]
  · simp [Gd30b.num_edges]

/-- Witness of C16: three nodes and the edge {0,1}; the nodes 1 and 2 are not
connected before `add_edge(node(1), node(2))`. -/
theorem c16_add_edge_new_d30b_witness :
    (∀ p ∈ (⟨[⟨0, 0, 0⟩, ⟨1, 0, 0⟩, ⟨0, 1, 0⟩], [(0, 1)]⟩ : Gd30b.Graph).edge_node,
      ¬ Gd30b.connects (Gd30b.node 1 1).index (Gd30b.node 1 2).index p) ∧
    Gd30b.has_edge
      (Gd30b.add_edge 1 ⟨[⟨0, 0, 0⟩, ⟨1, 0, 0⟩, ⟨0, 1, 0⟩], [(0, 1)]⟩
        (Gd30b.node 1 1) (Gd30b.node 1 2)).1 (Gd30b.node 1 1) (Gd30b.node 1 2) = true ∧
    Gd30b.num_edges
      (Gd30b.add_edge 1 ⟨[⟨0, 0, 0⟩, ⟨1, 0, 0⟩, ⟨0, 1, 0⟩], [(0, 1)]⟩
        (Gd30b.node 1 1) (Gd30b.node 1 2)).1 =
      Gd30b.num_edges ⟨[⟨0, 0, 0⟩, ⟨1, 0, 0⟩, ⟨0, 1, 0⟩], [(0, 1)]⟩ + 1 :=
  ⟨by decide,
   c16_add_edge_new_d30b 1 ⟨[⟨0, 0, 0⟩, ⟨1, 0, 0⟩, ⟨0, 1, 0⟩], [(0, 1)]⟩
    (Gd30b.node 1 1) (Gd30b.node 1 2) (by decide)⟩

/-! ### Variant `Graph_0e057bb55f26.hpp`: the two loops over the edge list -/

theorem g0e057_loops (l : List (Nat × Nat)) (a b : Nat) (fuel i : Nat)
    (hfuel : i + fuel = l.length) :
    (∃ k, i ≤ k ∧ k < l.length ∧ (∃ p, l[k]? = some p ∧ G0e057.connects a b p) ∧
        G0e057.has_edge_loop l a b fuel i = some true ∧
        G0e057.add_edge_loop l a b fuel i = some (some k) ∧
        ∀ j, i ≤ j → j < k → ∀ p, l[j]? = some p → ¬ G0e057.connects a b p) ∨
    ((∀ j, i ≤ j → ∀ p, l[j]? = some p → ¬ G0e057.connects a b p) ∧
        G0e057.has_edge_loop l a b fuel i = some false ∧
        G0e057.add_edge_loop l a b fuel i = some none) := by
  induction fuel generalizing i with
  | zero =>
    right
    refine ⟨?_, rfl, rfl⟩
    intro j hj p hp
    have := (List.getElem?_eq_some.mp hp).1
    omega
  | succ fuel ih =>
    have hi : i < l.length := by omega
    have hget : l[i]? = some l[i] := List.getElem?_eq_getElem hi
    by_cases h1 : l[i].1 = a ∧ l[i].2 = b
    · left
      refine ⟨i, le_refl i, hi, ⟨l[i], hget, Or.inl h1⟩, ?_, ?_, ?_⟩
      · simp [G0e057.has_edge_loop, hget, h1]
      · simp [G0e057.add_edge_loop, hget, h1]
      · intro j h2 h3; omega
    · by_cases h2 : l[i].1 = b ∧ l[i].2 = a
      · left
        refine ⟨i, le_refl i, hi, ⟨l[i], hget, Or.inr h2⟩, ?_, ?_, ?_⟩
        · simp [G0e057.has_edge_loop, hget, h1, h2]
        · simp [G0e057.add_edge_loop, hget, h1, h2]
        · intro j h3 h4; omega
      · have hstep1 : G0e057.has_edge_loop l a b (fuel + 1) i =
            G0e057.has_edge_loop l a b fuel (i + 1) := by
          simp [G0e057.has_edge_loop, hget, h1, h2]
        have hstep2 : G0e057.add_edge_loop l a b (fuel + 1) i =
            G0e057.add_edge_loop l a b fuel (i + 1) := by
          simp [G0e057.add_edge_loop, hget, h1, h2]
        have hnot : ∀ p, l[i]? = some p → ¬ G0e057.connects a b p := by
          intro p hp hc
          rw [hget] at hp
          cases hp
          rcases hc with hc | hc
          · exact h1 hc
          · exact h2 hc
        rcases ih (i + 1) (by omega) with ⟨k, hk1, hk2, hk3, hk4, hk5, hk6⟩ | ⟨hn, hk4, hk5⟩
        · left
          refine ⟨k, by omega, hk2, hk3, by rw [hstep1]; exact hk4, by rw [hstep2]; exact hk5, ?_⟩
          intro j hj1 hj2 p hp
          rcases Nat.eq_or_lt_of_le hj1 with hji | hji
          · subst hji; exact hnot p hp
          · exact hk6 j hji hj2 p hp
        · right
          refine ⟨?_, by rw [hstep1]; exact hk4, by rw [hstep2]; exact hk5⟩
          intro j hj1 p hp
          rcases Nat.eq_or_lt_of_le hj1 with hji | hji
          · subst hji; exact hnot p hp
          · exact hn j hji p hp

theorem g0e057_edge_eq_self (this : Addr) (g : G0e057.Graph) (k : Nat)
    (hk : k < g.edgeList_.length) :
    G0e057.Edge.eq (G0e057.heapOf this g) ⟨this, k⟩ ⟨this, k⟩ = some true := by
  simp [G0e057.Edge.eq, G0e057.Edge.node1, G0e057.Edge.node2, G0e057.heapOf,
    List.getElem?_eq_getElem hk, G0e057.Node.eq, G0e057.Node.index]

theorem g0e057_sized_add_edge (this : Addr) (g g1 : G0e057.Graph) (a b : G0e057.Node)
    (e : G0e057.Edge) (hs : G0e057.Sized g)
    (hadd : G0e057.add_edge this g a b = some (g1, e)) : G0e057.Sized g1 := by
  have hnew : G0e057.Sized (G0e057.add_edge_new this g a b).1 := by
    obtain ⟨h1, h2⟩ := hs
    exact ⟨h1, by simp [G0e057.add_edge_new, h2]⟩
  unfold G0e057.add_edge at hadd
  cases hh : G0e057.has_edge g a b with
  | none => simp [hh] at hadd
  | some r =>
    cases r with
    | false =>
      simp only [hh, Option.some.injEq] at hadd
      rw [hadd] at hnew
      exact hnew
    | true =>
      simp only [hh] at hadd
      cases hl : G0e057.add_edge_loop g.edgeList_ a.index b.index g.graph_edge_size_ 0 with
      | none => simp [hl] at hadd
      | some o =>
        cases o with
        | none =>
          simp only [hl, Option.some.injEq] at hadd
          rw [hadd] at hnew
          exact hnew
        | some i =>
          simp only [hl, Option.some.injEq, Prod.mk.injEq] at hadd
          rw [← hadd.1]
          exact hs

theorem g0e057_sized_run_from (this : Addr) (ops : List Op) (g g1 : G0e057.Graph)
    (hs : G0e057.Sized g) (hnc : noClear ops = true)
    (hrun : G0e057.run this ops g = some g1) : G0e057.Sized g1 := by
  induction ops generalizing g with
  | nil =>
    simp only [G0e057.run, Option.some.injEq] at hrun
    subst hrun
    exact hs
  | cons op ops ih =>
    unfold G0e057.run at hrun
    cases hstep : G0e057.step this g op with
    | none => rw [hstep] at hrun; cases hrun
    | some g2 =>
      rw [hstep] at hrun
      cases op with
      | add_node position =>
        simp only [G0e057.step, Option.some.injEq] at hstep
        subst hstep
        refine ih _ ?_ (by simpa [noClear] using hnc) hrun
        obtain ⟨h1, h2⟩ := hs
        exact ⟨by simp [G0e057.add_node, h1], h2⟩
      | add_edge i j =>
        simp only [G0e057.step] at hstep
        split_ifs at hstep with hc
        cases hadd : G0e057.add_edge this g (G0e057.node this i) (G0e057.node this j) with
        | none => rw [hadd] at hstep; cases hstep
        | some r =>
          rw [hadd] at hstep
          simp only [Option.map_some', Option.some.injEq] at hstep
          subst hstep
          exact ih _ (g0e057_sized_add_edge this g r.1 _ _ r.2 hs hadd)
            (by simpa [noClear] using hnc) hrun
      | clear => simp [noClear] at hnc

/-- C17 (Graph_0e057bb55f26.hpp): for every graph state built by `add_node` and
`add_edge` (on distinct valid nodes, no `clear`) and all nodes `a` and `b` (in
particular distinct valid ones): `e1 = add_edge(a, b)` and then
`e2 = add_edge(a, b)` both return, the second call leaves `num_edges()`
unchanged, and `e1 == e2` is true. -/
theorem c17_add_edge_twice_0e057 (this : Addr) (ops : List Op) (g : G0e057.Graph)
    (hrun : G0e057.run this ops G0e057.empty = some g) (hnc : noClear ops = true)
    (a b : G0e057.Node) :
    ∃ g1 e1 g2 e2, G0e057.add_edge this g a b = some (g1, e1) ∧
      G0e057.add_edge this g1 a b = some (g2, e2) ∧
      G0e057.num_edges g2 = G0e057.num_edges g1 ∧
      G0e057.Edge.eq (G0e057.heapOf this g2) e1 e2 = some true := by
  obtain ⟨_, hs2⟩ := g0e057_sized_run_from this ops G0e057.empty g ⟨rfl, rfl⟩ hnc hrun
  rcases g0e057_loops g.edgeList_ a.index b.index g.graph_edge_size_ 0 (by omega) with
    ⟨k, _, hk, _, hhe, hae, _⟩ | ⟨hn, hhe, _⟩
  · have hadd : G0e057.add_edge this g a b = some (g, ⟨this, k⟩) := by
      simp [G0e057.add_edge, G0e057.has_edge, hhe, hae]
    exact ⟨g, ⟨this, k⟩, g, ⟨this, k⟩, hadd, hadd, rfl, g0e057_edge_eq_self this g k hk⟩
  · have hadd : G0e057.add_edge this g a b = some (G0e057.add_edge_new this g a b) := by
      simp [G0e057.add_edge, G0e057.has_edge, hhe]
    have hlen : (g.edgeList_ ++ [(a.index, b.index)]).length = g.graph_edge_size_ + 1 := by
      simp [hs2]
    have hlast : (g.edgeList_ ++ [(a.index, b.index)])[g.graph_edge_size_]? =
        some (a.index, b.index) := by
      rw [hs2]
      simp
    rcases g0e057_loops (g.edgeList_ ++ [(a.index, b.index)]) a.index b.index
        (g.graph_edge_size_ + 1) 0 (by omega) with
      ⟨k, _, hk, ⟨p, hp, hc⟩, hhe2, hae2, _⟩ | ⟨hn2, _, _⟩
    · have hkeq : k = g.graph_edge_size_ := by
        by_contra hne
        have hklt : k < g.edgeList_.length := by omega
        rw [List.getElem?_append_left hklt] at hp
        exact hn k (Nat.zero_le k) p hp hc
      subst hkeq
      have hadd2 : G0e057.add_edge this (G0e057.add_edge_new this g a b).1 a b =
          some ((G0e057.add_edge_new this g a b).1, ⟨this, g.graph_edge_size_⟩) := by
        simp [G0e057.add_edge, G0e057.has_edge, G0e057.add_edge_new, hhe2, hae2]
      exact ⟨(G0e057.add_edge_new this g a b).1, ⟨this, g.graph_edge_size_⟩,
        (G0e057.add_edge_new this g a b).1, ⟨this, g.graph_edge_size_⟩, hadd, hadd2, rfl,
        g0e057_edge_eq_self this _ _ (by simp [G0e057.add_edge_new, hs2])⟩
    · exact absurd (Or.inl ⟨rfl, rfl⟩) (hn2 g.graph_edge_size_ (Nat.zero_le _) _ hlast)

/-- Witness of C17: two nodes and no edge; `add_edge(node(0), node(1))` twice. -/
theorem c17_add_edge_twice_0e057_witness :
    ∃ g1 e1 g2 e2, G0e057.add_edge 1 ⟨[⟨0, 0, 0⟩, ⟨1, 0, 0⟩], [], 2, 0⟩
        (G0e057.node 1 0) (G0e057.node 1 1) = some (g1, e1) ∧
      G0e057.add_edge 1 g1 (G0e057.node 1 0) (G0e057.node 1 1) = some (g2, e2) ∧
      G0e057.num_edges g2 = G0e057.num_edges g1 ∧
      G0e057.Edge.eq (G0e057.heapOf 1 g2) e1 e2 = some true :=
  c17_add_edge_twice_0e057 1 [Op.add_node ⟨0, 0, 0⟩, Op.add_node ⟨1, 0, 0⟩]
    ⟨[⟨0, 0, 0⟩, ⟨1, 0, 0⟩], [], 2, 0⟩ (by decide) (by decide)
    (G0e057.node 1 0) (G0e057.node 1 1)

/-! ### Variant `Graph_2eee0fc59d4c.hpp`: the adjacency vector -/

theorem g2eee_has_edge_loop_iff (v : Nat) (l : List Nat) :
    G2eee.has_edge_loop v l = true ↔ v ∈ l := by
  induction l with
  | nil => simp [G2eee.has_edge_loop]
  | cons c rest ih =>
    unfold G2eee.has_edge_loop
    by_cases hc : c = v
    · simp [hc]
    · simp only [hc, if_false, ih, List.mem_cons]
      constructor
      · intro h; exact Or.inr h
      · rintro (h | h)
        · exact absurd h.symm hc
        · exact h

theorem g2eee_edges_push_ok {edges : List (List Nat)} {u : Nat} (v : Nat)
    (hu : u < edges.length) : ∃ edges1, G2eee.edges_push edges u v = Except.ok edges1 := by
  unfold G2eee.edges_push
  rw [List.getElem?_eq_getElem hu]
  exact ⟨_, rfl⟩

theorem g2eee_edges_push_spec {edges edges1 : List (List Nat)} {u v : Nat}
    (h : G2eee.edges_push edges u v = Except.ok edges1) :
    ∃ l, edges[u]? = some l ∧ edges1 = edges.set u (l ++ [v]) := by
  unfold G2eee.edges_push at h
  cases hl : edges[u]? with
  | none => rw [hl] at h; cases h
  | some l =>
    rw [hl] at h
    cases h
    exact ⟨l, rfl, rfl⟩

theorem g2eee_edges_push_length {edges edges1 : List (List Nat)} {u v : Nat}
    (h : G2eee.edges_push edges u v = Except.ok edges1) : edges1.length = edges.length := by
  obtain ⟨l, _, rfl⟩ := g2eee_edges_push_spec h
  simp

theorem g2eee_adjMem_push {edges edges1 : List (List Nat)} {u v : Nat}
    (h : G2eee.edges_push edges u v = Except.ok edges1) (x y : Nat) :
    G2eee.adjMem edges1 x y ↔ G2eee.adjMem edges x y ∨ (x = u ∧ y = v) := by
  obtain ⟨l, hl, rfl⟩ := g2eee_edges_push_spec h
  have hlt : u < edges.length := (List.getElem?_eq_some.mp hl).1
  unfold G2eee.adjMem
  by_cases hxu : x = u
  · subst hxu
    simp only [List.getElem?_set_self hlt, hl, Option.some.injEq, true_and]
    constructor
    · rintro ⟨l1, rfl, hy⟩
      rcases List.mem_append.mp hy with h1 | h1
      · exact Or.inl ⟨l, rfl, h1⟩
      · exact Or.inr (by simpa using h1)
    · rintro (⟨l1, rfl, hy⟩ | hy)
      · exact ⟨_, rfl, List.mem_append.mpr (Or.inl hy)⟩
      · exact ⟨_, rfl, List.mem_append.mpr (Or.inr (by simp [hy]))⟩
  · rw [List.getElem?_set_ne (fun hh => hxu hh.symm)]
    constructor
    · intro hm; exact Or.inl hm
    · rintro (hm | hm)
      · exact hm
      · exact absurd hm.1 hxu

theorem g2eee_adjMem_append_nil (edges : List (List Nat)) (u v : Nat) :
    G2eee.adjMem (edges ++ [[]]) u v ↔ G2eee.adjMem edges u v := by
  unfold G2eee.adjMem
  rcases Nat.lt_trichotomy u edges.length with hu | hu | hu
  · rw [List.getElem?_append_left hu]
  · subst hu
    constructor
    · rintro ⟨l, hl, hv⟩
      simp at hl
      subst hl
      cases hv
    · rintro ⟨l, hl, _⟩
      simp at hl
  · constructor
    · rintro ⟨l, hl, _⟩
      rw [List.getElem?_eq_none (by simp; omega)] at hl
      cases hl
    · rintro ⟨l, hl, _⟩
      rw [List.getElem?_eq_none (by omega)] at hl
      cases hl

theorem g2eee_has_edge_ok (this : Addr) (g : G2eee.Graph) (a b : G2eee.Node)
    (hlen : g.nodes_.length ≤ g.edges_.length)
    (ha : G2eee.validNode this g a) (hb : b.graph_ = this) :
    ∃ l, g.edges_[a.uid_]? = some l ∧
      G2eee.has_edge this g a b = Except.ok (G2eee.has_edge_loop b.uid_ l) := by
  have hlt : a.uid_ < g.edges_.length := lt_of_lt_of_le ha.2 hlen
  refine ⟨g.edges_[a.uid_], List.getElem?_eq_getElem hlt, ?_⟩
  simp [G2eee.has_edge, ha.1, hb, List.getElem?_eq_getElem hlt]

theorem g2eee_has_edge_true_iff (this : Addr) (g : G2eee.Graph) (a b : G2eee.Node)
    (hlen : g.nodes_.length ≤ g.edges_.length)
    (ha : G2eee.validNode this g a) (hb : b.graph_ = this) :
    G2eee.has_edge this g a b = Except.ok true ↔ G2eee.adjMem g.edges_ a.uid_ b.uid_ := by
  obtain ⟨l, hl, hh⟩ := g2eee_has_edge_ok this g a b hlen ha hb
  rw [hh]
  constructor
  · intro h
    have h1 : G2eee.has_edge_loop b.uid_ l = true := by
      cases hx : G2eee.has_edge_loop b.uid_ l
      · rw [hx] at h; cases h
      · rfl
    exact ⟨l, hl, (g2eee_has_edge_loop_iff _ _).mp h1⟩
  · rintro ⟨l1, hl1, hm⟩
    rw [hl] at hl1
    cases hl1
    rw [(g2eee_has_edge_loop_iff _ _).mpr hm]

theorem g2eee_add_edge_spec (this : Addr) (g : G2eee.Graph) (a b : G2eee.Node)
    (hinv : G2eee.Inv g) (ha : G2eee.validNode this g a) (hb : G2eee.validNode this g b)
    (hab : a.uid_ ≠ b.uid_) :
    ∃ g1, G2eee.add_edge this g a b = Except.ok (g1, ⟨this, a.uid_, b.uid_⟩) ∧
      g1.nodes_ = g.nodes_ ∧ G2eee.Inv g1 ∧ G2eee.adjMem g1.edges_ a.uid_ b.uid_ ∧
      ((G2eee.has_edge this g a b = Except.ok true ∧ g1 = g) ∨
       (G2eee.has_edge this g a b = Except.ok false ∧
        g1.edges_list = g.edges_list ++ [[a.uid_, b.uid_]])) := by
  obtain ⟨l, _, hh⟩ := g2eee_has_edge_ok this g a b hinv.len ha hb.1
  cases hr : G2eee.has_edge_loop b.uid_ l with
  | true =>
    rw [hr] at hh
    refine ⟨g, by simp [G2eee.add_edge, hab, hh], rfl, hinv, ?_, Or.inl ⟨hh, rfl⟩⟩
    exact (g2eee_has_edge_true_iff this g a b hinv.len ha hb.1).mp hh
  | false =>
    rw [hr] at hh
    have hla : a.uid_ < g.edges_.length := lt_of_lt_of_le ha.2 hinv.len
    obtain ⟨edges1, h1⟩ := g2eee_edges_push_ok b.uid_ hla
    have hlb : b.uid_ < edges1.length := by
      rw [g2eee_edges_push_length h1]
      exact lt_of_lt_of_le hb.2 hinv.len
    obtain ⟨edges2, h2⟩ := g2eee_edges_push_ok a.uid_ hlb
    have hmem : ∀ x y, G2eee.adjMem edges2 x y ↔
        (G2eee.adjMem g.edges_ x y ∨ (x = a.uid_ ∧ y = b.uid_)) ∨ (x = b.uid_ ∧ y = a.uid_) := by
      intro x y
      rw [g2eee_adjMem_push h2, g2eee_adjMem_push h1]
    refine ⟨⟨g.nodes_, edges2, g.edges_list ++ [[a.uid_, b.uid_]]⟩,
      by simp [G2eee.add_edge, hab, hh, h1, h2], rfl, ⟨?_, ?_⟩, ?_, Or.inr ⟨hh, rfl⟩⟩
    · show g.nodes_.length ≤ edges2.length
      rw [g2eee_edges_push_length h2, g2eee_edges_push_length h1]
      exact hinv.len
    · intro u v huv
      have := (hmem u v).mp huv
      apply (hmem v u).mpr
      rcases this with (h3 | h3) | h3
      · exact Or.inl (Or.inl (hinv.symm u v h3))
      · exact Or.inr ⟨h3.2, h3.1⟩
      · exact Or.inl (Or.inr ⟨h3.2, h3.1⟩)
    · exact (hmem _ _).mpr (Or.inl (Or.inr ⟨rfl, rfl⟩))

theorem g2eee_inv_step (this : Addr) (g g1 : G2eee.Graph) (op : Op)
    (hinv : G2eee.Inv g) (hstep : G2eee.step this g op = some g1) : G2eee.Inv g1 := by
  cases op with
  | add_node position =>
    simp only [G2eee.step, Option.some.injEq] at hstep
    subst hstep
    refine ⟨?_, ?_⟩
    · have := hinv.len
      simp only [G2eee.add_node, List.length_append, List.length_singleton]
      omega
    · intro u v huv
      have h1 : G2eee.adjMem (g.edges_ ++ [[]]) u v := huv
      rw [g2eee_adjMem_append_nil] at h1
      show G2eee.adjMem (g.edges_ ++ [[]]) v u
      rw [g2eee_adjMem_append_nil]
      exact hinv.symm u v h1
  | add_edge i j =>
    simp only [G2eee.step] at hstep
    split_ifs at hstep with hc
    obtain ⟨hi, hj, hij⟩ := hc
    obtain ⟨g2, hadd, _, hinv2, _, _⟩ :=
      g2eee_add_edge_spec this g ⟨this, i⟩ ⟨this, j⟩ hinv ⟨rfl, hi⟩ ⟨rfl, hj⟩ hij
    rw [hadd] at hstep
    simp only [Option.some.injEq] at hstep
    subst hstep
    exact hinv2
  | clear =>
    simp only [G2eee.step, Option.some.injEq] at hstep
    subst hstep
    exact ⟨Nat.zero_le _, hinv.symm⟩

theorem g2eee_inv_run_from (this : Addr) (ops : List Op) (g g1 : G2eee.Graph)
    (hinv : G2eee.Inv g) (hrun : G2eee.run this ops g = some g1) : G2eee.Inv g1 := by
  induction ops generalizing g with
  | nil =>
    simp only [G2eee.run, Option.some.injEq] at hrun
    subst hrun
    exact hinv
  | cons op ops ih =>
    unfold G2eee.run at hrun
    cases hs : G2eee.step this g op with
    | none => rw [hs] at hrun; cases hrun
    | some g2 =>
      rw [hs] at hrun
      exact ih g2 (g2eee_inv_step this g g2 op hinv hs) hrun

theorem g2eee_inv_reachable (this : Addr) (ops : List Op) (g : G2eee.Graph)
    (hrun : G2eee.run this ops G2eee.empty = some g) : G2eee.Inv g := by
  refine g2eee_inv_run_from this ops G2eee.empty g ⟨Nat.le_refl _, ?_⟩ hrun
  rintro u v ⟨l, hl, _⟩
  simp [G2eee.empty] at hl

/-- C18 (Graph_2eee0fc59d4c.hpp): in every state reachable by `add_node`,
`add_edge` (on distinct valid nodes) and `clear`, for all distinct valid nodes
`a` and `b`: `e1 = add_edge(a, b)` and then `e2 = add_edge(b, a)` both return,
the second call does not change `num_edges()`, and `e2 == e1` is true. -/
theorem c18_add_edge_reversed_2eee (this : Addr) (ops : List Op) (g : G2eee.Graph)
    (hrun : G2eee.run this ops G2eee.empty = some g) (a b : G2eee.Node)
    (ha : G2eee.validNode this g a) (hb : G2eee.validNode this g b)
    (hab : a.index ≠ b.index) :
    ∃ g1 e1 g2 e2, G2eee.add_edge this g a b = Except.ok (g1, e1) ∧
      G2eee.add_edge this g1 b a = Except.ok (g2, e2) ∧
      G2eee.num_edges g2 = G2eee.num_edges g1 ∧ G2eee.Edge.eq e2 e1 = true := by
  have hinv := g2eee_inv_reachable this ops g hrun
  obtain ⟨g1, hadd, hn, hinv1, hmem, _⟩ := g2eee_add_edge_spec this g a b hinv ha hb hab
  have ha1 : G2eee.validNode this g1 a := ⟨ha.1, by
    show a.uid_ < g1.nodes_.length
    rw [hn]; exact ha.2⟩
  have hb1 : G2eee.validNode this g1 b := ⟨hb.1, by
    show b.uid_ < g1.nodes_.length
    rw [hn]; exact hb.2⟩
  obtain ⟨g2, hadd2, _, _, _, hcase⟩ :=
    g2eee_add_edge_spec this g1 b a hinv1 hb1 ha1 (fun h => hab h.symm)
  have htrue : G2eee.has_edge this g1 b a = Except.ok true :=
    (g2eee_has_edge_true_iff this g1 b a hinv1.len hb1 ha1.1).mpr (hinv1.symm _ _ hmem)
  rcases hcase with ⟨_, hg⟩ | ⟨hf, _⟩
  · subst hg
    exact ⟨g2, _, g2, _, hadd, hadd2, rfl, by simp [G2eee.Edge.eq]⟩
  · rw [htrue] at hf
    cases hf

/-- Witness of C18: two nodes added after a `clear()`, no edge between them. -/
theorem c18_add_edge_reversed_2eee_witness :
    ∃ g1 e1 g2 e2, G2eee.add_edge 1 ⟨[⟨⟨0, 0, 0⟩, []⟩, ⟨⟨1, 0, 0⟩, []⟩], [[], [], []], []⟩
        ⟨1, 0⟩ ⟨1, 1⟩ = Except.ok (g1, e1) ∧
      G2eee.add_edge 1 g1 ⟨1, 1⟩ ⟨1, 0⟩ = Except.ok (g2, e2) ∧
      G2eee.num_edges g2 = G2eee.num_edges g1 ∧ G2eee.Edge.eq e2 e1 = true :=
  c18_add_edge_reversed_2eee 1
    [Op.add_node ⟨5, 5, 5⟩, Op.clear, Op.add_node ⟨0, 0, 0⟩, Op.add_node ⟨1, 0, 0⟩]
    ⟨[⟨⟨0, 0, 0⟩, []⟩, ⟨⟨1, 0, 0⟩, []⟩], [[], [], []], []⟩ (by decide)
    ⟨1, 0⟩ ⟨1, 1⟩ ⟨rfl, by decide⟩ ⟨rfl, by decide⟩ (by decide)

/-- C19 (Graph_2eee0fc59d4c.hpp): in every state reachable by `add_node`,
`add_edge` (on distinct valid nodes) and `clear`, for all distinct valid nodes
`a` and `b`: `has_edge(a, b)` and `add_edge(a, b)` return; if `has_edge(a, b)`
was true before the call then `num_edges()` is unchanged by it, otherwise
`num_edges()` increases by exactly 1; in both cases `has_edge(a, b)` is true
afterwards. -/
theorem c19_add_edge_post_2eee (this : Addr) (ops : List Op) (g : G2eee.Graph)
    (hrun : G2eee.run this ops G2eee.empty = some g) (a b : G2eee.Node)
    (ha : G2eee.validNode this g a) (hb : G2eee.validNode this g b)
    (hab : a.index ≠ b.index) :
    ∃ r g1 e, G2eee.has_edge this g a b = Except.ok r ∧
      G2eee.add_edge this g a b = Except.ok (g1, e) ∧
      (r = true → G2eee.num_edges g1 = G2eee.num_edges g) ∧
      (r = false → G2eee.num_edges g1 = G2eee.num_edges g + 1) ∧
      G2eee.has_edge this g1 a b = Except.ok true := by
  have hinv := g2eee_inv_reachable this ops g hrun
  obtain ⟨g1, hadd, hn, hinv1, hmem, hcase⟩ := g2eee_add_edge_spec this g a b hinv ha hb hab
  have ha1 : G2eee.validNode this g1 a := ⟨ha.1, by
    show a.uid_ < g1.nodes_.length
    rw [hn]; exact ha.2⟩
  have hafter : G2eee.has_edge this g1 a b = Except.ok true :=
    (g2eee_has_edge_true_iff this g1 a b hinv1.len ha1 hb.1).mpr hmem
  rcases hcase with ⟨ht, hg⟩ | ⟨hf, hl⟩
  · subst hg
    exact ⟨true, g1, _, ht, hadd, fun _ => rfl, (fun h => by cases h), hafter⟩
  · refine ⟨false, g1, _, hf, hadd, (fun h => by cases h), fun _ => ?_, hafter⟩
    simp [G2eee.num_edges, hl]

/-- Witness of C19: after `add_node`, `add_node`, `add_edge(node(0), node(1))`,
`clear()`, `add_node`, `add_node`, the call `add_edge(node(0), node(1))`. -/
theorem c19_add_edge_post_2eee_witness :
    ∃ r g1 e, G2eee.has_edge 1
        ⟨[⟨⟨0, 0, 0⟩, []⟩, ⟨⟨1, 0, 0⟩, []⟩], [[1], [0], [], []], []⟩ ⟨1, 0⟩ ⟨1, 1⟩ =
        Except.ok r ∧
      G2eee.add_edge 1 ⟨[⟨⟨0, 0, 0⟩, []⟩, ⟨⟨1, 0, 0⟩, []⟩], [[1], [0], [], []], []⟩
        ⟨1, 0⟩ ⟨1, 1⟩ = Except.ok (g1, e) ∧
      (r = true → G2eee.num_edges g1 =
        G2eee.num_edges ⟨[⟨⟨0, 0, 0⟩, []⟩, ⟨⟨1, 0, 0⟩, []⟩], [[1], [0], [], []], []⟩) ∧
      (r = false → G2eee.num_edges g1 =
        G2eee.num_edges ⟨[⟨⟨0, 0, 0⟩, []⟩, ⟨⟨1, 0, 0⟩, []⟩], [[1], [0], [], []], []⟩ + 1) ∧
      G2eee.has_edge 1 g1 ⟨1, 0⟩ ⟨1, 1⟩ = Except.ok true :=
  c19_add_edge_post_2eee 1
    [Op.add_node ⟨0, 0, 0⟩, Op.add_node ⟨1, 0, 0⟩, Op.add_edge 0 1, Op.clear,
      Op.add_node ⟨0, 0, 0⟩, Op.add_node ⟨1, 0, 0⟩]
    ⟨[⟨⟨0, 0, 0⟩, []⟩, ⟨⟨1, 0, 0⟩, []⟩], [[1], [0], [], []], []⟩ (by decide)
    ⟨1, 0⟩ ⟨1, 1⟩ ⟨rfl, by decide⟩ ⟨rfl, by decide⟩ (by decide)

/-- C20 (Graph_1538fb7d5508.hpp): for every reachable graph state and all
valid nodes `a` and `b` (in particular distinct ones), `add_edge(a, b)` returns
an Edge `e` with `e.node1() == a` and `e.node2() == b`, both when the edge is
newly created and when an edge between `a` and `b`, stored in either order,
already existed. -/
theorem c20_add_edge_endpoints_1538 (this : Addr) (ops : List Op) (g : G1538.Graph)
    (hrun : G1538.run this ops G1538.empty = some g) (a b : G1538.Node)
    (ha : G1538.validNode this g a) (hb : G1538.validNode this g b) :
    ∃ g1 e, G1538.add_edge this g a b = some (g1, e) ∧
      G1538.Node.eq e.node1 a = true ∧ G1538.Node.eq e.node2 b = true := by
  have hinv := g1538_inv_reachable this ops g hrun
  have h1 : G1538.Node.eq (G1538.Edge.node1 ⟨this, a.index, b.index⟩) a = true :=
    (g1538_node_eq_iff _ _).mpr ⟨ha.1.symm, rfl⟩
  have h2 : G1538.Node.eq (G1538.Edge.node2 ⟨this, a.index, b.index⟩) b = true :=
    (g1538_node_eq_iff _ _).mpr ⟨hb.1.symm, rfl⟩
  rcases g1538_add_edge_cases this g a b hinv ha.2 hb.2 with ⟨_, h⟩ | ⟨_, _, _, _, _, h⟩
  · exact ⟨_, _, h, h1, h2⟩
  · exact ⟨_, _, h, h1, h2⟩

/-- Witness of C20: the edge {0,1} is stored as (0, 1) and `add_edge` is
called on `node(1)`, `node(0)`. -/
theorem c20_add_edge_endpoints_1538_witness :
    ∃ g1 e, G1538.add_edge 1 ⟨[⟨0, 0, 0⟩, ⟨1, 0, 0⟩], [(0, 1)], [[1], [0]]⟩
        ⟨1, 1⟩ ⟨1, 0⟩ = some (g1, e) ∧
      G1538.Node.eq e.node1 ⟨1, 1⟩ = true ∧ G1538.Node.eq e.node2 ⟨1, 0⟩ = true :=
  c20_add_edge_endpoints_1538 1
    [Op.add_node ⟨0, 0, 0⟩, Op.add_node ⟨1, 0, 0⟩, Op.add_edge 0 1]
    ⟨[⟨0, 0, 0⟩, ⟨1, 0, 0⟩], [(0, 1)], [[1], [0]]⟩ (by decide)
    ⟨1, 1⟩ ⟨1, 0⟩ ⟨rfl, by decide⟩ ⟨rfl, by decide⟩

/-! ### Variant `Graph_2eee0fc59d4c.hpp`: the enumeration list -/

theorem g2eee_sameRow_pair (u v x y : Nat) :
    G2eee.sameRow [u, v] [x, y] ↔ ((u = x ∧ v = y) ∨ (u = y ∧ v = x)) := by
  simp [G2eee.sameRow]

theorem g2eee_add_edge_mono (this : Addr) (g g1 : G2eee.Graph) (a b : G2eee.Node)
    (e : G2eee.Edge) (hadd : G2eee.add_edge this g a b = Except.ok (g1, e)) (x y : Nat)
    (hxy : G2eee.adjMem g.edges_ x y) : G2eee.adjMem g1.edges_ x y := by
  unfold G2eee.add_edge at hadd
  split_ifs at hadd with hab
  cases hh : G2eee.has_edge this g a b with
  | error f => simp [hh] at hadd
  | ok r =>
    cases r with
    | true =>
      simp only [hh, Except.ok.injEq, Prod.mk.injEq] at hadd
      rw [← hadd.1]
      exact hxy
    | false =>
      cases h1 : G2eee.edges_push g.edges_ a.uid_ b.uid_ with
      | error f => simp [hh, h1] at hadd
      | ok edges1 =>
        cases h2 : G2eee.edges_push edges1 b.uid_ a.uid_ with
        | error f => simp [hh, h1, h2] at hadd
        | ok edges2 =>
          simp only [hh, h1, h2, Except.ok.injEq, Prod.mk.injEq] at hadd
          rw [← hadd.1]
          show G2eee.adjMem edges2 x y
          rw [g2eee_adjMem_push h2, g2eee_adjMem_push h1]
          exact Or.inl (Or.inl hxy)

theorem g2eee_listInv_add_edge (this : Addr) (g : G2eee.Graph) (a b : G2eee.Node)
    (hinv : G2eee.Inv g) (hl : G2eee.ListInv g) (ha : G2eee.validNode this g a)
    (hb : G2eee.validNode this g b) (hab : a.uid_ ≠ b.uid_) :
    ∃ g1, G2eee.add_edge this g a b = Except.ok (g1, ⟨this, a.uid_, b.uid_⟩) ∧
      G2eee.ListInv g1 := by
  obtain ⟨g1, hadd, _, hinv1, hmem, hcase⟩ := g2eee_add_edge_spec this g a b hinv ha hb hab
  refine ⟨g1, hadd, ?_⟩
  have hmono := g2eee_add_edge_mono this g g1 a b _ hadd
  rcases hcase with ⟨_, hg⟩ | ⟨hf, hlist⟩
  · subst hg
    exact hl
  · have hnot : ¬ G2eee.adjMem g.edges_ a.uid_ b.uid_ := by
      intro hc
      have := (g2eee_has_edge_true_iff this g a b hinv.len ha hb.1).mpr hc
      rw [hf] at this
      cases this
    refine ⟨?_, ?_⟩
    · intro row hrow
      rw [hlist] at hrow
      rcases List.mem_append.mp hrow with hrow1 | hrow1
      · obtain ⟨u, v, rfl, h1, h2⟩ := hl.rows row hrow1
        exact ⟨u, v, rfl, hmono _ _ h1, hmono _ _ h2⟩
      · simp only [List.mem_singleton] at hrow1
        subst hrow1
        exact ⟨a.uid_, b.uid_, rfl, hmem, hinv1.symm _ _ hmem⟩
    · rw [hlist, List.pairwise_append]
      refine ⟨hl.uniq, List.pairwise_singleton _ _, ?_⟩
      intro row hrow s hs
      simp only [List.mem_singleton] at hs
      subst hs
      obtain ⟨u, v, rfl, h1, h2⟩ := hl.rows row hrow
      rw [g2eee_sameRow_pair]
      rintro (⟨h3, h4⟩ | ⟨h3, h4⟩)
      · subst h3; subst h4
        exact hnot h1
      · subst h3; subst h4
        exact hnot h2

theorem g2eee_listInv_step (this : Addr) (g g1 : G2eee.Graph) (op : Op)
    (hinv : G2eee.Inv g) (hl : G2eee.ListInv g)
    (hstep : G2eee.step this g op = some g1) : G2eee.ListInv g1 := by
  cases op with
  | add_node position =>
    simp only [G2eee.step, Option.some.injEq] at hstep
    subst hstep
    refine ⟨?_, hl.uniq⟩
    intro row hrow
    obtain ⟨u, v, rfl, h1, h2⟩ := hl.rows row hrow
    refine ⟨u, v, rfl, ?_, ?_⟩
    · show G2eee.adjMem (g.edges_ ++ [[]]) u v
      rw [g2eee_adjMem_append_nil]; exact h1
    · show G2eee.adjMem (g.edges_ ++ [[]]) v u
      rw [g2eee_adjMem_append_nil]; exact h2
  | add_edge i j =>
    simp only [G2eee.step] at hstep
    split_ifs at hstep with hc
    obtain ⟨hi, hj, hij⟩ := hc
    obtain ⟨g2, hadd, hl2⟩ :=
      g2eee_listInv_add_edge this g ⟨this, i⟩ ⟨this, j⟩ hinv hl ⟨rfl, hi⟩ ⟨rfl, hj⟩ hij
    rw [hadd] at hstep
    simp only [Option.some.injEq] at hstep
    subst hstep
    exact hl2
  | clear =>
    simp only [G2eee.step, Option.some.injEq] at hstep
    subst hstep
    refine ⟨?_, List.Pairwise.nil⟩
    intro row hrow
    simp [G2eee.clear] at hrow

theorem g2eee_listInv_run_from (this : Addr) (ops : List Op) (g g1 : G2eee.Graph)
    (hinv : G2eee.Inv g) (hl : G2eee.ListInv g)
    (hrun : G2eee.run this ops g = some g1) : G2eee.ListInv g1 := by
  induction ops generalizing g with
  | nil =>
    simp only [G2eee.run, Option.some.injEq] at hrun
    subst hrun
    exact hl
  | cons op ops ih =>
    unfold G2eee.run at hrun
    cases hs : G2eee.step this g op with
    | none => rw [hs] at hrun; cases hrun
    | some g2 =>
      rw [hs] at hrun
      exact ih g2 (g2eee_inv_step this g g2 op hinv hs)
        (g2eee_listInv_step this g g2 op hinv hl hs) hrun

theorem g2eee_listInv_reachable (this : Addr) (ops : List Op) (g : G2eee.Graph)
    (hrun : G2eee.run this ops G2eee.empty = some g) : G2eee.ListInv g := by
  refine g2eee_listInv_run_from this ops G2eee.empty g ⟨Nat.le_refl _, ?_⟩ ⟨?_, List.Pairwise.nil⟩
    hrun
  · rintro u v ⟨l, hl, _⟩
    simp [G2eee.empty] at hl
  · intro row hrow
    simp [G2eee.empty] at hrow

theorem g2eee_edge_of_row (this : Addr) (g : G2eee.Graph) (i u v : Nat)
    (h : g.edges_list[i]? = some [u, v]) : G2eee.edge this g i = Except.ok ⟨this, u, v⟩ := by
  simp [G2eee.edge, h]

/-- C21 (Graph_2eee0fc59d4c.hpp): in every state reachable by `add_node`,
`add_edge` (on distinct valid nodes) and `clear`, for all `i != j` with
`i, j < num_edges()`: `edge(i)` and `edge(j)` return, their endpoint sets
differ, and so `edge(i) == edge(j)` is false. -/
theorem c21_edges_unique_2eee (this : Addr) (ops : List Op) (g : G2eee.Graph)
    (hrun : G2eee.run this ops G2eee.empty = some g) (i j : Nat)
    (hi : i < G2eee.num_edges g) (hj : j < G2eee.num_edges g) (hij : i ≠ j) :
    ∃ e1 e2, G2eee.edge this g i = Except.ok e1 ∧ G2eee.edge this g j = Except.ok e2 ∧
      ¬ ((e1.node1.index = e2.node1.index ∧ e1.node2.index = e2.node2.index) ∨
         (e1.node1.index = e2.node2.index ∧ e1.node2.index = e2.node1.index)) ∧
      G2eee.Edge.eq e1 e2 = false := by
  have hl := g2eee_listInv_reachable this ops g hrun
  have hgi : g.edges_list[i]? = some g.edges_list[i] := List.getElem?_eq_getElem hi
  have hgj : g.edges_list[j]? = some g.edges_list[j] := List.getElem?_eq_getElem hj
  obtain ⟨u, v, hr1, _, _⟩ := hl.rows _ (List.getElem?_mem hgi)
  obtain ⟨x, y, hr2, _, _⟩ := hl.rows _ (List.getElem?_mem hgj)
  have hpw := List.pairwise_iff_getElem.mp hl.uniq
  have hne : ¬ ((u = x ∧ v = y) ∨ (u = y ∧ v = x)) := by
    rw [← g2eee_sameRow_pair, ← hr1, ← hr2]
    rcases Nat.lt_or_gt_of_ne hij with h | h
    · exact hpw i j hi hj h
    · intro hs
      apply hpw j i hj hi h
      rcases hs with ⟨h1, h2⟩ | ⟨h1, h2⟩
      · exact Or.inl ⟨h1.symm, h2.symm⟩
      · exact Or.inr ⟨h2.symm, h1.symm⟩
  rw [hr1] at hgi
  rw [hr2] at hgj
  refine ⟨⟨this, u, v⟩, ⟨this, x, y⟩, g2eee_edge_of_row this g i u v hgi,
    g2eee_edge_of_row this g j x y hgj, hne, ?_⟩
  have h1 : ¬ (u = x ∧ v = y) := fun h => hne (Or.inl h)
  have h2 : ¬ (u = y ∧ v = x) := fun h => hne (Or.inr h)
  simp only [G2eee.Edge.eq, Bool.and_eq_false_iff, Bool.or_eq_false_iff, decide_eq_false_iff_not,
    Bool.and_eq_true, decide_eq_true_eq]
  right
  constructor
  · by_cases hux : u = x
    · exact Or.inr (fun hvy => h1 ⟨hux, hvy⟩)
    · exact Or.inl hux
  · by_cases huy : u = y
    · exact Or.inr (fun hvx => h2 ⟨huy, hvx⟩)
    · exact Or.inl huy

/-- Witness of C21: nodes and an edge added before a `clear()`, then three
nodes and the edges {0,2} and {1,2}. -/
theorem c21_edges_unique_2eee_witness :
    ∃ e1 e2, G2eee.edge 1
        ⟨[⟨⟨0, 0, 0⟩, []⟩, ⟨⟨1, 0, 0⟩, []⟩, ⟨⟨0, 1, 0⟩, []⟩], [[1, 2], [0, 2], [0, 1], [], []],
          [[0, 2], [1, 2]]⟩ 0 = Except.ok e1 ∧
      G2eee.edge 1
        ⟨[⟨⟨0, 0, 0⟩, []⟩, ⟨⟨1, 0, 0⟩, []⟩, ⟨⟨0, 1, 0⟩, []⟩], [[1, 2], [0, 2], [0, 1], [], []],
          [[0, 2], [1, 2]]⟩ 1 = Except.ok e2 ∧
      ¬ ((e1.node1.index = e2.node1.index ∧ e1.node2.index = e2.node2.index) ∨
         (e1.node1.index = e2.node2.index ∧ e1.node2.index = e2.node1.index)) ∧
      G2eee.Edge.eq e1 e2 = false :=
  c21_edges_unique_2eee 1
    [Op.add_node ⟨0, 0, 0⟩, Op.add_node ⟨1, 0, 0⟩, Op.add_edge 0 1, Op.clear,
      Op.add_node ⟨0, 0, 0⟩, Op.add_node ⟨1, 0, 0⟩, Op.add_node ⟨0, 1, 0⟩,
      Op.add_edge 0 1, Op.add_edge 0 2, Op.add_edge 1 2]
    ⟨[⟨⟨0, 0, 0⟩, []⟩, ⟨⟨1, 0, 0⟩, []⟩, ⟨⟨0, 1, 0⟩, []⟩], [[1, 2], [0, 2], [0, 1], [], []],
      [[0, 2], [1, 2]]⟩ (by decide) 0 1 (by decide) (by decide) (by decide)

/-! ### Variant `Graph_8998baa3d11f.hpp`: the representation invariant -/

theorem g8998_add_edge_loop_none (a b : Nat) (l : List (Nat × Nat)) (i : Nat)
    (h : G8998.add_edge_loop a b l i = none) :
    ∀ p ∈ l, ¬ ((a = p.1 ∧ b = p.2) ∨ (a = p.2 ∧ b = p.1)) := by
  induction l generalizing i with
  | nil => intro p hp; cases hp
  | cons q rest ih =>
    unfold G8998.add_edge_loop at h
    split_ifs at h with hq
    intro p hp
    rcases List.mem_cons.mp hp with rfl | hp1
    · exact hq
    · exact ih (i + 1) h p hp1

theorem g8998_add_edge_state (this : Addr) (g : G8998.Graph) (a b : G8998.Node) :
    (G8998.add_edge this g a b).1 = g ∨
    ((∀ p ∈ g.edge_list, ¬ ((a.uid_ = p.1 ∧ b.uid_ = p.2) ∨ (a.uid_ = p.2 ∧ b.uid_ = p.1))) ∧
      (G8998.add_edge this g a b).1 = ⟨g.node_list, g.edge_list ++ [(a.uid_, b.uid_)]⟩) := by
  unfold G8998.add_edge
  cases h : G8998.add_edge_loop a.uid_ b.uid_ g.edge_list 0 with
  | some i => left; rfl
  | none => right; exact ⟨g8998_add_edge_loop_none _ _ _ _ h, rfl⟩

theorem g8998_inv_step (this : Addr) (g g1 : G8998.Graph) (op : Op)
    (hinv : G8998.Inv g) (hstep : G8998.step this g op = some g1) : G8998.Inv g1 := by
  cases op with
  | add_node position =>
    simp only [G8998.step, Option.some.injEq] at hstep
    subst hstep
    refine ⟨?_, hinv.uniq⟩
    intro p hp
    have := hinv.ends p hp
    simp only [G8998.add_node, List.length_append, List.length_singleton]
    omega
  | add_edge i j =>
    simp only [G8998.step] at hstep
    split_ifs at hstep with hc
    obtain ⟨hi, hj, hij⟩ := hc
    simp only [Option.some.injEq] at hstep
    subst hstep
    rcases g8998_add_edge_state this g (G8998.node this i) (G8998.node this j) with h | ⟨hno, h⟩
    · rw [h]; exact hinv
    · rw [h]
      refine ⟨?_, ?_⟩
      · intro p hp
        rcases List.mem_append.mp hp with hp1 | hp1
        · exact hinv.ends p hp1
        · simp only [List.mem_singleton] at hp1
          subst hp1
          exact ⟨hi, hj, hij⟩
      · show (g.edge_list ++ [(i, j)]).Pairwise _
        rw [List.pairwise_append]
        refine ⟨hinv.uniq, List.pairwise_singleton _ _, ?_⟩
        intro p hp q hq
        simp only [List.mem_singleton] at hq
        subst hq
        rintro (⟨h3, h4⟩ | ⟨h3, h4⟩)
        · exact hno p hp (Or.inl ⟨h3.symm, h4.symm⟩)
        · exact hno p hp (Or.inr ⟨h4.symm, h3.symm⟩)
  | clear =>
    simp only [G8998.step, Option.some.injEq] at hstep
    subst hstep
    refine ⟨?_, List.Pairwise.nil⟩
    intro p hp
    simp [G8998.clear] at hp

theorem g8998_inv_run_from (this : Addr) (ops : List Op) (g g1 : G8998.Graph)
    (hinv : G8998.Inv g) (hrun : G8998.run this ops g = some g1) : G8998.Inv g1 := by
  induction ops generalizing g with
  | nil =>
    simp only [G8998.run, Option.some.injEq] at hrun
    subst hrun
    exact hinv
  | cons op ops ih =>
    unfold G8998.run at hrun
    cases hs : G8998.step this g op with
    | none => rw [hs] at hrun; cases hrun
    | some g2 =>
      rw [hs] at hrun
      exact ih g2 (g8998_inv_step this g g2 op hinv hs) hrun

theorem g8998_inv_reachable (this : Addr) (ops : List Op) (g : G8998.Graph)
    (hrun : G8998.run this ops G8998.empty = some g) : G8998.Inv g := by
  refine g8998_inv_run_from this ops G8998.empty g ⟨?_, List.Pairwise.nil⟩ hrun
  intro p hp
  simp [G8998.empty] at hp

theorem g8998_node1_edge (this : Addr) (g : G8998.Graph) (i : Nat) (hi : i < g.edge_list.length) :
    G8998.Edge.node1 (G8998.heapOf this g) (G8998.edge this i) = some ⟨this, g.edge_list[i].1⟩ := by
  rw [G8998.Edge.node1, g8998_stored_edge, List.getElem?_eq_getElem hi]
  rfl

theorem g8998_node2_edge (this : Addr) (g : G8998.Graph) (i : Nat) (hi : i < g.edge_list.length) :
    G8998.Edge.node2 (G8998.heapOf this g) (G8998.edge this i) = some ⟨this, g.edge_list[i].2⟩ := by
  rw [G8998.Edge.node2, g8998_stored_edge, List.getElem?_eq_getElem hi]
  rfl

/-- C22 (Graph_8998baa3d11f.hpp): in every state reachable by `add_node`,
`add_edge` (on distinct valid nodes) and `clear`, for every
`i < num_edges()`: `edge(i).node1()` and `edge(i).node2()` return, their
indices differ, and both indices are `< num_nodes()`. -/
theorem c22_edge_endpoints_valid_8998 (this : Addr) (ops : List Op) (g : G8998.Graph)
    (hrun : G8998.run this ops G8998.empty = some g) (i : Nat) (hi : i < G8998.num_edges g) :
    ∃ n1 n2, G8998.Edge.node1 (G8998.heapOf this g) (G8998.edge this i) = some n1 ∧
      G8998.Edge.node2 (G8998.heapOf this g) (G8998.edge this i) = some n2 ∧
      n1.index ≠ n2.index ∧ n1.index < G8998.num_nodes g ∧ n2.index < G8998.num_nodes g := by
  have hinv := g8998_inv_reachable this ops g hrun
  obtain ⟨h1, h2, h3⟩ := hinv.ends g.edge_list[i] (List.getElem_mem hi)
  exact ⟨_, _, g8998_node1_edge this g i hi, g8998_node2_edge this g i hi, h3, h1, h2⟩

/-- Witness of C22: three nodes, the edges {0,1} and {2,1}, slot 1. -/
theorem c22_edge_endpoints_valid_8998_witness :
    ∃ n1 n2, G8998.Edge.node1
        (G8998.heapOf 1 ⟨[⟨0, 0, 0⟩, ⟨1, 0, 0⟩, ⟨0, 1, 0⟩], [(0, 1), (2, 1)]⟩)
        (G8998.edge 1 1) = some n1 ∧
      G8998.Edge.node2
        (G8998.heapOf 1 ⟨[⟨0, 0, 0⟩, ⟨1, 0, 0⟩, ⟨0, 1, 0⟩], [(0, 1), (2, 1)]⟩)
        (G8998.edge 1 1) = some n2 ∧
      n1.index ≠ n2.index ∧
      n1.index < G8998.num_nodes ⟨[⟨0, 0, 0⟩, ⟨1, 0, 0⟩, ⟨0, 1, 0⟩], [(0, 1), (2, 1)]⟩ ∧
      n2.index < G8998.num_nodes ⟨[⟨0, 0, 0⟩, ⟨1, 0, 0⟩, ⟨0, 1, 0⟩], [(0, 1), (2, 1)]⟩ :=
  c22_edge_endpoints_valid_8998 1
    [Op.add_node ⟨0, 0, 0⟩, Op.add_node ⟨1, 0, 0⟩, Op.add_node ⟨0, 1, 0⟩,
      Op.add_edge 0 1, Op.add_edge 2 1, Op.add_edge 1 0]
    ⟨[⟨0, 0, 0⟩, ⟨1, 0, 0⟩, ⟨0, 1, 0⟩], [(0, 1), (2, 1)]⟩ (by decide) 1 (by decide)

/-- C23 (Graph_8998baa3d11f.hpp): in every state reachable by `add_node`,
`add_edge` (on distinct valid nodes) and `clear` (in particular in every graph
built by `add_node` and `add_edge`), for all `i, j < num_edges()`:
`edge(i) == edge(j)` returns, and it is true if and only if the unordered
pairs of endpoint indices of the two handles are equal; and two Edge handles
of different graph instances are never equal. -/
theorem c23_edge_eq_iff_same_ends_8998 (this : Addr) (ops : List Op) (g : G8998.Graph)
    (hrun : G8998.run this ops G8998.empty = some g) (i j : Nat)
    (hi : i < G8998.num_edges g) (hj : j < G8998.num_edges g) :
    (∃ r a1 a2 b1 b2,
      G8998.Edge.eq (G8998.heapOf this g) (G8998.edge this i) (G8998.edge this j) = some r ∧
      G8998.Edge.node1 (G8998.heapOf this g) (G8998.edge this i) = some a1 ∧
      G8998.Edge.node2 (G8998.heapOf this g) (G8998.edge this i) = some a2 ∧
      G8998.Edge.node1 (G8998.heapOf this g) (G8998.edge this j) = some b1 ∧
      G8998.Edge.node2 (G8998.heapOf this g) (G8998.edge this j) = some b2 ∧
      (r = true ↔ ((a1.index = b1.index ∧ a2.index = b2.index) ∨
                   (a1.index = b2.index ∧ a2.index = b1.index)))) ∧
    (∀ (heap : G8998.Heap) (x e : G8998.Edge), x.graph_ ≠ e.graph_ →
      G8998.Edge.eq heap x e = some false) := by
  have hinv := g8998_inv_reachable this ops g hrun
  constructor
  · refine ⟨decide (g.edge_list[i].1 = g.edge_list[j].1) &&
        decide (g.edge_list[i].2 = g.edge_list[j].2), _, _, _, _, ?_,
      g8998_node1_edge this g i hi, g8998_node2_edge this g i hi,
      g8998_node1_edge this g j hj, g8998_node2_edge this g j hj, ?_⟩
    · rw [G8998.Edge.eq, g8998_stored_edge, g8998_stored_edge, List.getElem?_eq_getElem hi,
        List.getElem?_eq_getElem hj]
      simp [G8998.edge]
    · simp only [Bool.and_eq_true, decide_eq_true_eq, G8998.Node.index]
      constructor
      · intro h; exact Or.inl h
      · intro h
        have hpw := List.pairwise_iff_getElem.mp hinv.uniq
        rcases Nat.lt_trichotomy i j with hij | hij | hij
        · exact absurd h (hpw i j hi hj hij)
        · subst hij; exact ⟨rfl, rfl⟩
        · have hsym : G8998.samePair g.edge_list[j] g.edge_list[i] := by
            rcases h with ⟨h1, h2⟩ | ⟨h1, h2⟩
            · exact Or.inl ⟨h1.symm, h2.symm⟩
            · exact Or.inr ⟨h2.symm, h1.symm⟩
          exact absurd hsym (hpw j i hj hi hij)
  · intro heap x e hne
    have hne2 : e.graph_ ≠ x.graph_ := fun h => hne h.symm
    rw [G8998.Edge.eq, if_pos hne2]

/-- Witness of C23: three nodes, the edges {0,1} and {2,1}, slots 0 and 1. -/
theorem c23_edge_eq_iff_same_ends_8998_witness :
    ∃ r a1 a2 b1 b2,
      G8998.Edge.eq (G8998.heapOf 1 ⟨[⟨0, 0, 0⟩, ⟨1, 0, 0⟩, ⟨0, 1, 0⟩], [(0, 1), (2, 1)]⟩)
        (G8998.edge 1 0) (G8998.edge 1 1) = some r ∧
      G8998.Edge.node1 (G8998.heapOf 1 ⟨[⟨0, 0, 0⟩, ⟨1, 0, 0⟩, ⟨0, 1, 0⟩], [(0, 1), (2, 1)]⟩)
        (G8998.edge 1 0) = some a1 ∧
      G8998.Edge.node2 (G8998.heapOf 1 ⟨[⟨0, 0, 0⟩, ⟨1, 0, 0⟩, ⟨0, 1, 0⟩], [(0, 1), (2, 1)]⟩)
        (G8998.edge 1 0) = some a2 ∧
      G8998.Edge.node1 (G8998.heapOf 1 ⟨[⟨0, 0, 0⟩, ⟨1, 0, 0⟩, ⟨0, 1, 0⟩], [(0, 1), (2, 1)]⟩)
        (G8998.edge 1 1) = some b1 ∧
      G8998.Edge.node2 (G8998.heapOf 1 ⟨[⟨0, 0, 0⟩, ⟨1, 0, 0⟩, ⟨0, 1, 0⟩], [(0, 1), (2, 1)]⟩)
        (G8998.edge 1 1) = some b2 ∧
      (r = true ↔ ((a1.index = b1.index ∧ a2.index = b2.index) ∨
                   (a1.index = b2.index ∧ a2.index = b1.index))) :=
  (c23_edge_eq_iff_same_ends_8998 1
    [Op.add_node ⟨0, 0, 0⟩, Op.add_node ⟨1, 0, 0⟩, Op.add_node ⟨0, 1, 0⟩,
      Op.add_edge 0 1, Op.add_edge 2 1, Op.add_edge 1 0]
    ⟨[⟨0, 0, 0⟩, ⟨1, 0, 0⟩, ⟨0, 1, 0⟩], [(0, 1), (2, 1)]⟩ (by decide) 0 1
    (by decide) (by decide)).1

/-! ### Variant `Graph_0e057bb55f26.hpp`: the operators on edge handles -/

theorem g0e057_node_lt_same (t u v : Nat) :
    G0e057.Node.lt ⟨t, u⟩ ⟨t, v⟩ = decide (u < v) := by
  by_cases h : u < v <;> simp [G0e057.Node.lt, h]

theorem g0e057_node_eq_same (t u v : Nat) :
    G0e057.Node.eq ⟨t, u⟩ ⟨t, v⟩ = decide (u = v) := by
  by_cases h : u = v <;> simp [G0e057.Node.eq, G0e057.Node.index, h]

theorem g0e057_std_min_same (t u v : Nat) :
    G0e057.std_min ⟨t, u⟩ ⟨t, v⟩ = ⟨t, min u v⟩ := by
  unfold G0e057.std_min
  rw [g0e057_node_lt_same]
  by_cases h : v < u
  · simp only [h, decide_True, if_true]
    congr 1
    omega
  · simp only [h, decide_False, Bool.false_eq_true, if_false]
    congr 1
    omega

theorem g0e057_std_max_same (t u v : Nat) :
    G0e057.std_max ⟨t, u⟩ ⟨t, v⟩ = ⟨t, max u v⟩ := by
  unfold G0e057.std_max
  rw [g0e057_node_lt_same]
  by_cases h : u < v
  · simp only [h, decide_True, if_true]
    congr 1
    omega
  · simp only [h, decide_False, Bool.false_eq_true, if_false]
    congr 1
    omega

theorem g0e057_node1_slot (this : Addr) (g : G0e057.Graph) (i : Nat)
    (hi : i < g.edgeList_.length) :
    G0e057.Edge.node1 (G0e057.heapOf this g) ⟨this, i⟩ = some ⟨this, g.edgeList_[i].1⟩ := by
  simp [G0e057.Edge.node1, G0e057.heapOf, List.getElem?_eq_getElem hi]

theorem g0e057_node2_slot (this : Addr) (g : G0e057.Graph) (i : Nat)
    (hi : i < g.edgeList_.length) :
    G0e057.Edge.node2 (G0e057.heapOf this g) ⟨this, i⟩ = some ⟨this, g.edgeList_[i].2⟩ := by
  simp [G0e057.Edge.node2, G0e057.heapOf, List.getElem?_eq_getElem hi]

theorem g0e057_edge_eq_slots (this : Addr) (g : G0e057.Graph) (i j : Nat)
    (hi : i < g.edgeList_.length) (hj : j < g.edgeList_.length) :
    ∃ r, G0e057.Edge.eq (G0e057.heapOf this g) ⟨this, i⟩ ⟨this, j⟩ = some r ∧
      (r = true ↔ ((g.edgeList_[i].1 = g.edgeList_[j].1 ∧ g.edgeList_[i].2 = g.edgeList_[j].2) ∨
        (g.edgeList_[i].1 = g.edgeList_[j].2 ∧ g.edgeList_[i].2 = g.edgeList_[j].1))) := by
  simp only [G0e057.Edge.eq, g0e057_node1_slot this g i hi, g0e057_node2_slot this g i hi,
    g0e057_node1_slot this g j hj, g0e057_node2_slot this g j hj, g0e057_node_eq_same,
    ne_eq, not_true_eq_false, if_false, Option.bind_eq_bind, Option.some_bind, Option.pure_def]
  generalize g.edgeList_[i] = p
  generalize g.edgeList_[j] = q
  obtain ⟨p1, p2⟩ := p
  obtain ⟨q1, q2⟩ := q
  simp only
  by_cases h1 : p1 = q1
  · by_cases h2 : p2 = q2
    · exact ⟨true, by simp [h1, h2], by simp [h1, h2]⟩
    · by_cases h3 : p1 = q2
      · by_cases h4 : p2 = q1
        · exact ⟨true, by simp only [decide_eq_true h1, decide_eq_false h2,
            decide_eq_true h3, decide_eq_true h4]; rfl, by simp only [h3, h4, and_self, or_true]⟩
        · refine ⟨false, by simp only [decide_eq_true h1, decide_eq_false h2,
            decide_eq_true h3, decide_eq_false h4]; rfl, ?_⟩
          constructor
          · intro h; cases h
          · rintro (⟨_, h⟩ | ⟨_, h⟩)
            · exact absurd h h2
            · exact absurd h h4
      · refine ⟨false, by simp only [decide_eq_true h1, decide_eq_false h2,
          decide_eq_false h3]; rfl, ?_⟩
        constructor
        · intro h; cases h
        · rintro (⟨_, h⟩ | ⟨h, _⟩)
          · exact absurd h h2
          · exact absurd h h3
  · by_cases h3 : p1 = q2
    · by_cases h4 : p2 = q1
      · exact ⟨true, by simp only [decide_eq_false h1, decide_eq_true h3, decide_eq_true h4]; rfl,
          by simp only [h3, h4, and_self, or_true]⟩
      · refine ⟨false, by simp only [decide_eq_false h1, decide_eq_true h3,
          decide_eq_false h4]; rfl, ?_⟩
        constructor
        · intro h; cases h
        · rintro (⟨h, _⟩ | ⟨_, h⟩)
          · exact absurd h h1
          · exact absurd h h4
    · refine ⟨false, by simp only [decide_eq_false h1, decide_eq_false h3]; rfl, ?_⟩
      constructor
      · intro h; cases h
      · rintro (⟨h, _⟩ | ⟨h, _⟩)
        · exact absurd h h1
        · exact absurd h h3

theorem g0e057_edge_lt_slots (this : Addr) (g : G0e057.Graph) (i j : Nat)
    (hi : i < g.edgeList_.length) (hj : j < g.edgeList_.length) :
    ∃ r, G0e057.Edge.lt (G0e057.heapOf this g) ⟨this, i⟩ ⟨this, j⟩ = some r ∧
      (r = true ↔ (min g.edgeList_[i].1 g.edgeList_[i].2 < min g.edgeList_[j].1 g.edgeList_[j].2 ∨
        (min g.edgeList_[i].1 g.edgeList_[i].2 = min g.edgeList_[j].1 g.edgeList_[j].2 ∧
         max g.edgeList_[i].1 g.edgeList_[i].2 < max g.edgeList_[j].1 g.edgeList_[j].2))) := by
  simp only [G0e057.Edge.lt, g0e057_node1_slot this g i hi, g0e057_node2_slot this g i hi,
    g0e057_node1_slot this g j hj, g0e057_node2_slot this g j hj, g0e057_node_eq_same,
    g0e057_node_lt_same, g0e057_std_min_same, g0e057_std_max_same,
    lt_self_iff_false, if_false, if_true, Option.bind_eq_bind, Option.some_bind,
    Option.pure_def]
  by_cases h1 : min g.edgeList_[i].1 g.edgeList_[i].2 < min g.edgeList_[j].1 g.edgeList_[j].2
  · simp [h1]
  · by_cases h2 : min g.edgeList_[i].1 g.edgeList_[i].2 = min g.edgeList_[j].1 g.edgeList_[j].2
    · by_cases h3 : max g.edgeList_[i].1 g.edgeList_[i].2 < max g.edgeList_[j].1 g.edgeList_[j].2
      · simp [h1, h2, h3]
      · simp [h1, h2, h3]
    · simp [h1, h2]

/-- C24 (Graph_0e057bb55f26.hpp): for any graph built by `add_node` and
`add_edge` (on distinct valid nodes, no `clear`) and any `i, j < num_edges()`,
the three comparisons of `e1 = edge(i)` and `e2 = edge(j)` return, and exactly
one of `e1 == e2`, `e1 < e2`, `e2 < e1` is true. -/
theorem c24_edge_trichotomy_0e057 (this : Addr) (ops : List Op) (g : G0e057.Graph)
    (hrun : G0e057.run this ops G0e057.empty = some g) (hnc : noClear ops = true)
    (i j : Nat) (hi : i < G0e057.num_edges g) (hj : j < G0e057.num_edges g) :
    ∃ re rl rg,
      G0e057.Edge.eq (G0e057.heapOf this g) (G0e057.edge this i) (G0e057.edge this j) = some re ∧
      G0e057.Edge.lt (G0e057.heapOf this g) (G0e057.edge this i) (G0e057.edge this j) = some rl ∧
      G0e057.Edge.lt (G0e057.heapOf this g) (G0e057.edge this j) (G0e057.edge this i) = some rg ∧
      exactlyOne re rl rg = true := by
  obtain ⟨_, hs2⟩ := g0e057_sized_run_from this ops G0e057.empty g ⟨rfl, rfl⟩ hnc hrun
  have hi1 : i < g.edgeList_.length := by rw [← hs2]; exact hi
  have hj1 : j < g.edgeList_.length := by rw [← hs2]; exact hj
  obtain ⟨re, he, hre⟩ := g0e057_edge_eq_slots this g i j hi1 hj1
  obtain ⟨rl, hl, hrl⟩ := g0e057_edge_lt_slots this g i j hi1 hj1
  obtain ⟨rg, hg, hrg⟩ := g0e057_edge_lt_slots this g j i hj1 hi1
  refine ⟨re, rl, rg, he, hl, hg, ?_⟩
  revert hre hrl hrg
  generalize g.edgeList_[i] = p
  generalize g.edgeList_[j] = q
  obtain ⟨p1, p2⟩ := p
  obtain ⟨q1, q2⟩ := q
  intro hre hrl hrg
  simp only at hre hrl hrg
  cases re <;> cases rl <;> cases rg <;>
    simp only [exactlyOne, Bool.false_eq_true, true_iff, false_iff, Bool.not_true,
      Bool.not_false, Bool.and_self, Bool.and_true, Bool.and_false, Bool.or_self,
      Bool.or_true, Bool.or_false, Bool.true_and, Bool.false_and, Bool.true_or,
      Bool.false_or] at hre hrl hrg ⊢ <;>
    omega

/-- Witness of C24: three nodes and the edges stored as (1, 0) and (0, 2). -/
theorem c24_edge_trichotomy_0e057_witness :
    ∃ re rl rg,
      G0e057.Edge.eq (G0e057.heapOf 1 ⟨[⟨0, 0, 0⟩, ⟨1, 0, 0⟩, ⟨0, 1, 0⟩], [(1, 0), (0, 2)], 3, 2⟩)
        (G0e057.edge 1 0) (G0e057.edge 1 1) = some re ∧
      G0e057.Edge.lt (G0e057.heapOf 1 ⟨[⟨0, 0, 0⟩, ⟨1, 0, 0⟩, ⟨0, 1, 0⟩], [(1, 0), (0, 2)], 3, 2⟩)
        (G0e057.edge 1 0) (G0e057.edge 1 1) = some rl ∧
      G0e057.Edge.lt (G0e057.heapOf 1 ⟨[⟨0, 0, 0⟩, ⟨1, 0, 0⟩, ⟨0, 1, 0⟩], [(1, 0), (0, 2)], 3, 2⟩)
        (G0e057.edge 1 1) (G0e057.edge 1 0) = some rg ∧
      exactlyOne re rl rg = true :=
  c24_edge_trichotomy_0e057 1
    [Op.add_node ⟨0, 0, 0⟩, Op.add_node ⟨1, 0, 0⟩, Op.add_node ⟨0, 1, 0⟩,
      Op.add_edge 1 0, Op.add_edge 0 2]
    ⟨[⟨0, 0, 0⟩, ⟨1, 0, 0⟩, ⟨0, 1, 0⟩], [(1, 0), (0, 2)], 3, 2⟩ (by decide) (by decide)
    0 1 (by decide) (by decide)

/-! ### Variant `Graph_fb5c2f2afa8a.hpp`: the representation invariant -/

theorem gfb5c_short_circuit (b1 b2 b3 b4 : Bool) :
    ((if b1 = true then some b2 else some false).bind fun straight =>
      if straight = true then some true
      else if b3 = true then some b4 else some false) = some ((b1 && b2) || (b3 && b4)) := by
  cases b1 <;> cases b2 <;> cases b3 <;> cases b4 <;> rfl

theorem gfb5c_node_eq_same (t u v : Nat) :
    Gfb5c.Node.eq ⟨t, u⟩ ⟨t, v⟩ = decide (v = u) := by
  by_cases h : v = u <;> simp [Gfb5c.Node.eq, h]

theorem gfb5c_node1_slot (this : Addr) (g : Gfb5c.Graph) (i : Nat) (hi : i < g.edges.length) :
    Gfb5c.Edge.node1 (Gfb5c.heapOf this g) (Gfb5c.edge this i) =
      some ⟨this, g.edges[i].node1⟩ := by
  simp [Gfb5c.Edge.node1, Gfb5c.heapOf, Gfb5c.edge, Gfb5c.node, List.getElem?_eq_getElem hi]

theorem gfb5c_node2_slot (this : Addr) (g : Gfb5c.Graph) (i : Nat) (hi : i < g.edges.length) :
    Gfb5c.Edge.node2 (Gfb5c.heapOf this g) (Gfb5c.edge this i) =
      some ⟨this, g.edges[i].node2⟩ := by
  simp [Gfb5c.Edge.node2, Gfb5c.heapOf, Gfb5c.edge, Gfb5c.node, List.getElem?_eq_getElem hi]

theorem gfb5c_edge_eq_slots (this : Addr) (g : Gfb5c.Graph) (i j : Nat)
    (hi : i < g.edges.length) (hj : j < g.edges.length) :
    Gfb5c.Edge.eq (Gfb5c.heapOf this g) (Gfb5c.edge this i) (Gfb5c.edge this j) =
      some ((decide (g.edges[j].node1 = g.edges[i].node1) &&
             decide (g.edges[j].node2 = g.edges[i].node2)) ||
            (decide (g.edges[j].node1 = g.edges[i].node2) &&
             decide (g.edges[j].node2 = g.edges[i].node1))) := by
  simp only [Gfb5c.Edge.eq, gfb5c_node1_slot this g i hi, gfb5c_node2_slot this g i hi,
    gfb5c_node1_slot this g j hj, gfb5c_node2_slot this g j hj, gfb5c_node_eq_same,
    Option.bind_eq_bind, Option.some_bind, Option.pure_def]
  exact gfb5c_short_circuit _ _ _ _

theorem gfb5c_internal_edge_eq_iff (x e : Gfb5c.InternalEdge) :
    Gfb5c.InternalEdge.eq x e = true ↔ Gfb5c.sameEnds x e := by
  unfold Gfb5c.InternalEdge.eq Gfb5c.sameEnds
  split_ifs with h
  · simp [h]
  · simp [h]

theorem gfb5c_find_edge_none (ed : Gfb5c.InternalEdge) (l : List Gfb5c.InternalEdge)
    (h : Gfb5c.find_edge ed l = none) : ∀ x ∈ l, ¬ Gfb5c.sameEnds x ed := by
  induction l with
  | nil => intro x hx; cases hx
  | cons y rest ih =>
    unfold Gfb5c.find_edge at h
    split_ifs at h with hy
    intro x hx
    rcases List.mem_cons.mp hx with rfl | hx1
    · intro hs
      exact hy ((gfb5c_internal_edge_eq_iff _ _).mpr hs)
    · exact ih h x hx1

theorem gfb5c_add_edge_state (this : Addr) (g : Gfb5c.Graph) (a b : Gfb5c.Node) :
    (Gfb5c.add_edge this g a b).1 = g ∨
    ((∀ x ∈ g.edges, ¬ Gfb5c.sameEnds x ⟨a.index, b.index, 0⟩) ∧
      (Gfb5c.add_edge this g a b).1 =
        ⟨g.size_, g.nodes, g.edges ++ [⟨a.index, b.index, g.edges.length⟩]⟩) := by
  cases h : Gfb5c.find_edge ⟨a.index, b.index, 0⟩ g.edges with
  | some p => left; simp [Gfb5c.add_edge, h]
  | none => right; exact ⟨gfb5c_find_edge_none _ _ h, by simp [Gfb5c.add_edge, h]⟩

theorem gfb5c_inv_add_node (this : Addr) (g : Gfb5c.Graph) (position : Point)
    (hinv : Gfb5c.Inv g) : Gfb5c.Inv (Gfb5c.add_node this g position).1 := by
  refine ⟨?_, ?_, hinv.edge_ind, hinv.uniq⟩
  · simp [Gfb5c.add_node, hinv.size_eq]
  · intro i r hr
    have hr1 : (g.nodes ++ [(⟨position, g.size_⟩ : Gfb5c.InternalNode)])[i]? = some r := hr
    rcases Nat.lt_or_ge i g.nodes.length with hlt | hge
    · rw [List.getElem?_append_left hlt] at hr1
      exact hinv.node_ind i r hr1
    · rw [List.getElem?_append_right hge] at hr1
      have hi0 : i - g.nodes.length = 0 := by
        by_contra hne
        rw [List.getElem?_eq_none (by simp; omega)] at hr1
        cases hr1
      rw [hi0] at hr1
      simp only [List.getElem?_cons_zero, Option.some.injEq] at hr1
      subst hr1
      show g.size_ = i
      rw [hinv.size_eq]
      omega

theorem gfb5c_inv_add_edge (this : Addr) (g : Gfb5c.Graph) (a b : Gfb5c.Node)
    (hinv : Gfb5c.Inv g) : Gfb5c.Inv (Gfb5c.add_edge this g a b).1 := by
  rcases gfb5c_add_edge_state this g a b with h | ⟨hno, h⟩
  · rw [h]; exact hinv
  · rw [h]
    refine ⟨hinv.size_eq, hinv.node_ind, ?_, ?_⟩
    · intro k r hr
      have hr1 : (g.edges ++ [(⟨a.index, b.index, g.edges.length⟩ : Gfb5c.InternalEdge)])[k]? =
          some r := hr
      rcases Nat.lt_or_ge k g.edges.length with hlt | hge
      · rw [List.getElem?_append_left hlt] at hr1
        exact hinv.edge_ind k r hr1
      · rw [List.getElem?_append_right hge] at hr1
        have hk0 : k - g.edges.length = 0 := by
          by_contra hne
          rw [List.getElem?_eq_none (by simp; omega)] at hr1
          cases hr1
        rw [hk0] at hr1
        simp only [List.getElem?_cons_zero, Option.some.injEq] at hr1
        subst hr1
        show g.edges.length = k
        omega
    · show (g.edges ++ [(⟨a.index, b.index, g.edges.length⟩ : Gfb5c.InternalEdge)]).Pairwise _
      rw [List.pairwise_append]
      refine ⟨hinv.uniq, List.pairwise_singleton _ _, ?_⟩
      intro x hx y hy
      simp only [List.mem_singleton] at hy
      subst hy
      exact hno x hx

theorem gfb5c_inv_empty : Gfb5c.Inv Gfb5c.empty := by
  refine ⟨rfl, ?_, ?_, List.Pairwise.nil⟩
  · intro i r hr
    simp [Gfb5c.empty] at hr
  · intro k r hr
    simp [Gfb5c.empty] at hr

theorem gfb5c_inv_step (this : Addr) (g g1 : Gfb5c.Graph) (op : Op)
    (hinv : Gfb5c.Inv g) (hstep : Gfb5c.step this g op = some g1) : Gfb5c.Inv g1 := by
  cases op with
  | add_node position =>
    simp only [Gfb5c.step, Option.some.injEq] at hstep
    subst hstep
    exact gfb5c_inv_add_node this g position hinv
  | add_edge i j =>
    simp only [Gfb5c.step] at hstep
    split_ifs at hstep with hc
    simp only [Option.some.injEq] at hstep
    subst hstep
    exact gfb5c_inv_add_edge this g _ _ hinv
  | clear =>
    simp only [Gfb5c.step, Option.some.injEq] at hstep
    subst hstep
    exact gfb5c_inv_empty

theorem gfb5c_inv_run_from (this : Addr) (ops : List Op) (g g1 : Gfb5c.Graph)
    (hinv : Gfb5c.Inv g) (hrun : Gfb5c.run this ops g = some g1) : Gfb5c.Inv g1 := by
  induction ops generalizing g with
  | nil =>
    simp only [Gfb5c.run, Option.some.injEq] at hrun
    subst hrun
    exact hinv
  | cons op ops ih =>
    unfold Gfb5c.run at hrun
    cases hs : Gfb5c.step this g op with
    | none => rw [hs] at hrun; cases hrun
    | some g2 =>
      rw [hs] at hrun
      exact ih g2 (gfb5c_inv_step this g g2 op hinv hs) hrun

theorem gfb5c_inv_reachable (this : Addr) (ops : List Op) (g : Gfb5c.Graph)
    (hrun : Gfb5c.run this ops Gfb5c.empty = some g) : Gfb5c.Inv g :=
  gfb5c_inv_run_from this ops Gfb5c.empty g gfb5c_inv_empty hrun

/-- C25 (Graph_fb5c2f2afa8a.hpp): for any graph state reachable by `add_node`,
`add_edge` (on distinct valid nodes) and `clear`, and any
`i, j < num_edges()`, the comparison `edge(i) == edge(j)` returns and exactly
one of `e1 == e2`, `e1 < e2`, `e2 < e1` is true for `e1 = edge(i)` and
`e2 = edge(j)`. -/
theorem c25_edge_trichotomy_fb5c (this : Addr) (ops : List Op) (g : Gfb5c.Graph)
    (hrun : Gfb5c.run this ops Gfb5c.empty = some g) (i j : Nat)
    (hi : i < Gfb5c.num_edges g) (hj : j < Gfb5c.num_edges g) :
    ∃ re, Gfb5c.Edge.eq (Gfb5c.heapOf this g) (Gfb5c.edge this i) (Gfb5c.edge this j) =
        some re ∧
      exactlyOne re (Gfb5c.Edge.lt (Gfb5c.edge this i) (Gfb5c.edge this j))
        (Gfb5c.Edge.lt (Gfb5c.edge this j) (Gfb5c.edge this i)) = true := by
  have hinv := gfb5c_inv_reachable this ops g hrun
  refine ⟨_, gfb5c_edge_eq_slots this g i j hi hj, ?_⟩
  have hpw := List.pairwise_iff_getElem.mp hinv.uniq
  simp only [Gfb5c.Edge.lt, Gfb5c.edge]
  rcases Nat.lt_trichotomy i j with hij | hij | hij
  · have hns := hpw i j hi hj hij
    have hfalse : ((decide (g.edges[j].node1 = g.edges[i].node1) &&
             decide (g.edges[j].node2 = g.edges[i].node2)) ||
            (decide (g.edges[j].node1 = g.edges[i].node2) &&
             decide (g.edges[j].node2 = g.edges[i].node1))) = false := by
      by_contra hc
      simp only [Bool.not_eq_false, Bool.or_eq_true, Bool.and_eq_true, decide_eq_true_eq] at hc
      apply hns
      rcases hc with ⟨h1, h2⟩ | ⟨h1, h2⟩
      · exact Or.inl ⟨h1.symm, h2.symm⟩
      · exact Or.inr ⟨h2.symm, h1.symm⟩
    have hji : ¬ j < i := by omega
    rw [hfalse]
    simp [exactlyOne, hij, hji]
  · subst hij
    simp [exactlyOne]
  · have hns := hpw j i hj hi hij
    have hfalse : ((decide (g.edges[j].node1 = g.edges[i].node1) &&
             decide (g.edges[j].node2 = g.edges[i].node2)) ||
            (decide (g.edges[j].node1 = g.edges[i].node2) &&
             decide (g.edges[j].node2 = g.edges[i].node1))) = false := by
      by_contra hc
      simp only [Bool.not_eq_false, Bool.or_eq_true, Bool.and_eq_true, decide_eq_true_eq] at hc
      apply hns
      rcases hc with ⟨h1, h2⟩ | ⟨h1, h2⟩
      · exact Or.inl ⟨h1, h2⟩
      · exact Or.inr ⟨h1, h2⟩
    have hji : ¬ i < j := by omega
    rw [hfalse]
    simp [exactlyOne, hij, hji]

/-- Witness of C25: three nodes and the edges stored as (1, 0) and (0, 2),
after a `clear()`. -/
theorem c25_edge_trichotomy_fb5c_witness :
    ∃ re, Gfb5c.Edge.eq
        (Gfb5c.heapOf 1 ⟨3, [⟨⟨0, 0, 0⟩, 0⟩, ⟨⟨1, 0, 0⟩, 1⟩, ⟨⟨0, 1, 0⟩, 2⟩],
          [⟨1, 0, 0⟩, ⟨0, 2, 1⟩]⟩) (Gfb5c.edge 1 1) (Gfb5c.edge 1 0) = some re ∧
      exactlyOne re (Gfb5c.Edge.lt (Gfb5c.edge 1 1) (Gfb5c.edge 1 0))
        (Gfb5c.Edge.lt (Gfb5c.edge 1 0) (Gfb5c.edge 1 1)) = true :=
  c25_edge_trichotomy_fb5c 1
    [Op.add_node ⟨7, 7, 7⟩, Op.clear, Op.add_node ⟨0, 0, 0⟩, Op.add_node ⟨1, 0, 0⟩,
      Op.add_node ⟨0, 1, 0⟩, Op.add_edge 1 0, Op.add_edge 0 2, Op.add_edge 0 1]
    ⟨3, [⟨⟨0, 0, 0⟩, 0⟩, ⟨⟨1, 0, 0⟩, 1⟩, ⟨⟨0, 1, 0⟩, 2⟩], [⟨1, 0, 0⟩, ⟨0, 2, 1⟩]⟩
    (by decide) 1 0 (by decide) (by decide)

/-! ### Variant `Graph_d30b0457858d.hpp`: the edge list only grows at its end -/

theorem gd30b_add_edge_prefix (this : Addr) (g : Gd30b.Graph) (a b : Gd30b.Node) :
    ∃ extra, (Gd30b.add_edge this g a b).1.edge_node = g.edge_node ++ extra := by
  by_cases h : (a.index, b.index) ∈ g.edge_node ∨ (b.index, a.index) ∈ g.edge_node
  · rw [gd30b_add_edge_old this g a b h]
    exact ⟨[], by simp⟩
  · have h1 : (a.index, b.index) ∉ g.edge_node := fun hh => h (Or.inl hh)
    have h2 : (b.index, a.index) ∉ g.edge_node := fun hh => h (Or.inr hh)
    rw [gd30b_add_edge_new this g a b h1 h2]
    exact ⟨[(a.index, b.index)], rfl⟩

theorem gd30b_add_edge_handle (this : Addr) (g : Gd30b.Graph) (a b : Gd30b.Node) :
    (Gd30b.add_edge this g a b).2.graph_ = this ∧
    (Gd30b.add_edge this g a b).2.uid_ < (Gd30b.add_edge this g a b).1.edge_node.length := by
  unfold Gd30b.add_edge
  simp only
  split_ifs with h1 h2
  · exact ⟨rfl, by simp⟩
  · exact ⟨rfl, h2⟩
  · refine ⟨rfl, ?_⟩
    show Gd30b.find (b.index, a.index) g.edge_node < g.edge_node.length
    have := gd30b_find_le (b.index, a.index) g.edge_node
    have := gd30b_find_le (a.index, b.index) g.edge_node
    omega

theorem gd30b_run_prefix (this : Addr) (ops : List Op) (g g1 : Gd30b.Graph)
    (hnc : noClear ops = true) (hrun : Gd30b.run this ops g = some g1) :
    ∃ extra, g1.edge_node = g.edge_node ++ extra := by
  induction ops generalizing g with
  | nil =>
    simp only [Gd30b.run, Option.some.injEq] at hrun
    subst hrun
    exact ⟨[], by simp⟩
  | cons op ops ih =>
    unfold Gd30b.run at hrun
    cases hs : Gd30b.step this g op with
    | none => rw [hs] at hrun; cases hrun
    | some g2 =>
      rw [hs] at hrun
      cases op with
      | add_node position =>
        simp only [Gd30b.step, Option.some.injEq] at hs
        subst hs
        obtain ⟨x, hx⟩ := ih (Gd30b.add_node this g position).1
          (by simpa [noClear] using hnc) hrun
        exact ⟨x, hx⟩
      | add_edge i j =>
        simp only [Gd30b.step] at hs
        split_ifs at hs with hc
        simp only [Option.some.injEq] at hs
        subst hs
        obtain ⟨x1, hx1⟩ := gd30b_add_edge_prefix this g (Gd30b.node this i) (Gd30b.node this j)
        obtain ⟨x2, hx2⟩ := ih (Gd30b.add_edge this g (Gd30b.node this i) (Gd30b.node this j)).1
          (by simpa [noClear] using hnc) hrun
        exact ⟨x1 ++ x2, by rw [hx2, hx1, List.append_assoc]⟩
      | clear => simp [noClear] at hnc

theorem gd30b_nodes_of_slot (this : Addr) (g : Gd30b.Graph) (e : Gd30b.Edge)
    (hg : e.graph_ = this) (p : Nat × Nat) (hp : g.edge_node[e.uid_]? = some p) :
    Gd30b.Edge.node1 (Gd30b.heapOf this g) e = some ⟨this, p.1⟩ ∧
    Gd30b.Edge.node2 (Gd30b.heapOf this g) e = some ⟨this, p.2⟩ := by
  simp [Gd30b.Edge.node1, Gd30b.Edge.node2, Gd30b.heapOf, hg, hp]

/-- C26 (Graph_d30b0457858d.hpp): if `e` is an Edge handle returned by
`add_edge(a, b)` or by `edge(i)` with `i < num_edges()`, then `e.node1()` and
`e.node2()` return, and after any further finite sequence of `add_node` and
`add_edge` calls (no `clear`) on the same graph they return the same two
nodes. -/
theorem c26_edge_handle_stable_d30b (this : Addr) (g0 : Gd30b.Graph) (e : Gd30b.Edge)
    (hobt : (∃ i, i < Gd30b.num_edges g0 ∧ e = Gd30b.edge this i) ∨
      (∃ gp a b, Gd30b.add_edge this gp a b = (g0, e)))
    (ops : List Op) (hnc : noClear ops = true) (g1 : Gd30b.Graph)
    (hrun : Gd30b.run this ops g0 = some g1) :
    ∃ n1 n2, Gd30b.Edge.node1 (Gd30b.heapOf this g0) e = some n1 ∧
      Gd30b.Edge.node2 (Gd30b.heapOf this g0) e = some n2 ∧
      Gd30b.Edge.node1 (Gd30b.heapOf this g1) e = some n1 ∧
      Gd30b.Edge.node2 (Gd30b.heapOf this g1) e = some n2 := by
  have hvalid : e.graph_ = this ∧ e.uid_ < g0.edge_node.length := by
    rcases hobt with ⟨i, hi, rfl⟩ | ⟨gp, a, b, hadd⟩
    · exact ⟨rfl, hi⟩
    · have h := gd30b_add_edge_handle this gp a b
      rw [hadd] at h
      exact h
  obtain ⟨hg, hlt⟩ := hvalid
  obtain ⟨extra, hx⟩ := gd30b_run_prefix this ops g0 g1 hnc hrun
  have h0 : g0.edge_node[e.uid_]? = some g0.edge_node[e.uid_] := List.getElem?_eq_getElem hlt
  have h1 : g1.edge_node[e.uid_]? = some g0.edge_node[e.uid_] := by
    rw [hx, List.getElem?_append_left hlt, h0]
  obtain ⟨a1, a2⟩ := gd30b_nodes_of_slot this g0 e hg _ h0
  obtain ⟨b1, b2⟩ := gd30b_nodes_of_slot this g1 e hg _ h1
  exact ⟨_, _, a1, a2, b1, b2⟩

/-- Witness of C26: the handle returned by `add_edge(node(1), node(0))` on a
graph with two nodes, then `add_node`, `add_edge(node(0), node(2))` and
`add_edge(node(0), node(1))`. -/
theorem c26_edge_handle_stable_d30b_witness :
    ∃ n1 n2, Gd30b.Edge.node1 (Gd30b.heapOf 1 ⟨[⟨0, 0, 0⟩, ⟨1, 0, 0⟩], [(1, 0)]⟩) ⟨1, 0⟩ =
        some n1 ∧
      Gd30b.Edge.node2 (Gd30b.heapOf 1 ⟨[⟨0, 0, 0⟩, ⟨1, 0, 0⟩], [(1, 0)]⟩) ⟨1, 0⟩ = some n2 ∧
      Gd30b.Edge.node1
        (Gd30b.heapOf 1 ⟨[⟨0, 0, 0⟩, ⟨1, 0, 0⟩, ⟨0, 1, 0⟩], [(1, 0), (0, 2)]⟩) ⟨1, 0⟩ = some n1 ∧
      Gd30b.Edge.node2
        (Gd30b.heapOf 1 ⟨[⟨0, 0, 0⟩, ⟨1, 0, 0⟩, ⟨0, 1, 0⟩], [(1, 0), (0, 2)]⟩) ⟨1, 0⟩ = some n2 :=
  c26_edge_handle_stable_d30b 1 ⟨[⟨0, 0, 0⟩, ⟨1, 0, 0⟩], [(1, 0)]⟩ ⟨1, 0⟩
    (Or.inr ⟨⟨[⟨0, 0, 0⟩, ⟨1, 0, 0⟩], []⟩, Gd30b.node 1 1, Gd30b.node 1 0, by decide⟩)
    [Op.add_node ⟨0, 1, 0⟩, Op.add_edge 0 2, Op.add_edge 0 1] (by decide)
    ⟨[⟨0, 0, 0⟩, ⟨1, 0, 0⟩, ⟨0, 1, 0⟩], [(1, 0), (0, 2)]⟩ (by decide)

/-! ### Variant `Graph_fb5c2f2afa8a.hpp`: the node store -/

theorem gfb5c_find_node_append (nd x : Gfb5c.InternalNode) (l : List Gfb5c.InternalNode)
    (hx : Gfb5c.InternalNode.eq x nd = true) : Gfb5c.find_node nd (l ++ [x]) = true := by
  induction l with
  | nil => simp [Gfb5c.find_node, hx]
  | cons y rest ih =>
    rw [List.cons_append]
    unfold Gfb5c.find_node
    split_ifs
    · rfl
    · exact ih

/-- C27 (Graph_fb5c2f2afa8a.hpp): in every state (reachable or not), for every
point `p`: immediately after `n = add_node(p)`, `has_node(n)` is true. -/
theorem c27_has_node_after_add_node_fb5c (this : Addr) (g : Gfb5c.Graph) (p : Point) :
    Gfb5c.has_node (Gfb5c.add_node this g p).1 (Gfb5c.add_node this g p).2 = true := by
  simp only [Gfb5c.has_node, Gfb5c.add_node, Gfb5c.Node.index, Nat.add_sub_cancel]
  apply gfb5c_find_node_append
  simp [Gfb5c.InternalNode.eq]

theorem noClear_append (l1 l2 : List Op) :
    noClear (l1 ++ l2) = true ↔ (noClear l1 = true ∧ noClear l2 = true) := by
  induction l1 with
  | nil => simp [noClear]
  | cons op rest ih =>
    cases op with
    | add_node position => simpa [noClear] using ih
    | add_edge i j => simpa [noClear] using ih
    | clear => simp [noClear]

theorem addedPoints_append (l1 l2 : List Op) :
    addedPoints (l1 ++ l2) = addedPoints l1 ++ addedPoints l2 := by
  induction l1 with
  | nil => simp [addedPoints]
  | cons op rest ih =>
    cases op with
    | add_node position => simp [addedPoints, ih]
    | add_edge i j => simpa [addedPoints] using ih
    | clear => simpa [addedPoints] using ih

theorem gfb5c_add_edge_nodes (this : Addr) (g : Gfb5c.Graph) (a b : Gfb5c.Node) :
    (Gfb5c.add_edge this g a b).1.size_ = g.size_ ∧
    (Gfb5c.add_edge this g a b).1.nodes = g.nodes := by
  rcases gfb5c_add_edge_state this g a b with h | ⟨_, h⟩
  · rw [h]; exact ⟨rfl, rfl⟩
  · rw [h]; exact ⟨rfl, rfl⟩

theorem gfb5c_points_run (this : Addr) (ops : List Op) (g g1 : Gfb5c.Graph)
    (hnc : noClear ops = true) (hsize : g.size_ = g.nodes.length)
    (hrun : Gfb5c.run this ops g = some g1) :
    g1.size_ = g1.nodes.length ∧
    g1.nodes.map (fun r => r.point) = g.nodes.map (fun r => r.point) ++ addedPoints ops := by
  induction ops generalizing g with
  | nil =>
    simp only [Gfb5c.run, Option.some.injEq] at hrun
    subst hrun
    exact ⟨hsize, by simp [addedPoints]⟩
  | cons op ops ih =>
    unfold Gfb5c.run at hrun
    cases hs : Gfb5c.step this g op with
    | none => rw [hs] at hrun; cases hrun
    | some g2 =>
      rw [hs] at hrun
      cases op with
      | add_node position =>
        simp only [Gfb5c.step, Option.some.injEq] at hs
        subst hs
        obtain ⟨h1, h2⟩ := ih (Gfb5c.add_node this g position).1
          (by simpa [noClear] using hnc) (by simp [Gfb5c.add_node, hsize]) hrun
        refine ⟨h1, ?_⟩
        rw [h2]
        simp [Gfb5c.add_node, addedPoints]
      | add_edge i j =>
        simp only [Gfb5c.step] at hs
        split_ifs at hs with hc
        simp only [Option.some.injEq] at hs
        subst hs
        obtain ⟨hn1, hn2⟩ := gfb5c_add_edge_nodes this g (Gfb5c.node this i) (Gfb5c.node this j)
        obtain ⟨h1, h2⟩ := ih (Gfb5c.add_edge this g (Gfb5c.node this i) (Gfb5c.node this j)).1
          (by simpa [noClear] using hnc) (by rw [hn1, hn2]; exact hsize) hrun
        refine ⟨h1, ?_⟩
        rw [h2, hn2]
        simp [addedPoints]
      | clear => simp [noClear] at hnc

/-- C28 (Graph_fb5c2f2afa8a.hpp): let the calls `ops` (no `clear`) be made on
an empty graph, new or just cleared, and let `p` be the point passed to the
`i`-th `add_node` call of `ops`.  Then after `ops`, and after any later calls
`later` of `add_node` and `add_edge` (no `clear`), `node(i).index() == i` and
`node(i).position()` returns `p`, without failing the assertion of `fetch`. -/
theorem c28_node_positions_stable_fb5c (this : Addr) (g0 : Gfb5c.Graph) (ops later : List Op)
    (g : Gfb5c.Graph) (hnc1 : noClear ops = true) (hnc2 : noClear later = true)
    (hrun : Gfb5c.run this (ops ++ later) (Gfb5c.clear g0) = some g)
    (i : Nat) (p : Point) (hp : (addedPoints ops)[i]? = some p) :
    (Gfb5c.node this i).index = i ∧
    Gfb5c.Node.position (Gfb5c.heapOf this g) (Gfb5c.node this i) = Except.ok p := by
  refine ⟨rfl, ?_⟩
  obtain ⟨hsize, hpts⟩ := gfb5c_points_run this (ops ++ later) (Gfb5c.clear g0) g
    ((noClear_append ops later).mpr ⟨hnc1, hnc2⟩) rfl hrun
  have hi : i < (addedPoints ops).length := (List.getElem?_eq_some.mp hp).1
  have hmap : (g.nodes.map (fun r => r.point))[i]? = some p := by
    rw [hpts, addedPoints_append]
    simp only [Gfb5c.clear, List.map_nil, List.nil_append]
    rw [List.getElem?_append_left hi]
    exact hp
  rw [List.getElem?_map] at hmap
  cases hr : g.nodes[i]? with
  | none => rw [hr] at hmap; cases hmap
  | some r =>
    rw [hr] at hmap
    simp only [Option.map_some', Option.some.injEq] at hmap
    have hlt : i < g.nodes.length := (List.getElem?_eq_some.mp hr).1
    have hnot : ¬ i ≥ g.size_ := by rw [hsize]; omega
    simp [Gfb5c.Node.position, Gfb5c.Node.fetch, Gfb5c.heapOf, Gfb5c.node, Gfb5c.size, hnot,
      hr, hmap]

/-- Witness of C28: the second point added after a `clear()`, read after one
more `add_node` and one `add_edge`. -/
theorem c28_node_positions_stable_fb5c_witness :
    (Gfb5c.node 1 1).index = 1 ∧
    Gfb5c.Node.position
      (Gfb5c.heapOf 1 ⟨3, [⟨⟨0, 0, 0⟩, 0⟩, ⟨⟨1, 0, 0⟩, 1⟩, ⟨⟨0, 1, 0⟩, 2⟩], [⟨0, 1, 0⟩, ⟨2, 1, 1⟩]⟩)
      (Gfb5c.node 1 1) = Except.ok ⟨1, 0, 0⟩ :=
  c28_node_positions_stable_fb5c 1 ⟨1, [⟨⟨9, 9, 9⟩, 0⟩], []⟩
    [Op.add_node ⟨0, 0, 0⟩, Op.add_node ⟨1, 0, 0⟩, Op.add_edge 0 1]
    [Op.add_node ⟨0, 1, 0⟩, Op.add_edge 2 1]
    ⟨3, [⟨⟨0, 0, 0⟩, 0⟩, ⟨⟨1, 0, 0⟩, 1⟩, ⟨⟨0, 1, 0⟩, 2⟩], [⟨0, 1, 0⟩, ⟨2, 1, 1⟩]⟩
    (by decide) (by decide) (by decide) 1 ⟨1, 0, 0⟩ (by decide)

/-- C29 (Graph_2eee0fc59d4c.hpp): in every state (reachable or not), for every
point `p`: after `n = add_node(p)`, `num_nodes()` has increased by exactly 1,
`n.index()` equals the `num_nodes()` value before the call, and `n.position()`
returns `p` (the range assertion in `Node::fetch` does not fail). -/
theorem c29_add_node_post_2eee (this : Addr) (g : G2eee.Graph) (p : Point) :
    G2eee.num_nodes (G2eee.add_node this g p).1 = G2eee.num_nodes g + 1 ∧
    (G2eee.add_node this g p).2.index = G2eee.num_nodes g ∧
    G2eee.Node.position (G2eee.heapOf this (G2eee.add_node this g p).1)
      (G2eee.add_node this g p).2 = Except.ok p := by
  refine ⟨by simp [G2eee.num_nodes, G2eee.size, G2eee.add_node],
    by simp [G2eee.Node.index, G2eee.num_nodes, G2eee.size, G2eee.add_node], ?_⟩
  simp [G2eee.Node.position, G2eee.Node.fetch, G2eee.heapOf, G2eee.add_node]

/-- C30 (Graph_d30b0457858d.hpp): on a new empty graph `G`, after
`a = G.add_node({0,0,0})`, `b = G.add_node({1,0,0})`, `c = G.add_node({0,1,0})`,
`G.add_edge(a, b)`, `G.add_edge(b, c)`: `G.num_nodes() == 3`,
`G.num_edges() == 2`, `G.has_edge(a, c) == false` and
`G.has_edge(b, a) == true`. -/
theorem c30_scenario_d30b :
    ∃ ga a gb b gc c g1 e1 g2 e2,
      Gd30b.add_node 1 Gd30b.empty ⟨0, 0, 0⟩ = (ga, a) ∧
      Gd30b.add_node 1 ga ⟨1, 0, 0⟩ = (gb, b) ∧
      Gd30b.add_node 1 gb ⟨0, 1, 0⟩ = (gc, c) ∧
      Gd30b.add_edge 1 gc a b = (g1, e1) ∧
      Gd30b.add_edge 1 g1 b c = (g2, e2) ∧
      Gd30b.num_nodes g2 = 3 ∧ Gd30b.num_edges g2 = 2 ∧
      Gd30b.has_edge g2 a c = false ∧ Gd30b.has_edge g2 b a = true :=
  ⟨⟨[⟨0, 0, 0⟩], []⟩, ⟨1, 0⟩, ⟨[⟨0, 0, 0⟩, ⟨1, 0, 0⟩], []⟩, ⟨1, 1⟩,
    ⟨[⟨0, 0, 0⟩, ⟨1, 0, 0⟩, ⟨0, 1, 0⟩], []⟩, ⟨1, 2⟩,
    ⟨[⟨0, 0, 0⟩, ⟨1, 0, 0⟩, ⟨0, 1, 0⟩], [(0, 1)]⟩, ⟨1, 0⟩,
    ⟨[⟨0, 0, 0⟩, ⟨1, 0, 0⟩, ⟨0, 1, 0⟩], [(0, 1), (1, 2)]⟩, ⟨1, 1⟩,
    by decide, by decide, by decide, by decide, by decide, by decide, by decide, by decide,
    by decide⟩

/-- C31 (Graph_2eee0fc59d4c.hpp): `node(i)` returns a node with
`index() == i` when `i < num_nodes()`, and fails its assertion (returns no
node) when `i >= num_nodes()`. -/
theorem c31_node_asserts_range_2eee (this : Addr) (g : G2eee.Graph) (i : Nat) :
    (i < G2eee.num_nodes g →
      ∃ n, G2eee.node this g i = Except.ok n ∧ n.index = i ∧ n.graph_ = this) ∧
    (G2eee.num_nodes g ≤ i → G2eee.node this g i = Except.error Fault.assertion) := by
  constructor
  · intro h
    exact ⟨⟨this, i⟩, by simp [G2eee.node, h], rfl, rfl⟩
  · intro h
    have hn : ¬ i < G2eee.num_nodes g := by omega
    simp [G2eee.node, hn]

/-- Witness of C31: a graph with two nodes, `node(1)` and `node(2)`. -/
theorem c31_node_asserts_range_2eee_witness :
    (∃ n, G2eee.node 1 ⟨[⟨⟨0, 0, 0⟩, []⟩, ⟨⟨1, 0, 0⟩, []⟩], [[], []], []⟩ 1 = Except.ok n ∧
      n.index = 1 ∧ n.graph_ = 1) ∧
    G2eee.node 1 ⟨[⟨⟨0, 0, 0⟩, []⟩, ⟨⟨1, 0, 0⟩, []⟩], [[], []], []⟩ 2 =
      Except.error Fault.assertion :=
  ⟨(c31_node_asserts_range_2eee 1 ⟨[⟨⟨0, 0, 0⟩, []⟩, ⟨⟨1, 0, 0⟩, []⟩], [[], []], []⟩ 1).1
      (by decide),
   (c31_node_asserts_range_2eee 1 ⟨[⟨⟨0, 0, 0⟩, []⟩, ⟨⟨1, 0, 0⟩, []⟩], [[], []], []⟩ 2).2
      (by decide)⟩

/-- C32 (Graph_fb5c2f2afa8a.hpp): for every graph state (reachable or not),
`add_node` raises `num_nodes()` by exactly 1 and leaves `num_edges()`
unchanged; `add_edge` (on any two nodes, in particular distinct valid ones)
leaves `num_nodes()` unchanged and raises `num_edges()` by 0 or 1. -/
theorem c32_counts_monotone_fb5c (this : Addr) (g : Gfb5c.Graph) (p : Point)
    (a b : Gfb5c.Node) :
    (Gfb5c.num_nodes (Gfb5c.add_node this g p).1 = Gfb5c.num_nodes g + 1 ∧
      Gfb5c.num_edges (Gfb5c.add_node this g p).1 = Gfb5c.num_edges g) ∧
    (Gfb5c.num_nodes (Gfb5c.add_edge this g a b).1 = Gfb5c.num_nodes g ∧
      (Gfb5c.num_edges (Gfb5c.add_edge this g a b).1 = Gfb5c.num_edges g ∨
       Gfb5c.num_edges (Gfb5c.add_edge this g a b).1 = Gfb5c.num_edges g + 1)) := by
  refine ⟨⟨rfl, rfl⟩, ?_⟩
  rcases gfb5c_add_edge_state this g a b with h | ⟨_, h⟩
  · rw [h]
    exact ⟨rfl, Or.inl rfl⟩
  · rw [h]
    exact ⟨rfl, Or.inr (by simp [Gfb5c.num_edges])⟩

/-! ### The adjacency-list variant against the linear-scan variant -/

theorem g8998_add_edge_loop_some (a b : Nat) (l : List (Nat × Nat)) (i k : Nat)
    (h : G8998.add_edge_loop a b l i = some k) :
    ∃ p, p ∈ l ∧ ((a = p.1 ∧ b = p.2) ∨ (a = p.2 ∧ b = p.1)) := by
  induction l generalizing i with
  | nil => simp [G8998.add_edge_loop] at h
  | cons q rest ih =>
    unfold G8998.add_edge_loop at h
    split_ifs at h with hq
    · exact ⟨q, List.mem_cons_self _ _, hq⟩
    · obtain ⟨p, hp, hc⟩ := ih (i + 1) h
      exact ⟨p, List.mem_cons_of_mem _ hp, hc⟩

theorem g8998_pair_mem_iff (a b : Nat) (l : List (Nat × Nat)) :
    (∃ p, p ∈ l ∧ ((a = p.1 ∧ b = p.2) ∨ (a = p.2 ∧ b = p.1))) ↔
      ((a, b) ∈ l ∨ (b, a) ∈ l) := by
  constructor
  · rintro ⟨⟨u, v⟩, hp, (⟨h1, h2⟩ | ⟨h1, h2⟩)⟩
    · simp only at h1 h2
      subst h1; subst h2
      exact Or.inl hp
    · simp only at h1 h2
      subst h1; subst h2
      exact Or.inr hp
  · rintro (h | h)
    · exact ⟨(a, b), h, Or.inl ⟨rfl, rfl⟩⟩
    · exact ⟨(b, a), h, Or.inr ⟨rfl, rfl⟩⟩

theorem g8998_add_edge_existing (this : Addr) (g : G8998.Graph) (a b : G8998.Node)
    (h : (a.uid_, b.uid_) ∈ g.edge_list ∨ (b.uid_, a.uid_) ∈ g.edge_list) :
    (G8998.add_edge this g a b).1 = g := by
  cases hl : G8998.add_edge_loop a.uid_ b.uid_ g.edge_list 0 with
  | some k => simp [G8998.add_edge, hl]
  | none =>
    obtain ⟨p, hp, hc⟩ := (g8998_pair_mem_iff _ _ _).mpr h
    exact absurd hc (g8998_add_edge_loop_none _ _ _ _ hl p hp)

theorem g8998_add_edge_fresh (this : Addr) (g : G8998.Graph) (a b : G8998.Node)
    (h : ¬ ((a.uid_, b.uid_) ∈ g.edge_list ∨ (b.uid_, a.uid_) ∈ g.edge_list)) :
    (G8998.add_edge this g a b).1 = ⟨g.node_list, g.edge_list ++ [(a.uid_, b.uid_)]⟩ := by
  cases hl : G8998.add_edge_loop a.uid_ b.uid_ g.edge_list 0 with
  | some k =>
    exact absurd ((g8998_pair_mem_iff _ _ _).mp (g8998_add_edge_loop_some _ _ _ _ _ hl)) h
  | none => simp [G8998.add_edge, hl]

theorem sim_1538_8998_step (this1 this2 : Addr) (g1 : G1538.Graph) (g2 : G8998.Graph)
    (op : Op) (hs : sim_1538_8998 g1 g2) (hinv : G1538.Inv g1) :
    (G1538.step this1 g1 op = none ∧ G8998.step this2 g2 op = none) ∨
    (∃ h1 h2, G1538.step this1 g1 op = some h1 ∧ G8998.step this2 g2 op = some h2 ∧
      sim_1538_8998 h1 h2) := by
  obtain ⟨hn, he⟩ := hs
  have hnum : G1538.num_nodes g1 = G8998.num_nodes g2 := by
    simp [G1538.num_nodes, G1538.size, G8998.num_nodes, G8998.size, hn]
  cases op with
  | add_node position =>
    right
    exact ⟨_, _, rfl, rfl, by simp [G1538.add_node, G8998.add_node, hn], he⟩
  | add_edge i j =>
    by_cases hc : i < G1538.num_nodes g1 ∧ j < G1538.num_nodes g1 ∧ i ≠ j
    · right
      have hc2 : i < G8998.num_nodes g2 ∧ j < G8998.num_nodes g2 ∧ i ≠ j := by
        rw [← hnum]; exact hc
      obtain ⟨hi, hj, hij⟩ := hc
      have hiff := g1538_has_edge_true_iff g1 (G1538.node this1 i) (G1538.node this1 j) hinv hi
      rcases g1538_add_edge_cases this1 g1 (G1538.node this1 i) (G1538.node this1 j) hinv hi hj
        with ⟨ht, hadd⟩ | ⟨hf, _, adj2, _, _, hadd⟩
      · have hmem := hiff.mp ht
        rw [he] at hmem
        refine ⟨g1, g2, ?_, ?_, hn, he⟩
        · simp only [G1538.step]
          rw [if_pos ⟨hi, hj, hij⟩, hadd]
          rfl
        · simp only [G8998.step]
          rw [if_pos hc2,
            g8998_add_edge_existing this2 g2 (G8998.node this2 i) (G8998.node this2 j) hmem]
      · have hnot : ¬ ((i, j) ∈ g2.edge_list ∨ (j, i) ∈ g2.edge_list) := by
          intro hm
          rw [← he] at hm
          have := hiff.mpr hm
          rw [hf] at this
          cases this
        refine ⟨⟨g1.nodes_, g1.edges_ ++ [(i, j)], adj2⟩, ⟨g2.node_list, g2.edge_list ++ [(i, j)]⟩,
          ?_, ?_, hn, by simp [he]⟩
        · simp only [G1538.step]
          rw [if_pos ⟨hi, hj, hij⟩, hadd]
          rfl
        · simp only [G8998.step]
          rw [if_pos hc2,
            g8998_add_edge_fresh this2 g2 (G8998.node this2 i) (G8998.node this2 j) hnot]
          rfl
    · left
      have hc2 : ¬ (i < G8998.num_nodes g2 ∧ j < G8998.num_nodes g2 ∧ i ≠ j) := by
        rw [← hnum]; exact hc
      exact ⟨by simp only [G1538.step, hc, if_false], by simp only [G8998.step, hc2, if_false]⟩
  | clear =>
    right
    exact ⟨_, _, rfl, rfl, rfl, rfl⟩

theorem sim_1538_8998_run (this1 this2 : Addr) (ops : List Op) (g1 : G1538.Graph)
    (g2 : G8998.Graph) (hs : sim_1538_8998 g1 g2) (hinv : G1538.Inv g1) :
    (G1538.run this1 ops g1 = none ∧ G8998.run this2 ops g2 = none) ∨
    (∃ h1 h2, G1538.run this1 ops g1 = some h1 ∧ G8998.run this2 ops g2 = some h2 ∧
      sim_1538_8998 h1 h2 ∧ G1538.Inv h1) := by
  induction ops generalizing g1 g2 with
  | nil => right; exact ⟨g1, g2, rfl, rfl, hs, hinv⟩
  | cons op ops ih =>
    rcases sim_1538_8998_step this1 this2 g1 g2 op hs hinv with ⟨e1, e2⟩ | ⟨h1, h2, e1, e2, hs1⟩
    · left
      exact ⟨by simp [G1538.run, e1], by simp [G8998.run, e2]⟩
    · have hinv1 := g1538_inv_step this1 g1 h1 op hinv e1
      rcases ih h1 h2 hs1 hinv1 with ⟨r1, r2⟩ | ⟨k1, k2, r1, r2, hs2, hinv2⟩
      · left
        exact ⟨by simp [G1538.run, e1, r1], by simp [G8998.run, e2, r2]⟩
      · right
        exact ⟨k1, k2, by simp [G1538.run, e1, r1], by simp [G8998.run, e2, r2], hs2, hinv2⟩

/-- C33 (Graph_1538fb7d5508.hpp and Graph_8998baa3d11f.hpp): the same finite
sequence of `add_node(p)`, `add_edge(node(i), node(j))` and `clear()` is
admitted (`i != j` both valid at every `add_edge`) on an empty graph of one
variant exactly when it is on an empty graph of the other, and then the two
graphs agree on `num_nodes()`, on `num_edges()`, on
`has_edge(node(i), node(j))` for all valid `i`, `j`, and on the endpoint
indices of `edge(k)` for every `k < num_edges()`. -/
theorem c33_variants_agree_1538_8998 (this1 this2 : Addr) (ops : List Op) :
    (G1538.run this1 ops G1538.empty).isSome = (G8998.run this2 ops G8998.empty).isSome ∧
    ∀ g1 g2, G1538.run this1 ops G1538.empty = some g1 →
      G8998.run this2 ops G8998.empty = some g2 →
      G1538.num_nodes g1 = G8998.num_nodes g2 ∧
      G1538.num_edges g1 = G8998.num_edges g2 ∧
      (∀ i j, i < G1538.num_nodes g1 → j < G1538.num_nodes g1 →
        G1538.has_edge g1 (G1538.node this1 i) (G1538.node this1 j) =
          some (G8998.has_edge g2 (G8998.node this2 i) (G8998.node this2 j))) ∧
      (∀ k, k < G1538.num_edges g1 →
        ∃ e n1 n2, G1538.edge this1 g1 k = some e ∧
          G8998.Edge.node1 (G8998.heapOf this2 g2) (G8998.edge this2 k) = some n1 ∧
          G8998.Edge.node2 (G8998.heapOf this2 g2) (G8998.edge this2 k) = some n2 ∧
          e.node1.index = n1.index ∧ e.node2.index = n2.index) := by
  rcases sim_1538_8998_run this1 this2 ops G1538.empty G8998.empty ⟨rfl, rfl⟩ g1538_inv_empty
    with ⟨r1, r2⟩ | ⟨g1, g2, r1, r2, ⟨hn, he⟩, hinv⟩
  · refine ⟨by rw [r1, r2]; rfl, ?_⟩
    intro k1 k2 hg1
    rw [r1] at hg1
    cases hg1
  · refine ⟨by rw [r1, r2]; rfl, ?_⟩
    intro k1 k2 hg1 hg2
    rw [r1] at hg1
    rw [r2] at hg2
    cases hg1
    cases hg2
    refine ⟨by simp [G1538.num_nodes, G1538.size, G8998.num_nodes, G8998.size, hn],
      by simp [G1538.num_edges, G8998.num_edges, he], ?_, ?_⟩
    · intro i j hi _
      obtain ⟨l, _, hh⟩ := g1538_has_edge_some g1 (G1538.node this1 i) (G1538.node this1 j) hinv hi
      have hiff := g1538_has_edge_true_iff g1 (G1538.node this1 i) (G1538.node this1 j) hinv hi
      rw [hh, Option.some.injEq] at hiff
      rw [hh]
      have h2iff : G8998.has_edge g2 (G8998.node this2 i) (G8998.node this2 j) = true ↔
          ((i, j) ∈ g2.edge_list ∨ (j, i) ∈ g2.edge_list) := by
        unfold G8998.has_edge
        rw [g8998_has_edge_loop_iff]
        exact g8998_pair_mem_iff i j g2.edge_list
      have hboth : G1538.has_edge_loop (G1538.node this1 j).index l = true ↔
          G8998.has_edge g2 (G8998.node this2 i) (G8998.node this2 j) = true := by
        rw [hiff, h2iff, he]
        rfl
      cases hx : G1538.has_edge_loop (G1538.node this1 j).index l <;>
        cases hy : G8998.has_edge g2 (G8998.node this2 i) (G8998.node this2 j) <;>
        simp [hx, hy] at hboth ⊢
    · intro k hk
      have hk1 : k < g1.edges_.length := hk
      have hk2 : k < g2.edge_list.length := by rw [← he]; exact hk1
      refine ⟨⟨this1, g1.edges_[k].1, g1.edges_[k].2⟩, _, _,
        (g1538_edge_some_iff this1 g1 k _).mpr ⟨_, List.getElem?_eq_getElem hk1, rfl⟩,
        g8998_node1_edge this2 g2 k hk2, g8998_node2_edge this2 g2 k hk2, ?_, ?_⟩
      · show g1.edges_[k].1 = g2.edge_list[k].1
        simp [he]
      · show g1.edges_[k].2 = g2.edge_list[k].2
        simp [he]

/-- Witness of C33: three nodes, three `add_edge` calls (one of them repeats an
edge in the opposite order), in both variants. -/
theorem c33_variants_agree_1538_8998_witness :
    G1538.num_nodes ⟨[⟨0, 0, 0⟩, ⟨1, 0, 0⟩, ⟨0, 1, 0⟩], [(0, 1), (2, 1)], [[1], [0, 2], [1]]⟩ =
      G8998.num_nodes ⟨[⟨0, 0, 0⟩, ⟨1, 0, 0⟩, ⟨0, 1, 0⟩], [(0, 1), (2, 1)]⟩ ∧
    G1538.num_edges ⟨[⟨0, 0, 0⟩, ⟨1, 0, 0⟩, ⟨0, 1, 0⟩], [(0, 1), (2, 1)], [[1], [0, 2], [1]]⟩ =
      G8998.num_edges ⟨[⟨0, 0, 0⟩, ⟨1, 0, 0⟩, ⟨0, 1, 0⟩], [(0, 1), (2, 1)]⟩ ∧
    G1538.has_edge ⟨[⟨0, 0, 0⟩, ⟨1, 0, 0⟩, ⟨0, 1, 0⟩], [(0, 1), (2, 1)], [[1], [0, 2], [1]]⟩
        (G1538.node 1 1) (G1538.node 1 2) =
      some (G8998.has_edge ⟨[⟨0, 0, 0⟩, ⟨1, 0, 0⟩, ⟨0, 1, 0⟩], [(0, 1), (2, 1)]⟩
        (G8998.node 2 1) (G8998.node 2 2)) :=
  have h := (c33_variants_agree_1538_8998 1 2
    [Op.add_node ⟨0, 0, 0⟩, Op.add_node ⟨1, 0, 0⟩, Op.add_node ⟨0, 1, 0⟩,
      Op.add_edge 0 1, Op.add_edge 2 1, Op.add_edge 1 0]).2
    ⟨[⟨0, 0, 0⟩, ⟨1, 0, 0⟩, ⟨0, 1, 0⟩], [(0, 1), (2, 1)], [[1], [0, 2], [1]]⟩
    ⟨[⟨0, 0, 0⟩, ⟨1, 0, 0⟩, ⟨0, 1, 0⟩], [(0, 1), (2, 1)]⟩ (by decide) (by decide)
  ⟨h.1, h.2.1, h.2.2.1 1 2 (by decide) (by decide)⟩

/-! ### Variant `Graph_1538fb7d5508.hpp`: frame properties of `add_node` and `add_edge` -/

/-- C34 (Graph_1538fb7d5508.hpp): edge enumeration is append-only: for every
reachable state and every `k < num_edges()`, `edge(k)` returns the same handle
(the same `node1().index()` and `node2().index()`) before and after any
`add_node` call and any `add_edge` call on distinct valid nodes. -/
theorem c34_edge_enumeration_stable_1538 (this : Addr) (ops : List Op) (g : G1538.Graph)
    (hrun : G1538.run this ops G1538.empty = some g) (op : Op) (hop : op ≠ Op.clear)
    (g1 : G1538.Graph) (hstep : G1538.step this g op = some g1) (k : Nat)
    (hk : k < G1538.num_edges g) :
    ∃ e, G1538.edge this g k = some e ∧ G1538.edge this g1 k = some e ∧
      k < G1538.num_edges g1 := by
  have hinv := g1538_inv_reachable this ops g hrun
  have hk1 : k < g.edges_.length := hk
  have hget : g.edges_[k]? = some g.edges_[k] := List.getElem?_eq_getElem hk1
  have he : G1538.edge this g k = some ⟨this, g.edges_[k].1, g.edges_[k].2⟩ :=
    (g1538_edge_some_iff this g k _).mpr ⟨_, hget, rfl⟩
  refine ⟨_, he, ?_⟩
  cases op with
  | add_node position =>
    simp only [G1538.step, Option.some.injEq] at hstep
    subst hstep
    exact ⟨(g1538_edge_some_iff this _ k _).mpr ⟨_, hget, rfl⟩, hk⟩
  | add_edge i j =>
    simp only [G1538.step] at hstep
    split_ifs at hstep with hc
    obtain ⟨hi, hj, _⟩ := hc
    rcases g1538_add_edge_cases this g (G1538.node this i) (G1538.node this j) hinv hi hj with
      ⟨_, hadd⟩ | ⟨_, _, adj2, _, _, hadd⟩
    · rw [hadd] at hstep
      simp only [Option.map_some', Option.some.injEq] at hstep
      subst hstep
      exact ⟨he, hk⟩
    · rw [hadd] at hstep
      simp only [Option.map_some', Option.some.injEq] at hstep
      subst hstep
      refine ⟨(g1538_edge_some_iff this _ k _).mpr ⟨_, ?_, rfl⟩, ?_⟩
      · show (g.edges_ ++ [_])[k]? = some g.edges_[k]
        rw [List.getElem?_append_left hk1, hget]
      · show k < (g.edges_ ++ [_]).length
        simp only [List.length_append, List.length_singleton]
        omega
  | clear => exact absurd rfl hop

/-- Witness of C34: slot 0 of a graph with the edge {0,1}, across
`add_edge(node(2), node(1))`. -/
theorem c34_edge_enumeration_stable_1538_witness :
    ∃ e, G1538.edge 1 ⟨[⟨0, 0, 0⟩, ⟨1, 0, 0⟩, ⟨0, 1, 0⟩], [(0, 1)], [[1], [0], []]⟩ 0 = some e ∧
      G1538.edge 1 ⟨[⟨0, 0, 0⟩, ⟨1, 0, 0⟩, ⟨0, 1, 0⟩], [(0, 1), (2, 1)], [[1], [0, 2], [1]]⟩ 0 =
        some e ∧
      0 < G1538.num_edges
        ⟨[⟨0, 0, 0⟩, ⟨1, 0, 0⟩, ⟨0, 1, 0⟩], [(0, 1), (2, 1)], [[1], [0, 2], [1]]⟩ :=
  c34_edge_enumeration_stable_1538 1
    [Op.add_node ⟨0, 0, 0⟩, Op.add_node ⟨1, 0, 0⟩, Op.add_node ⟨0, 1, 0⟩, Op.add_edge 0 1]
    ⟨[⟨0, 0, 0⟩, ⟨1, 0, 0⟩, ⟨0, 1, 0⟩], [(0, 1)], [[1], [0], []]⟩ (by decide)
    (Op.add_edge 2 1) (by decide)
    ⟨[⟨0, 0, 0⟩, ⟨1, 0, 0⟩, ⟨0, 1, 0⟩], [(0, 1), (2, 1)], [[1], [0, 2], [1]]⟩ (by decide)
    0 (by decide)

/-- C35 (Graph_1538fb7d5508.hpp): for every reachable state and every point
`p`: after `n = add_node(p)`, `num_edges()` is unchanged, `has_edge(a, b)` is
unchanged for every pair of nodes `a`, `b` that were valid before the call, and
the new node has no incident edge: `has_edge(n, m)` and `has_edge(m, n)` are
false for every valid node `m`. -/
theorem c35_add_node_frame_1538 (this : Addr) (ops : List Op) (g : G1538.Graph)
    (hrun : G1538.run this ops G1538.empty = some g) (p : Point) :
    G1538.num_edges (G1538.add_node this g p).1 = G1538.num_edges g ∧
    (∀ a b, G1538.validNode this g a → G1538.validNode this g b →
      G1538.has_edge (G1538.add_node this g p).1 a b = G1538.has_edge g a b) ∧
    (∀ m, G1538.validNode this (G1538.add_node this g p).1 m →
      G1538.has_edge (G1538.add_node this g p).1 (G1538.add_node this g p).2 m = some false ∧
      G1538.has_edge (G1538.add_node this g p).1 m (G1538.add_node this g p).2 = some false) := by
  have hinv := g1538_inv_reachable this ops g hrun
  have hlen := hinv.adj_len
  have hnew : (g.adjacency_ ++ [([] : List Nat)])[g.nodes_.length]? = some [] := by
    rw [← hlen]
    simp
  refine ⟨rfl, ?_, ?_⟩
  · intro a b ha _
    have hlt : a.index < g.adjacency_.length := by rw [hlen]; exact ha.2
    show (match (g.adjacency_ ++ [([] : List Nat)])[a.index]? with
      | none => none
      | some l => some (G1538.has_edge_loop b.index l)) = G1538.has_edge g a b
    rw [List.getElem?_append_left hlt]
    rfl
  · intro m hm
    have hnidx : (G1538.add_node this g p).2.index = g.nodes_.length := by
      simp [G1538.add_node, G1538.Node.index]
    constructor
    · show (match (g.adjacency_ ++ [([] : List Nat)])[(G1538.add_node this g p).2.index]? with
        | none => none
        | some l => some (G1538.has_edge_loop m.index l)) = some false
      rw [hnidx, hnew]
      rfl
    · show (match (g.adjacency_ ++ [([] : List Nat)])[m.index]? with
        | none => none
        | some l => some (G1538.has_edge_loop (G1538.add_node this g p).2.index l)) = some false
      have hm2 : m.index < g.nodes_.length + 1 := by
        have := hm.2
        simpa [G1538.num_nodes, G1538.size, G1538.add_node] using this
      rw [hnidx]
      rcases Nat.lt_or_ge m.index g.nodes_.length with hlt | hge
      · have hlt2 : m.index < g.adjacency_.length := by rw [hlen]; exact hlt
        rw [List.getElem?_append_left hlt2, List.getElem?_eq_getElem hlt2]
        simp only [Option.some.injEq]
        cases hx : G1538.has_edge_loop g.nodes_.length g.adjacency_[m.index] with
        | false => rfl
        | true =>
          exfalso
          have hmem := (g1538_has_edge_loop_iff _ _).mp hx
          have hadj : G1538.adjMem g.adjacency_ m.index g.nodes_.length :=
            ⟨_, List.getElem?_eq_getElem hlt2, hmem⟩
          rcases (hinv.adj_iff _ _).mp hadj with h | h
          · have := (hinv.ends _ h).2.1
            simp at this
          · have := (hinv.ends _ h).1
            simp at this
      · have heq : m.index = g.nodes_.length := by omega
        rw [heq, hnew]
        rfl

/-- Witness of C35: the graph with two nodes and the edge {0,1}; the node
`m = node(1)` is valid after `add_node`. -/
theorem c35_add_node_frame_1538_witness :
    G1538.has_edge (G1538.add_node 1 ⟨[⟨0, 0, 0⟩, ⟨1, 0, 0⟩], [(0, 1)], [[1], [0]]⟩ ⟨0, 1, 0⟩).1
        (G1538.add_node 1 ⟨[⟨0, 0, 0⟩, ⟨1, 0, 0⟩], [(0, 1)], [[1], [0]]⟩ ⟨0, 1, 0⟩).2
        (G1538.node 1 1) = some false ∧
    G1538.has_edge (G1538.add_node 1 ⟨[⟨0, 0, 0⟩, ⟨1, 0, 0⟩], [(0, 1)], [[1], [0]]⟩ ⟨0, 1, 0⟩).1
        (G1538.node 1 1)
        (G1538.add_node 1 ⟨[⟨0, 0, 0⟩, ⟨1, 0, 0⟩], [(0, 1)], [[1], [0]]⟩ ⟨0, 1, 0⟩).2 =
      some false :=
  (c35_add_node_frame_1538 1
    [Op.add_node ⟨0, 0, 0⟩, Op.add_node ⟨1, 0, 0⟩, Op.add_edge 0 1]
    ⟨[⟨0, 0, 0⟩, ⟨1, 0, 0⟩], [(0, 1)], [[1], [0]]⟩ (by decide) ⟨0, 1, 0⟩).2.2
    (G1538.node 1 1) ⟨rfl, by decide⟩

/-- C36 (Graph_2eee0fc59d4c.hpp): in every state reachable by `add_node`,
`add_edge` (on distinct valid nodes) and `clear`, the adjacency vector `edges_`
has at least `num_nodes()` entries, so for valid nodes `a`, `b` the accesses
`edges_[a.uid_]` and `edges_[b.uid_]` are within bounds: `has_edge(a, b)`
returns a boolean and, when `a` and `b` are distinct, `add_edge(a, b)` returns
an edge. -/
theorem c36_adjacency_in_bounds_2eee (this : Addr) (ops : List Op) (g : G2eee.Graph)
    (hrun : G2eee.run this ops G2eee.empty = some g) :
    G2eee.num_nodes g ≤ g.edges_.length ∧
    ∀ a b, G2eee.validNode this g a → G2eee.validNode this g b →
      (∃ la lb, g.edges_[a.uid_]? = some la ∧ g.edges_[b.uid_]? = some lb) ∧
      (∃ r, G2eee.has_edge this g a b = Except.ok r) ∧
      (a.index ≠ b.index → ∃ g1 e, G2eee.add_edge this g a b = Except.ok (g1, e)) := by
  have hinv := g2eee_inv_reachable this ops g hrun
  refine ⟨hinv.len, ?_⟩
  intro a b ha hb
  have hla : a.uid_ < g.edges_.length := lt_of_lt_of_le ha.2 hinv.len
  have hlb : b.uid_ < g.edges_.length := lt_of_lt_of_le hb.2 hinv.len
  refine ⟨⟨_, _, List.getElem?_eq_getElem hla, List.getElem?_eq_getElem hlb⟩, ?_, ?_⟩
  · obtain ⟨l, _, hh⟩ := g2eee_has_edge_ok this g a b hinv.len ha hb.1
    exact ⟨_, hh⟩
  · intro hab
    obtain ⟨g1, hadd, _⟩ := g2eee_add_edge_spec this g a b hinv ha hb hab
    exact ⟨g1, _, hadd⟩

/-- Witness of C36: two nodes added after a `clear()` that left three
adjacency lists behind. -/
theorem c36_adjacency_in_bounds_2eee_witness :
    (∃ la lb,
      (⟨[⟨⟨0, 0, 0⟩, []⟩, ⟨⟨1, 0, 0⟩, []⟩], [[1], [0], [], [], []], []⟩ : G2eee.Graph).edges_[0]? =
        some la ∧
      (⟨[⟨⟨0, 0, 0⟩, []⟩, ⟨⟨1, 0, 0⟩, []⟩], [[1], [0], [], [], []], []⟩ : G2eee.Graph).edges_[1]? =
        some lb) ∧
    (∃ r, G2eee.has_edge 1 ⟨[⟨⟨0, 0, 0⟩, []⟩, ⟨⟨1, 0, 0⟩, []⟩], [[1], [0], [], [], []], []⟩
      ⟨1, 0⟩ ⟨1, 1⟩ = Except.ok r) ∧
    ((⟨1, 0⟩ : G2eee.Node).index ≠ (⟨1, 1⟩ : G2eee.Node).index →
      ∃ g1 e, G2eee.add_edge 1 ⟨[⟨⟨0, 0, 0⟩, []⟩, ⟨⟨1, 0, 0⟩, []⟩], [[1], [0], [], [], []], []⟩
        ⟨1, 0⟩ ⟨1, 1⟩ = Except.ok (g1, e)) :=
  (c36_adjacency_in_bounds_2eee 1
    [Op.add_node ⟨0, 0, 0⟩, Op.add_node ⟨1, 0, 0⟩, Op.add_node ⟨0, 1, 0⟩, Op.add_edge 0 1,
      Op.clear, Op.add_node ⟨0, 0, 0⟩, Op.add_node ⟨1, 0, 0⟩]
    ⟨[⟨⟨0, 0, 0⟩, []⟩, ⟨⟨1, 0, 0⟩, []⟩], [[1], [0], [], [], []], []⟩ (by decide)).2
    ⟨1, 0⟩ ⟨1, 1⟩ ⟨rfl, by decide⟩ ⟨rfl, by decide⟩

/-- The two embeddings of `Graph::add_edge` agree: `add_edge` returns what
`add_edge_stmts` returns, with the graph the call leaves when it returns an
edge. -/
theorem g2eee_add_edge_stmts_result (this : Addr) (g : G2eee.Graph) (a b : G2eee.Node) :
    G2eee.add_edge this g a b =
      match (G2eee.add_edge_stmts this g a b).2 with
      | Except.ok e => Except.ok ((G2eee.add_edge_stmts this g a b).1, e)
      | Except.error f => Except.error f := by
  unfold G2eee.add_edge G2eee.add_edge_stmts
  by_cases hab : a.uid_ ≠ b.uid_
  · simp only [if_pos hab]
    cases hh : G2eee.has_edge this g a b with
    | error f => rfl
    | ok r =>
      cases r with
      | true => rfl
      | false =>
        cases h1 : G2eee.edges_push g.edges_ a.uid_ b.uid_ with
        | error f => rfl
        | ok edges1 =>
          cases h2 : G2eee.edges_push edges1 b.uid_ a.uid_ with
          | error f => simp only [h2]
          | ok edges2 => simp only [h2]
  · simp only [if_neg hab]

/-- C37 (Graph_2eee0fc59d4c.hpp): `add_edge(a, b)` with
`a.index() == b.index()` fails its assertion before any mutation, in every
state: the call returns the assertion fault, and the graph at the point where
it stops is the graph the call started from, so `num_edges()`, the enumeration
list `edges_list` and the adjacency lists `edges_` are all unchanged. -/
theorem c37_add_edge_self_loop_asserts_2eee (this : Addr) (g : G2eee.Graph)
    (a b : G2eee.Node) (hab : a.index = b.index) :
    G2eee.add_edge this g a b = Except.error Fault.assertion ∧
    (G2eee.add_edge_stmts this g a b).2 = Except.error Fault.assertion ∧
    (G2eee.add_edge_stmts this g a b).1 = g ∧
    G2eee.num_edges (G2eee.add_edge_stmts this g a b).1 = G2eee.num_edges g ∧
    (G2eee.add_edge_stmts this g a b).1.edges_list = g.edges_list ∧
    (G2eee.add_edge_stmts this g a b).1.edges_ = g.edges_ := by
  have h : a.uid_ = b.uid_ := hab
  have hst : G2eee.add_edge_stmts this g a b = (g, Except.error Fault.assertion) := by
    simp [G2eee.add_edge_stmts, h]
  refine ⟨by simp [G2eee.add_edge, h], ?_, ?_, ?_, ?_, ?_⟩ <;> rw [hst]

/-- Witness of C37: `add_edge(node(1), node(1))` on the graph with two nodes and
the edge {0,1}. -/
theorem c37_add_edge_self_loop_asserts_2eee_witness :
    G2eee.add_edge 1 ⟨[⟨⟨0, 0, 0⟩, []⟩, ⟨⟨1, 0, 0⟩, []⟩], [[1], [0]], [[0, 1]]⟩
      ⟨1, 1⟩ ⟨1, 1⟩ = Except.error Fault.assertion ∧
    (G2eee.add_edge_stmts 1 ⟨[⟨⟨0, 0, 0⟩, []⟩, ⟨⟨1, 0, 0⟩, []⟩], [[1], [0]], [[0, 1]]⟩
      ⟨1, 1⟩ ⟨1, 1⟩).2 = Except.error Fault.assertion ∧
    (G2eee.add_edge_stmts 1 ⟨[⟨⟨0, 0, 0⟩, []⟩, ⟨⟨1, 0, 0⟩, []⟩], [[1], [0]], [[0, 1]]⟩
      ⟨1, 1⟩ ⟨1, 1⟩).1 = ⟨[⟨⟨0, 0, 0⟩, []⟩, ⟨⟨1, 0, 0⟩, []⟩], [[1], [0]], [[0, 1]]⟩ ∧
    G2eee.num_edges (G2eee.add_edge_stmts 1
      ⟨[⟨⟨0, 0, 0⟩, []⟩, ⟨⟨1, 0, 0⟩, []⟩], [[1], [0]], [[0, 1]]⟩ ⟨1, 1⟩ ⟨1, 1⟩).1 = 1 ∧
    (G2eee.add_edge_stmts 1 ⟨[⟨⟨0, 0, 0⟩, []⟩, ⟨⟨1, 0, 0⟩, []⟩], [[1], [0]], [[0, 1]]⟩
      ⟨1, 1⟩ ⟨1, 1⟩).1.edges_list = [[0, 1]] ∧
    (G2eee.add_edge_stmts 1 ⟨[⟨⟨0, 0, 0⟩, []⟩, ⟨⟨1, 0, 0⟩, []⟩], [[1], [0]], [[0, 1]]⟩
      ⟨1, 1⟩ ⟨1, 1⟩).1.edges_ = [[1], [0]] :=
  c37_add_edge_self_loop_asserts_2eee 1
    ⟨[⟨⟨0, 0, 0⟩, []⟩, ⟨⟨1, 0, 0⟩, []⟩], [[1], [0]], [[0, 1]]⟩ ⟨1, 1⟩ ⟨1, 1⟩ rfl

/-! ### Variant `Graph_fb5c2f2afa8a.hpp`: the search of `has_node` -/

theorem gfb5c_find_node_iff (nd : Gfb5c.InternalNode) (l : List Gfb5c.InternalNode) :
    Gfb5c.find_node nd l = true ↔ ∃ r, r ∈ l ∧ r.ind = nd.ind := by
  induction l with
  | nil => simp [Gfb5c.find_node]
  | cons x rest ih =>
    unfold Gfb5c.find_node
    by_cases hx : x.ind = nd.ind
    · have hxe : Gfb5c.InternalNode.eq x nd = true := by simp [Gfb5c.InternalNode.eq, hx]
      simp only [hxe, if_true, true_iff]
      exact ⟨x, List.mem_cons_self _ _, hx⟩
    · have hxe : Gfb5c.InternalNode.eq x nd = false := by simp [Gfb5c.InternalNode.eq, hx]
      simp only [hxe, Bool.false_eq_true, if_false, ih]
      constructor
      · rintro ⟨r, hr, he⟩
        exact ⟨r, List.mem_cons_of_mem _ hr, he⟩
      · rintro ⟨r, hr, he⟩
        rcases List.mem_cons.mp hr with rfl | hr1
        · exact absurd he hx
        · exact ⟨r, hr1, he⟩

/-- C38 (Graph_fb5c2f2afa8a.hpp): in every state reachable by `add_node`,
`add_edge` (on distinct valid nodes) and `clear`, for every Node handle `n` of
any graph instance: `has_node(n)` is true if and only if
`n.index() < num_nodes()`; the owning graph of `n` is not consulted. -/
theorem c38_has_node_iff_in_range_fb5c (this : Addr) (ops : List Op) (g : Gfb5c.Graph)
    (hrun : Gfb5c.run this ops Gfb5c.empty = some g) (n : Gfb5c.Node) :
    Gfb5c.has_node g n = true ↔ n.index < Gfb5c.num_nodes g := by
  have hinv := gfb5c_inv_reachable this ops g hrun
  unfold Gfb5c.has_node
  simp only
  rw [gfb5c_find_node_iff]
  show (∃ r, r ∈ g.nodes ∧ r.ind = n.index) ↔ n.index < g.size_
  rw [hinv.size_eq]
  constructor
  · rintro ⟨r, hr, he⟩
    obtain ⟨i, hi⟩ := List.mem_iff_getElem?.mp hr
    have := hinv.node_ind i r hi
    have hlt := (List.getElem?_eq_some.mp hi).1
    omega
  · intro hlt
    have hget : g.nodes[n.index]? = some g.nodes[n.index] := List.getElem?_eq_getElem hlt
    exact ⟨_, List.getElem?_mem hget, hinv.node_ind _ _ hget⟩

/-- Witness of C38: a graph at address 1 with two nodes and a handle of
another graph (address 2) with index 1. -/
theorem c38_has_node_iff_in_range_fb5c_witness :
    Gfb5c.has_node ⟨2, [⟨⟨0, 0, 0⟩, 0⟩, ⟨⟨1, 0, 0⟩, 1⟩], []⟩ ⟨2, 1⟩ = true ↔
      (⟨2, 1⟩ : Gfb5c.Node).index < Gfb5c.num_nodes ⟨2, [⟨⟨0, 0, 0⟩, 0⟩, ⟨⟨1, 0, 0⟩, 1⟩], []⟩ :=
  c38_has_node_iff_in_range_fb5c 1 [Op.add_node ⟨0, 0, 0⟩, Op.add_node ⟨1, 0, 0⟩]
    ⟨2, [⟨⟨0, 0, 0⟩, 0⟩, ⟨⟨1, 0, 0⟩, 1⟩], []⟩ (by decide) ⟨2, 1⟩

/-! ### Variant `Graph_1538fb7d5508.hpp`: no index twice in an adjacency list -/

theorem g1538_nodup_snoc (l : List Nat) (x : Nat) (hl : l.Nodup) (hx : x ∉ l) :
    (l ++ [x]).Nodup := by
  rw [List.nodup_append]
  refine ⟨hl, List.nodup_singleton x, ?_⟩
  intro a ha hb
  simp only [List.mem_singleton] at hb
  subst hb
  exact hx ha

theorem g1538_adjacency_push_spec {adj adj1 : List (List Nat)} {u v : Nat}
    (h : G1538.adjacency_push adj u v = some adj1) :
    ∃ l, adj[u]? = some l ∧ adj1 = adj.set u (l ++ [v]) := by
  unfold G1538.adjacency_push at h
  cases hl : adj[u]? with
  | none => simp [hl] at h
  | some l =>
    simp only [hl, Option.some.injEq] at h
    exact ⟨l, rfl, h.symm⟩

theorem g1538_nodup_push {adj adj1 : List (List Nat)} {u v : Nat}
    (h : G1538.adjacency_push adj u v = some adj1)
    (hnd : ∀ (w : Nat) (l : List Nat), adj[w]? = some l → l.Nodup)
    (hnot : ¬ G1538.adjMem adj u v) :
    ∀ (w : Nat) (l : List Nat), adj1[w]? = some l → l.Nodup := by
  obtain ⟨lu, hlu, rfl⟩ := g1538_adjacency_push_spec h
  have hlt : u < adj.length := (List.getElem?_eq_some.mp hlu).1
  intro w l hw
  by_cases hwu : w = u
  · subst hwu
    rw [List.getElem?_set_self hlt] at hw
    cases hw
    exact g1538_nodup_snoc lu v (hnd w lu hlu) (fun hv => hnot ⟨lu, hlu, hv⟩)
  · rw [List.getElem?_set_ne (fun hh => hwu hh.symm)] at hw
    exact hnd w l hw

theorem g1538_nodup_step (this : Addr) (g g1 : G1538.Graph) (op : Op)
    (hinv : G1538.Inv g) (hnd : G1538.AdjNodup g)
    (hstep : G1538.step this g op = some g1) : G1538.AdjNodup g1 := by
  cases op with
  | add_node position =>
    simp only [G1538.step, Option.some.injEq] at hstep
    subst hstep
    intro u l hl
    have hl1 : (g.adjacency_ ++ [([] : List Nat)])[u]? = some l := hl
    rcases Nat.lt_or_ge u g.adjacency_.length with hlt | hge
    · rw [List.getElem?_append_left hlt] at hl1
      exact hnd u l hl1
    · rw [List.getElem?_append_right hge] at hl1
      have hu0 : u - g.adjacency_.length = 0 := by
        by_contra hne
        rw [List.getElem?_eq_none (by simp; omega)] at hl1
        cases hl1
      rw [hu0] at hl1
      simp only [List.getElem?_cons_zero, Option.some.injEq] at hl1
      subst hl1
      exact List.nodup_nil
  | add_edge i j =>
    simp only [G1538.step] at hstep
    split_ifs at hstep with hc
    obtain ⟨hi, hj, hij⟩ := hc
    have hiff := g1538_has_edge_true_iff g (G1538.node this i) (G1538.node this j) hinv hi
    rcases g1538_add_edge_cases this g (G1538.node this i) (G1538.node this j) hinv hi hj with
      ⟨_, hadd⟩ | ⟨hf, adj1, adj2, h1, h2, hadd⟩
    · rw [hadd] at hstep
      simp only [Option.map_some', Option.some.injEq] at hstep
      subst hstep
      exact hnd
    · rw [hadd] at hstep
      simp only [Option.map_some', Option.some.injEq] at hstep
      subst hstep
      have hnot1 : ¬ G1538.adjMem g.adjacency_ i j := by
        intro hm
        have := hiff.mpr ((hinv.adj_iff i j).mp hm)
        rw [hf] at this
        cases this
      have hnot2 : ¬ G1538.adjMem adj1 j i := by
        intro hm
        rcases (g1538_adjMem_push h1 j i).mp hm with hm1 | ⟨hji, _⟩
        · exact hnot1 ((hinv.adj_iff i j).mpr (((hinv.adj_iff j i).mp hm1).symm))
        · exact hij hji.symm
      exact g1538_nodup_push h2 (g1538_nodup_push h1 hnd hnot1) hnot2
  | clear =>
    simp only [G1538.step, Option.some.injEq] at hstep
    subst hstep
    intro u l hl
    simp [G1538.clear] at hl

theorem g1538_nodup_run_from (this : Addr) (ops : List Op) (g g1 : G1538.Graph)
    (hinv : G1538.Inv g) (hnd : G1538.AdjNodup g)
    (hrun : G1538.run this ops g = some g1) : G1538.AdjNodup g1 := by
  induction ops generalizing g with
  | nil =>
    simp only [G1538.run, Option.some.injEq] at hrun
    subst hrun
    exact hnd
  | cons op ops ih =>
    unfold G1538.run at hrun
    cases hs : G1538.step this g op with
    | none => rw [hs] at hrun; cases hrun
    | some g2 =>
      rw [hs] at hrun
      exact ih g2 (g1538_inv_step this g g2 op hinv hs)
        (g1538_nodup_step this g g2 op hinv hnd hs) hrun

/-- C39 (Graph_1538fb7d5508.hpp): in every state reachable by `add_node`,
`add_edge` (on distinct valid nodes) and `clear`: `adjacency_` has exactly
`num_nodes()` entries, every neighbour index stored in `adjacency_[u]` is
`< num_nodes()` and `!= u`, `v` occurs in `adjacency_[u]` if and only if `u`
occurs in `adjacency_[v]`, and no index occurs twice in the same adjacency
list. -/
theorem c39_adjacency_invariant_1538 (this : Addr) (ops : List Op) (g : G1538.Graph)
    (hrun : G1538.run this ops G1538.empty = some g) :
    g.adjacency_.length = G1538.num_nodes g ∧
    (∀ (u v : Nat) (l : List Nat), g.adjacency_[u]? = some l → v ∈ l →
      v < G1538.num_nodes g ∧ v ≠ u) ∧
    (∀ u v, G1538.adjMem g.adjacency_ u v ↔ G1538.adjMem g.adjacency_ v u) ∧
    (∀ (u : Nat) (l : List Nat), g.adjacency_[u]? = some l → l.Nodup) := by
  have hinv := g1538_inv_reachable this ops g hrun
  have hnd : G1538.AdjNodup g := by
    refine g1538_nodup_run_from this ops G1538.empty g g1538_inv_empty ?_ hrun
    intro u l hl
    simp [G1538.empty] at hl
  refine ⟨hinv.adj_len, ?_, ?_, hnd⟩
  · intro u v l hl hv
    rcases (hinv.adj_iff u v).mp ⟨l, hl, hv⟩ with h | h
    · obtain ⟨_, h2, h3⟩ := hinv.ends _ h
      exact ⟨h2, fun hh => h3 hh.symm⟩
    · obtain ⟨h1, _, h3⟩ := hinv.ends _ h
      exact ⟨h1, h3⟩
  · intro u v
    rw [hinv.adj_iff u v, hinv.adj_iff v u]
    exact Or.comm

/-- Witness of C39: three nodes and the edges {0,1} and {2,1}, with a third
`add_edge` that repeats the first edge in the opposite order. -/
theorem c39_adjacency_invariant_1538_witness :
    (⟨[⟨0, 0, 0⟩, ⟨1, 0, 0⟩, ⟨0, 1, 0⟩], [(0, 1), (2, 1)], [[1], [0, 2], [1]]⟩ :
      G1538.Graph).adjacency_.length =
      G1538.num_nodes ⟨[⟨0, 0, 0⟩, ⟨1, 0, 0⟩, ⟨0, 1, 0⟩], [(0, 1), (2, 1)], [[1], [0, 2], [1]]⟩ ∧
    (∀ (u : Nat) (l : List Nat),
      (⟨[⟨0, 0, 0⟩, ⟨1, 0, 0⟩, ⟨0, 1, 0⟩], [(0, 1), (2, 1)], [[1], [0, 2], [1]]⟩ :
        G1538.Graph).adjacency_[u]? = some l → l.Nodup) :=
  have h := c39_adjacency_invariant_1538 1
    [Op.add_node ⟨0, 0, 0⟩, Op.add_node ⟨1, 0, 0⟩, Op.add_node ⟨0, 1, 0⟩,
      Op.add_edge 0 1, Op.add_edge 2 1, Op.add_edge 1 0]
    ⟨[⟨0, 0, 0⟩, ⟨1, 0, 0⟩, ⟨0, 1, 0⟩], [(0, 1), (2, 1)], [[1], [0, 2], [1]]⟩ (by decide)
  ⟨h.1, h.2.2.2⟩

/-! ### Variant `Graph_fb5c2f2afa8a.hpp`: the stored slots -/

theorem gfb5c_find_edge_some (ed p : Gfb5c.InternalEdge) (l : List Gfb5c.InternalEdge)
    (h : Gfb5c.find_edge ed l = some p) : p ∈ l ∧ Gfb5c.sameEnds p ed := by
  induction l with
  | nil => simp [Gfb5c.find_edge] at h
  | cons y rest ih =>
    unfold Gfb5c.find_edge at h
    split_ifs at h with hy
    · simp only [Option.some.injEq] at h
      subst h
      exact ⟨List.mem_cons_self _ _, (gfb5c_internal_edge_eq_iff _ _).mp hy⟩
    · obtain ⟨h1, h2⟩ := ih h
      exact ⟨List.mem_cons_of_mem _ h1, h2⟩

/-- C40 (Graph_fb5c2f2afa8a.hpp): in every state reachable by `add_node`,
`add_edge` (on distinct valid nodes) and `clear`: `size_` equals
`nodes.size()`, `nodes[i].ind == i` for every `i < nodes.size()`, and
`edges[k].ind == k` for every `k < edges.size()`; so when `add_edge(a, b)`
finds an existing record `p`, the handle `Edge(this, p->ind)` it returns refers
to the slot where `p` is stored, and `p` connects `a` and `b`. -/
theorem c40_slots_fb5c (this : Addr) (ops : List Op) (g : Gfb5c.Graph)
    (hrun : Gfb5c.run this ops Gfb5c.empty = some g) :
    g.size_ = g.nodes.length ∧
    (∀ (i : Nat) (r : Gfb5c.InternalNode), g.nodes[i]? = some r → r.ind = i) ∧
    (∀ (k : Nat) (r : Gfb5c.InternalEdge), g.edges[k]? = some r → r.ind = k) ∧
    (∀ (a b : Gfb5c.Node) (p : Gfb5c.InternalEdge),
      Gfb5c.find_edge ⟨a.index, b.index, 0⟩ g.edges = some p →
      Gfb5c.add_edge this g a b = (g, ⟨this, p.ind⟩) ∧ g.edges[p.ind]? = some p ∧
      Gfb5c.sameEnds p ⟨a.index, b.index, 0⟩) := by
  have hinv := gfb5c_inv_reachable this ops g hrun
  refine ⟨hinv.size_eq, hinv.node_ind, hinv.edge_ind, ?_⟩
  intro a b p hp
  obtain ⟨hmem, hsame⟩ := gfb5c_find_edge_some _ _ _ hp
  obtain ⟨k, hk⟩ := List.mem_iff_getElem?.mp hmem
  have hind := hinv.edge_ind k p hk
  refine ⟨by simp [Gfb5c.add_edge, hp], ?_, hsame⟩
  rw [hind]
  exact hk

/-- Witness of C40: the edge {0,2} is stored in slot 1 as (0, 2) and
`add_edge(node(2), node(0))` finds it. -/
theorem c40_slots_fb5c_witness :
    Gfb5c.add_edge 1 ⟨3, [⟨⟨0, 0, 0⟩, 0⟩, ⟨⟨1, 0, 0⟩, 1⟩, ⟨⟨0, 1, 0⟩, 2⟩],
        [⟨1, 0, 0⟩, ⟨0, 2, 1⟩]⟩ (Gfb5c.node 1 2) (Gfb5c.node 1 0) =
      (⟨3, [⟨⟨0, 0, 0⟩, 0⟩, ⟨⟨1, 0, 0⟩, 1⟩, ⟨⟨0, 1, 0⟩, 2⟩], [⟨1, 0, 0⟩, ⟨0, 2, 1⟩]⟩,
        ⟨1, (⟨0, 2, 1⟩ : Gfb5c.InternalEdge).ind⟩) ∧
    (⟨3, [⟨⟨0, 0, 0⟩, 0⟩, ⟨⟨1, 0, 0⟩, 1⟩, ⟨⟨0, 1, 0⟩, 2⟩], [⟨1, 0, 0⟩, ⟨0, 2, 1⟩]⟩ :
      Gfb5c.Graph).edges[(⟨0, 2, 1⟩ : Gfb5c.InternalEdge).ind]? = some ⟨0, 2, 1⟩ ∧
    Gfb5c.sameEnds ⟨0, 2, 1⟩ ⟨(Gfb5c.node 1 2).index, (Gfb5c.node 1 0).index, 0⟩ :=
  (c40_slots_fb5c 1
    [Op.add_node ⟨0, 0, 0⟩, Op.add_node ⟨1, 0, 0⟩, Op.add_node ⟨0, 1, 0⟩,
      Op.add_edge 1 0, Op.add_edge 0 2]
    ⟨3, [⟨⟨0, 0, 0⟩, 0⟩, ⟨⟨1, 0, 0⟩, 1⟩, ⟨⟨0, 1, 0⟩, 2⟩], [⟨1, 0, 0⟩, ⟨0, 2, 1⟩]⟩
    (by decide)).2.2.2 (Gfb5c.node 1 2) (Gfb5c.node 1 0) ⟨0, 2, 1⟩ (by decide)
